import Mathlib

/-!
Verification of gamepad-key-mapper: keyboard simulator and mapping engine

A shallow embedding of `internal/keyboard/simulator_windows.go` and
`internal/mapper/mapper.go`, with the properties of the output sink and of the
dispatch engine proved over it.

Modelling conventions.

* Mutexes are not modelled: every method body runs as one atomic step on an
  explicit state value (single-threaded semantics).
* The operating-system call inside `sendInputs` is an external primitive.  A
  method returns the new state together with the list of signals it hands to
  `sendInputs`; the Go `error` result of that call is not modelled because the
  bookkeeping is updated before the call and independently of its outcome.
* Go `int` is `Int`, `uint16`/`uint32` values are `Nat` with explicit `% 2^w`
  at the conversions the source performs.
-/

namespace GamepadKeyMapper

/-! ## Data model -/

/-- KeyCode is `type KeyCode int` of `keys.go`. -/
abbrev KeyCode := Int

/-- Button is `type Button uint32` of `buttons.go`. -/
abbrev Button := Nat

def KeyW : KeyCode := 0x57
def KeyX : KeyCode := 0x58
def KeyF1 : KeyCode := 0x70

def ButtonA : Button := 0x1000
def ButtonB : Button := 0x2000
def ButtonX : Button := 0x4000

/-- Modifiers is the struct of `keys.go`. -/
structure Modifiers where
  Ctrl : Bool
  Alt : Bool
  Shift : Bool
  Win : Bool
deriving DecidableEq, Repr

/-- The four fields of `Modifiers`, used to index them. -/
inductive ModFlag where
  | Ctrl
  | Alt
  | Shift
  | Win
deriving DecidableEq, Repr

/-- Field read `mods.<flag>`. -/
def Modifiers.get (m : Modifiers) : ModFlag → Bool
  | .Ctrl => m.Ctrl
  | .Alt => m.Alt
  | .Shift => m.Shift
  | .Win => m.Win

/-- Field write `mods.<flag> = v`. -/
def Modifiers.set (m : Modifiers) (f : ModFlag) (v : Bool) : Modifiers :=
  match f with
  | .Ctrl => { m with Ctrl := v }
  | .Alt => { m with Alt := v }
  | .Shift => { m with Shift := v }
  | .Win => { m with Win := v }

/-- The zero value `Modifiers{}`. -/
def Modifiers.zero : Modifiers := ⟨false, false, false, false⟩

/-- The virtual-key code the simulator uses for each modifier flag
(`0x11` VK_CONTROL, `0x12` VK_MENU, `0x10` VK_SHIFT, `0x5B` VK_LWIN). -/
def ModFlag.vk : ModFlag → Nat
  | .Ctrl => 0x11
  | .Alt => 0x12
  | .Shift => 0x10
  | .Win => 0x5B

def INPUT_KEYBOARD : Nat := 1
def KEYEVENTF_KEYUP : Nat := 0x0002
def KEYEVENTF_EXTENDEDKEY : Nat := 0x0001

/-- KEYBDINPUT of `simulator_windows.go` (padding omitted). -/
structure KEYBDINPUT where
  Vk : Nat
  Scan : Nat
  Flags : Nat
  Time : Nat
  ExtraInfo : Nat
deriving DecidableEq, Repr

/-- INPUT of `simulator_windows.go`; `Kind` is the Go field `Type`. -/
structure INPUT where
  Kind : Nat
  Ki : KEYBDINPUT
deriving DecidableEq, Repr

/-- makeKeyInput of `simulator_windows.go`. -/
def makeKeyInput (vk : Nat) (keyUp : Bool) : INPUT :=
  let flags := if keyUp then KEYEVENTF_KEYUP else 0
  let flags := if vk ≥ 0x70 ∧ vk ≤ 0x7B then flags ||| KEYEVENTF_EXTENDEDKEY else flags
  { Kind := INPUT_KEYBOARD, Ki := { Vk := vk, Scan := 0, Flags := flags, Time := 0, ExtraInfo := 0 } }

/-- The conversion `uint16(key)` of a Go `int`. -/
def uint16 (k : KeyCode) : Nat := (k % 65536).toNat

/-- One element appended to `inputs`, recorded together with what it was
emitted for: a target key of the rule or one of the four modifier flags.
`keyUp = false` is a down-signal, `keyUp = true` an up-signal.  The record that
is handed over is `Signal.toINPUT`; two signals can give the same record (a key
whose code is a modifier's virtual key, or two key codes equal after
`uint16`). -/
inductive Signal where
  | key (k : KeyCode) (keyUp : Bool)
  | modifier (f : ModFlag) (keyUp : Bool)
deriving DecidableEq, Repr

/-- The `INPUT` record the source builds for a signal:
`makeKeyInput(uint16(key), keyUp)` for a key and
`makeKeyInput(<vk of the flag>, keyUp)` for a modifier. -/
def Signal.toINPUT : Signal → INPUT
  | .key k up => makeKeyInput (uint16 k) up
  | .modifier f up => makeKeyInput f.vk up

/-- A Go `map[K]bool` in which every stored value is `true`.  The source only
ever writes `m[k] = true` or `delete(m, k)` to `pressedKeys` and `processing`,
so such a map is determined by its keys; `keys` lists them without repetition in
the order a `range` loop visits them (any order is a value of this type). -/
structure BoolMap (α : Type) where
  keys : List α
  nodup : keys.Nodup

instance {α : Type} [DecidableEq α] : DecidableEq (BoolMap α) := fun a b =>
  match a, b with
  | ⟨ka, _⟩, ⟨kb, _⟩ =>
    if h : ka = kb then isTrue (by subst h; rfl)
    else isFalse (fun e => h (congrArg BoolMap.keys e))

namespace BoolMap

variable {α : Type} [DecidableEq α]

/-- Holds `make(map[K]bool)`. -/
def empty : BoolMap α := ⟨[], List.nodup_nil⟩

/-- The lookup `m[k]` (false when absent). -/
def get (m : BoolMap α) (k : α) : Bool := decide (k ∈ m.keys)

/-- The write `m[k] = true`. -/
def set (m : BoolMap α) (k : α) : BoolMap α :=
  if h : k ∈ m.keys then m
  else ⟨m.keys ++ [k], List.Nodup.append m.nodup (List.nodup_singleton k)
    (by intro a ha hb; rw [List.mem_singleton] at hb; exact h (hb ▸ ha))⟩

/-- The statement `delete(m, k)`. -/
def delete (m : BoolMap α) (k : α) : BoolMap α :=
  ⟨m.keys.filter (fun x => decide (x ≠ k)), m.nodup.filter _⟩

end BoolMap

/-- Simulator of `simulator_windows.go` (the mutex is not modelled). -/
structure Simulator where
  pressedKeys : BoolMap KeyCode
  pressedMods : Modifiers
deriving DecidableEq

/-- NewSimulator: empty map, zero-valued modifiers. -/
def NewSimulator : Simulator := ⟨BoolMap.empty, Modifiers.zero⟩

/-! ## Simulator operations -/

/-- One of the four guarded blocks at the head of `PressKeys`:
`if mods.F && !s.pressedMods.F { inputs = append(inputs, down F); s.pressedMods.F = true }`. -/
def pressMod (mods : Modifiers) (f : ModFlag) (st : Simulator × List Signal) :
    Simulator × List Signal :=
  if mods.get f && !st.1.pressedMods.get f then
    (⟨st.1.pressedKeys, st.1.pressedMods.set f true⟩, st.2 ++ [Signal.modifier f false])
  else st

/-- Body of the `for _, key := range keys` loop of `PressKeys`. -/
def pressKey (st : Simulator × List Signal) (key : KeyCode) : Simulator × List Signal :=
  if !st.1.pressedKeys.get key then
    (⟨st.1.pressedKeys.set key, st.1.pressedMods⟩, st.2 ++ [Signal.key key false])
  else st

/-- PressKeys of `simulator_windows.go`: the modifier blocks in the order
Ctrl, Alt, Shift, Win, then the key loop.  The second component is `inputs`. -/
def PressKeys (s : Simulator) (keys : List KeyCode) (mods : Modifiers) :
    Simulator × List Signal :=
  let st : Simulator × List Signal := (s, [])
  let st := pressMod mods .Ctrl st
  let st := pressMod mods .Alt st
  let st := pressMod mods .Shift st
  let st := pressMod mods .Win st
  keys.foldl pressKey st

/-- Body of the `for _, key := range keys` loop of `ReleaseKeys`. -/
def releaseKey (st : Simulator × List Signal) (key : KeyCode) : Simulator × List Signal :=
  if st.1.pressedKeys.get key then
    (⟨st.1.pressedKeys.delete key, st.1.pressedMods⟩, st.2 ++ [Signal.key key true])
  else st

/-- One of the four guarded blocks at the end of `ReleaseKeys`:
`if mods.F && s.pressedMods.F { inputs = append(inputs, up F); s.pressedMods.F = false }`. -/
def releaseMod (mods : Modifiers) (f : ModFlag) (st : Simulator × List Signal) :
    Simulator × List Signal :=
  if mods.get f && st.1.pressedMods.get f then
    (⟨st.1.pressedKeys, st.1.pressedMods.set f false⟩, st.2 ++ [Signal.modifier f true])
  else st

/-- ReleaseKeys of `simulator_windows.go`: the key loop, then the modifier
blocks in the order Win, Shift, Alt, Ctrl. -/
def ReleaseKeys (s : Simulator) (keys : List KeyCode) (mods : Modifiers) :
    Simulator × List Signal :=
  let st : Simulator × List Signal := (s, [])
  let st := keys.foldl releaseKey st
  let st := releaseMod mods .Win st
  let st := releaseMod mods .Shift st
  let st := releaseMod mods .Alt st
  releaseMod mods .Ctrl st

/-- One of the four blocks of `ReleaseAllKeys`:
`if s.pressedMods.F { inputs = append(inputs, up F) }`. -/
def releaseAllMod (s : Simulator) (f : ModFlag) (inputs : List Signal) : List Signal :=
  if s.pressedMods.get f then inputs ++ [Signal.modifier f true] else inputs

/-- ReleaseAllKeys of `simulator_windows.go`: an up-signal for every key of the
map (in `range` order), the map replaced by a fresh one, an up-signal for every
set modifier in the order Win, Shift, Alt, Ctrl, the modifiers zeroed. -/
def ReleaseAllKeys (s : Simulator) : Simulator × List Signal :=
  let inputs : List Signal := s.pressedKeys.keys.foldl (fun acc key => acc ++ [Signal.key key true]) []
  let inputs := releaseAllMod s .Win inputs
  let inputs := releaseAllMod s .Shift inputs
  let inputs := releaseAllMod s .Alt inputs
  let inputs := releaseAllMod s .Ctrl inputs
  (⟨BoolMap.empty, Modifiers.zero⟩, inputs)

/-! ## Histories of simulator calls -/

/-- One call on the simulator's public bookkeeping interface. -/
inductive SimOp where
  | press (keys : List KeyCode) (mods : Modifiers)
  | release (keys : List KeyCode) (mods : Modifiers)
  | releaseAll

/-- The effect of one call. -/
def SimOp.apply (s : Simulator) : SimOp → Simulator × List Signal
  | .press keys mods => PressKeys s keys mods
  | .release keys mods => ReleaseKeys s keys mods
  | .releaseAll => ReleaseAllKeys s

/-- Runs a sequence of calls; the second component is the concatenation of
everything handed to `sendInputs`, oldest first. -/
def runOps (ops : List SimOp) (st : Simulator × List Signal) : Simulator × List Signal :=
  ops.foldl (fun st op => ((op.apply st.1).1, st.2 ++ (op.apply st.1).2)) st

/-- A down-signal `d` occurs in the trace and no up-signal `u` occurs after it. -/
def Outstanding (d u : Signal) (trace : List Signal) : Prop :=
  ∃ pre post, trace = pre ++ d :: post ∧ u ∉ post

/-- Keeps the first occurrence of every element, in the order of the list. -/
def firstOccurrences {α : Type} [DecidableEq α] (l : List α) : List α :=
  (l.reverse.dedup).reverse

/-- The four modifier flags in the order `PressKeys` tests them. -/
def pressOrder : List ModFlag := [.Ctrl, .Alt, .Shift, .Win]

/-- The four modifier flags in the order `ReleaseKeys` and `ReleaseAllKeys` test them. -/
def releaseOrder : List ModFlag := [.Win, .Shift, .Alt, .Ctrl]

/-! ## Mapping rules and the dispatch engine -/

/-- TargetType is `type TargetType int` of `rule.go`. -/
abbrev TargetType := Int

def TargetKeyboard : TargetType := 0
def TargetGamepad : TargetType := 1

/-- MappingRule of `rule.go`. -/
structure MappingRule where
  ID : String
  Name : String
  SourceKey : Button
  TargetType : GamepadKeyMapper.TargetType
  TargetKeys : List KeyCode
  Modifiers : GamepadKeyMapper.Modifiers
  TargetButtons : List Button
  Enabled : Bool
deriving DecidableEq

/-- NewRuleMultiKeys of `rule.go`. -/
def NewRuleMultiKeys (id : String) (source : Button) (targets : List KeyCode)
    (mods : Modifiers) : MappingRule :=
  { ID := id, Name := "", SourceKey := source, TargetType := TargetKeyboard,
    TargetKeys := targets, Modifiers := mods, TargetButtons := [], Enabled := true }

/-- NewRule of `rule.go`. -/
def NewRule (id : String) (source : Button) (target : KeyCode) (mods : Modifiers) :
    MappingRule :=
  { ID := id, Name := "", SourceKey := source, TargetType := TargetKeyboard,
    TargetKeys := [target], Modifiers := mods, TargetButtons := [], Enabled := true }

/-- NewRuleGamepad of `rule.go`. -/
def NewRuleGamepad (id : String) (source : Button) (targets : List Button) : MappingRule :=
  { ID := id, Name := "", SourceKey := source, TargetType := TargetGamepad,
    TargetKeys := [], Modifiers := Modifiers.zero, TargetButtons := targets, Enabled := true }

/-- ButtonEvent of `listener.go`. -/
structure ButtonEvent where
  Button : GamepadKeyMapper.Button
  Pressed : Bool
  PlayerID : Int
deriving DecidableEq

/-- Mapper of `mapper.go` (the two mutexes are not modelled; rules are held by
value, the dispatch path never writes to them). -/
structure Mapper where
  rules : List MappingRule
  simulator : Simulator
  processing : BoolMap Button
deriving DecidableEq

/-- The keyboard branch shared by `HandleEvent` and `handleGamepadMapping`:
`if pressed { PressKeys(r.TargetKeys, r.Modifiers) } else { ReleaseKeys(...) }`,
its signals appended to what the dispatch has emitted so far. -/
def applyKeyboard (r : MappingRule) (pressed : Bool) (st : Mapper × List Signal) :
    Mapper × List Signal :=
  let res := if pressed then PressKeys st.1.simulator r.TargetKeys r.Modifiers
    else ReleaseKeys st.1.simulator r.TargetKeys r.Modifiers
  ({ st.1 with simulator := res.1 }, st.2 ++ res.2)

/-- The inner `for _, targetRule := range m.rules` loop of
`handleGamepadMapping`, which stops at the first rule that is enabled, has
`SourceKey == targetBtn` and an ID different from the forwarding rule's. -/
def findTargetRule (rules : List MappingRule) (targetBtn : Button) (rule : MappingRule) :
    Option MappingRule :=
  rules.find? (fun targetRule =>
    targetRule.Enabled && targetRule.SourceKey == targetBtn && targetRule.ID != rule.ID)

/-- Body of the `for _, targetBtn := range rule.TargetButtons` loop of
`handleGamepadMapping`; `recurse` is the recursive call. -/
def forwardTarget (recurse : Mapper → MappingRule → Option (Mapper × List Signal))
    (rule : MappingRule) (pressed : Bool) (st : Mapper × List Signal) (targetBtn : Button) :
    Option (Mapper × List Signal) :=
  match findTargetRule st.1.rules targetBtn rule with
  | none => some st
  | some targetRule =>
    if targetRule.TargetType == TargetKeyboard then
      some (applyKeyboard targetRule pressed st)
    else if targetRule.TargetType == TargetGamepad then
      let isProcessing := st.1.processing.get targetBtn
      if !isProcessing then
        let m1 : Mapper := { st.1 with processing := st.1.processing.set targetBtn }
        match recurse m1 targetRule with
        | none => none
        | some (m2, out) =>
          some ({ m2 with processing := m2.processing.delete targetBtn }, st.2 ++ out)
      else some st
    else some st

/-- The `for _, targetBtn := range rule.TargetButtons` loop. -/
def forwardLoop (recurse : Mapper → MappingRule → Option (Mapper × List Signal))
    (rule : MappingRule) (pressed : Bool) :
    List Button → Mapper × List Signal → Option (Mapper × List Signal)
  | [], st => some st
  | targetBtn :: rest, st =>
    match forwardTarget recurse rule pressed st targetBtn with
    | none => none
    | some st1 => forwardLoop recurse rule pressed rest st1

/-- handleGamepadMapping of `mapper.go`.  The first argument bounds the depth
of nested calls: every call frame consumes one unit, and `none` means the
bound was reached.  The result is the mapper after the deferred
`delete(m.processing, rule.SourceKey)` and the signals emitted by the call. -/
def handleGamepadMapping : Nat → Mapper → MappingRule → Bool → Int →
    Option (Mapper × List Signal)
  | 0, _, _, _, _ => none
  | fuel + 1, m, rule, pressed, playerID =>
    let m0 : Mapper := { m with processing := m.processing.set rule.SourceKey }
    match forwardLoop (fun m1 targetRule => handleGamepadMapping fuel m1 targetRule pressed playerID)
        rule pressed rule.TargetButtons (m0, []) with
    | none => none
    | some (m2, out) => some ({ m2 with processing := m2.processing.delete rule.SourceKey }, out)

/-- The `for _, rule := range m.rules` loop of `HandleEvent`, which stops at the
first rule that is enabled and has `SourceKey == event.Button`. -/
def findRule (rules : List MappingRule) (button : Button) : Option MappingRule :=
  rules.find? (fun rule => rule.Enabled && rule.SourceKey == button)

/-- HandleEvent of `mapper.go`; the first argument is the depth bound handed to
`handleGamepadMapping`. -/
def HandleEvent (fuel : Nat) (m : Mapper) (event : ButtonEvent) :
    Option (Mapper × List Signal) :=
  if m.processing.get event.Button then some (m, [])
  else
    match findRule m.rules event.Button with
    | none => some (m, [])
    | some rule =>
      if rule.TargetType == TargetKeyboard then
        some (applyKeyboard rule event.Pressed (m, []))
      else if rule.TargetType == TargetGamepad then
        handleGamepadMapping fuel m rule event.Pressed event.PlayerID
      else some (m, [])

/-- ReleaseAll of `mapper.go`. -/
def Mapper.ReleaseAll (m : Mapper) : Mapper × List Signal :=
  ({ m with simulator := (ReleaseAllKeys m.simulator).1 }, (ReleaseAllKeys m.simulator).2)

/-- The mapper built by `New` (no rules, fresh simulator, empty guard) with a
rule table installed. -/
def Mapper.withRules (rules : List MappingRule) : Mapper :=
  ⟨rules, NewSimulator, BoolMap.empty⟩

/-- Number of distinct source symbols in a rule table. -/
def distinctSources (rules : List MappingRule) : Nat :=
  ((rules.map (fun r => r.SourceKey)).dedup).length

/-- Number of distinct source symbols of the table that are not in-flight. -/
def freeSources (rules : List MappingRule) (processing : BoolMap Button) : Nat :=
  ((rules.map (fun r => r.SourceKey)).dedup).countP (fun b => !processing.get b)

/-- Dispatches a sequence of events one after the other (the body of
`eventLoop` in `app.go`), collecting the emitted signals. -/
def dispatchAll (fuel : Nat) :
    List ButtonEvent → Mapper × List Signal → Option (Mapper × List Signal)
  | [], st => some st
  | event :: rest, st =>
    match HandleEvent fuel st.1 event with
    | none => none
    | some (m1, out) => dispatchAll fuel rest (m1, st.2 ++ out)

/-- What forwarding to keyboard leaves amounts to: for each target button in
order, the first enabled rule with that source and an ID different from the
forwarding rule's is looked up, and when it is a keyboard rule its keys and
modifiers are pressed (on press) or released (on release). -/
def pressLeaves (rules : List MappingRule) (rule : MappingRule) (pressed : Bool)
    (targets : List Button) (st : Simulator × List Signal) : Simulator × List Signal :=
  targets.foldl (fun st t =>
    match findTargetRule rules t rule with
    | none => st
    | some targetRule =>
      if targetRule.TargetType = TargetKeyboard then
        if pressed then
          ((PressKeys st.1 targetRule.TargetKeys targetRule.Modifiers).1,
            st.2 ++ (PressKeys st.1 targetRule.TargetKeys targetRule.Modifiers).2)
        else
          ((ReleaseKeys st.1 targetRule.TargetKeys targetRule.Modifiers).1,
            st.2 ++ (ReleaseKeys st.1 targetRule.TargetKeys targetRule.Modifiers).2)
      else st) st

/-! ## The edge detector (listener) -/

def ButtonY : Button := 0x8000
def ButtonLB : Button := 0x0100
def ButtonRB : Button := 0x0200
def ButtonStart : Button := 0x0010
def ButtonBack : Button := 0x0020
def ButtonXbox : Button := 0x0400
def ButtonShare : Button := 0x0800
def ButtonLeftThumb : Button := 0x0040
def ButtonRightThumb : Button := 0x0080
def ButtonDPadUp : Button := 0x0001
def ButtonDPadDown : Button := 0x0002
def ButtonDPadLeft : Button := 0x0004
def ButtonDPadRight : Button := 0x0008
def ButtonLT : Button := 0x10000
def ButtonRT : Button := 0x20000
def ButtonLeftStickUp : Button := 0x400000
def ButtonLeftStickDown : Button := 0x800000
def ButtonLeftStickLeft : Button := 0x1000000
def ButtonLeftStickRight : Button := 0x2000000
def ButtonRightStickUp : Button := 0x4000000
def ButtonRightStickDown : Button := 0x8000000
def ButtonRightStickLeft : Button := 0x10000000
def ButtonRightStickRight : Button := 0x20000000

/-- TriggerThreshold of `buttons.go` (a `byte`). -/
def TriggerThreshold : Nat := 128

/-- StickThreshold of `buttons.go` (an `int16`). -/
def StickThreshold : Int := 16384

/-- XInputGamepad of `xinput.go`: `Buttons` is a `uint16`, the triggers are
`uint8`, the thumb axes `int16`. -/
structure XInputGamepad where
  Buttons : Nat
  LeftTrigger : Nat
  RightTrigger : Nat
  ThumbLX : Int
  ThumbLY : Int
  ThumbRX : Int
  ThumbRY : Int
deriving DecidableEq

/-- XInputState of `xinput.go`. -/
structure XInputState where
  PacketNumber : Nat
  Gamepad : XInputGamepad
deriving DecidableEq

/-- Listener of `listener.go`.  `eventChan` is the content of the buffered
channel, oldest event first; the poll interval, the mutex and the cancel
function are not modelled. -/
structure Listener where
  controllerID : Int
  eventChan : List ButtonEvent
  prevState : Nat
  prevLT : Bool
  prevRT : Bool
  prevLeftStickUp : Bool
  prevLeftStickDown : Bool
  prevLeftStickLeft : Bool
  prevLeftStickRight : Bool
  prevRightStickUp : Bool
  prevRightStickDown : Bool
  prevRightStickLeft : Bool
  prevRightStickRight : Bool
  running : Bool
deriving DecidableEq

/-- Capacity of the channel made by `make(chan ButtonEvent, 64)` in
`NewListener` and in `Start`. -/
def eventChanCap : Nat := 64

/-- NewListener of `listener.go`: an empty channel, every other field at its
zero value. -/
def NewListener (controllerID : Int) : Listener :=
  { controllerID := controllerID, eventChan := [], prevState := 0, prevLT := false,
    prevRT := false, prevLeftStickUp := false, prevLeftStickDown := false,
    prevLeftStickLeft := false, prevLeftStickRight := false, prevRightStickUp := false,
    prevRightStickDown := false, prevRightStickLeft := false, prevRightStickRight := false,
    running := false }

/-- Start of `listener.go`.  `loadErr` is the result of the external
`LoadXInput()` (`none` is `nil`); the second component is the returned error.
The poll loop it launches is modelled by `pollAll`. -/
def Listener.Start (l : Listener) (loadErr : Option String) : Listener × Option String :=
  if l.running then (l, none)
  else
    match loadErr with
    | some err => (l, some err)
    | none =>
      ({ l with
          eventChan := [], prevState := 0, prevLT := false, prevRT := false,
          prevLeftStickUp := false, prevLeftStickDown := false, prevLeftStickLeft := false,
          prevLeftStickRight := false, prevRightStickUp := false,
          prevRightStickDown := false, prevRightStickLeft := false,
          prevRightStickRight := false, running := true }, none)

/-- sendEvent of `listener.go`: the non-blocking send puts the event at the
tail of the channel when there is room and drops it otherwise. -/
def sendEvent (l : Listener) (button : Button) (pressed : Bool) : Listener :=
  let event : ButtonEvent := { Button := button, Pressed := pressed, PlayerID := l.controllerID }
  if l.eventChan.length < eventChanCap then { l with eventChan := l.eventChan ++ [event] }
  else l

/-- The receive `<-l.Events()` of the consumer (`eventLoop` in `app.go`) when
the channel is not empty: the oldest event and the listener without it. -/
def receiveEvent (l : Listener) : Option (ButtonEvent × Listener) :=
  match l.eventChan with
  | [] => none
  | e :: rest => some (e, { l with eventChan := rest })

/-- A call `l.sendEvent(button, pressed)` on a listener paired with the log of
all events handed to `sendEvent` so far (whether queued or dropped). -/
def emit (st : Listener × List ButtonEvent) (button : Button) (pressed : Bool) :
    Listener × List ButtonEvent :=
  (sendEvent st.1 button pressed,
    st.2 ++ [{ Button := button, Pressed := pressed, PlayerID := st.1.controllerID }])

/-- The list `standardBtns` of `pollButtons`. -/
def standardBtns : List Button :=
  [ButtonA, ButtonB, ButtonX, ButtonY, ButtonLB, ButtonRB, ButtonStart, ButtonBack,
    ButtonXbox, ButtonShare, ButtonLeftThumb, ButtonRightThumb, ButtonDPadUp,
    ButtonDPadDown, ButtonDPadLeft, ButtonDPadRight]

/-- The conversion `uint16(btn)` of a `Button`. -/
def Button.toUint16 (btn : Button) : Nat := btn % 65536

/-- Body of the `for _, btn := range standardBtns` loop of `pollButtons`. -/
def pollButton (currentButtons changed : Nat) (st : Listener × List ButtonEvent)
    (btn : Button) : Listener × List ButtonEvent :=
  let btnMask := Button.toUint16 btn
  if changed &&& btnMask != 0 then
    let pressed := currentButtons &&& btnMask != 0
    emit st btn pressed
  else st

/-- pollButtons of `listener.go`. -/
def pollButtons (st : Listener × List ButtonEvent) (state : XInputState) :
    Listener × List ButtonEvent :=
  let currentButtons := state.Gamepad.Buttons
  let changed := currentButtons ^^^ st.1.prevState
  let st1 := if changed != 0 then standardBtns.foldl (pollButton currentButtons changed) st
    else st
  ({ st1.1 with prevState := currentButtons }, st1.2)

/-- The ten symbols derived from analog values, each with its own `prev...`
field in `Listener`. -/
inductive Derived where
  | LT
  | RT
  | LeftStickUp
  | LeftStickDown
  | LeftStickLeft
  | LeftStickRight
  | RightStickUp
  | RightStickDown
  | RightStickLeft
  | RightStickRight
deriving DecidableEq, Repr

/-- The button constant sent for a derived symbol. -/
def Derived.button : Derived → Button
  | .LT => ButtonLT
  | .RT => ButtonRT
  | .LeftStickUp => ButtonLeftStickUp
  | .LeftStickDown => ButtonLeftStickDown
  | .LeftStickLeft => ButtonLeftStickLeft
  | .LeftStickRight => ButtonLeftStickRight
  | .RightStickUp => ButtonRightStickUp
  | .RightStickDown => ButtonRightStickDown
  | .RightStickLeft => ButtonRightStickLeft
  | .RightStickRight => ButtonRightStickRight

/-- The level computed from the sample at the head of `pollTriggers` and
`pollSticks` (`currentLT`, `currentRT`, `leftUp`, ...). -/
def Derived.level (state : XInputState) : Derived → Bool
  | .LT => decide (state.Gamepad.LeftTrigger > TriggerThreshold)
  | .RT => decide (state.Gamepad.RightTrigger > TriggerThreshold)
  | .LeftStickUp => decide (state.Gamepad.ThumbLY > StickThreshold)
  | .LeftStickDown => decide (state.Gamepad.ThumbLY < -StickThreshold)
  | .LeftStickLeft => decide (state.Gamepad.ThumbLX < -StickThreshold)
  | .LeftStickRight => decide (state.Gamepad.ThumbLX > StickThreshold)
  | .RightStickUp => decide (state.Gamepad.ThumbRY > StickThreshold)
  | .RightStickDown => decide (state.Gamepad.ThumbRY < -StickThreshold)
  | .RightStickLeft => decide (state.Gamepad.ThumbRX < -StickThreshold)
  | .RightStickRight => decide (state.Gamepad.ThumbRX > StickThreshold)

/-- Field read `l.prev<symbol>`. -/
def Listener.prev (l : Listener) : Derived → Bool
  | .LT => l.prevLT
  | .RT => l.prevRT
  | .LeftStickUp => l.prevLeftStickUp
  | .LeftStickDown => l.prevLeftStickDown
  | .LeftStickLeft => l.prevLeftStickLeft
  | .LeftStickRight => l.prevLeftStickRight
  | .RightStickUp => l.prevRightStickUp
  | .RightStickDown => l.prevRightStickDown
  | .RightStickLeft => l.prevRightStickLeft
  | .RightStickRight => l.prevRightStickRight

/-- Field write `l.prev<symbol> = v`. -/
def Listener.setPrev (l : Listener) (d : Derived) (v : Bool) : Listener :=
  match d with
  | .LT => { l with prevLT := v }
  | .RT => { l with prevRT := v }
  | .LeftStickUp => { l with prevLeftStickUp := v }
  | .LeftStickDown => { l with prevLeftStickDown := v }
  | .LeftStickLeft => { l with prevLeftStickLeft := v }
  | .LeftStickRight => { l with prevLeftStickRight := v }
  | .RightStickUp => { l with prevRightStickUp := v }
  | .RightStickDown => { l with prevRightStickDown := v }
  | .RightStickLeft => { l with prevRightStickLeft := v }
  | .RightStickRight => { l with prevRightStickRight := v }

/-- One of the ten guarded blocks of `pollTriggers` and `pollSticks`:
`if current != l.prevS { l.sendEvent(ButtonS, current); l.prevS = current }`. -/
def pollDerived (state : XInputState) (st : Listener × List ButtonEvent) (d : Derived) :
    Listener × List ButtonEvent :=
  let current := d.level state
  if current != st.1.prev d then
    let st1 := emit st d.button current
    (st1.1.setPrev d current, st1.2)
  else st

/-- pollTriggers of `listener.go`: the left trigger, then the right one. -/
def pollTriggers (st : Listener × List ButtonEvent) (state : XInputState) :
    Listener × List ButtonEvent :=
  let st := pollDerived state st .LT
  pollDerived state st .RT

/-- pollSticks of `listener.go`: left stick up, down, left, right, then right
stick up, down, left, right. -/
def pollSticks (st : Listener × List ButtonEvent) (state : XInputState) :
    Listener × List ButtonEvent :=
  let st := pollDerived state st .LeftStickUp
  let st := pollDerived state st .LeftStickDown
  let st := pollDerived state st .LeftStickLeft
  let st := pollDerived state st .LeftStickRight
  let st := pollDerived state st .RightStickUp
  let st := pollDerived state st .RightStickDown
  let st := pollDerived state st .RightStickLeft
  pollDerived state st .RightStickRight

/-- poll of `listener.go`.  `sample` is the result of the external
`GetState(l.controllerID)`: `none` when it returns an error. -/
def poll (st : Listener × List ButtonEvent) (sample : Option XInputState) :
    Listener × List ButtonEvent :=
  match sample with
  | none => st
  | some state =>
    let st := pollButtons st state
    let st := pollTriggers st state
    pollSticks st state

/-- The ticks of `pollLoop`: one `poll` per sample result, in order. -/
def pollAll (samples : List (Option XInputState)) (st : Listener × List ButtonEvent) :
    Listener × List ButtonEvent :=
  samples.foldl poll st

/-! ### Levels and edges, as the specification words them -/

/-- One tracked symbol: a bit position of the button bitmask or a derived
symbol. -/
inductive Sym where
  | bit (i : Nat)
  | derived (d : Derived)
deriving DecidableEq, Repr

/-- The button constant of a symbol: the bit's mask, or the derived constant. -/
def Sym.button : Sym → Button
  | .bit i => 2 ^ i
  | .derived d => d.button

/-- The level of a symbol in a sample. -/
def sampleLevel (state : XInputState) : Sym → Bool
  | .bit i => state.Gamepad.Buttons.testBit i
  | .derived d => d.level state

/-- The level of a symbol stored in the listener's previous-state fields. -/
def storedLevel (l : Listener) : Sym → Bool
  | .bit i => l.prevState.testBit i
  | .derived d => l.prev d

/-- Bit positions of the sixteen digital buttons in the order A, B, X, Y, LB,
RB, Start, Back, Xbox, Share, LeftThumb, RightThumb, DPadUp, DPadDown, DPadLeft,
DPadRight. -/
def standardBits : List Nat := [12, 13, 14, 15, 8, 9, 4, 5, 10, 11, 6, 7, 0, 1, 2, 3]

/-- The derived symbols in the order triggers (LT, RT), left stick (up, down,
left, right), right stick (up, down, left, right). -/
def derivedOrder : List Derived :=
  [.LT, .RT, .LeftStickUp, .LeftStickDown, .LeftStickLeft, .LeftStickRight,
    .RightStickUp, .RightStickDown, .RightStickLeft, .RightStickRight]

/-- All 26 tracked symbols: buttons, then triggers, then stick directions. -/
def symOrder : List Sym := standardBits.map Sym.bit ++ derivedOrder.map Sym.derived

/-- The edges of a sample against the stored levels, for the symbols of `syms`
in that order: one event per symbol whose level differs, carrying the new
level. -/
def edgeEvents (controllerID : Int) (state : XInputState) (l : Listener) (syms : List Sym) :
    List ButtonEvent :=
  (syms.filter (fun s => sampleLevel state s != storedLevel l s)).map
    (fun s => { Button := s.button, Pressed := sampleLevel state s, PlayerID := controllerID })

/-- Number of pressed events for a symbol minus number of released events for
it. -/
def balance (b : Button) (events : List ButtonEvent) : Int :=
  (events.countP (fun e => e.Button == b && e.Pressed) : Int)
    - (events.countP (fun e => e.Button == b && !e.Pressed) : Int)

/-- The bookkeeping invariant of the edge detector on a listener and the log
of events it has produced: a tracked symbol's balance is 1 when its stored
level is set and 0 otherwise, a button that is not tracked has balance 0, and
at every point of the log every balance is 0 or 1. -/
def EdgeInv (st : Listener × List ButtonEvent) : Prop :=
  (∀ s ∈ symOrder, balance s.button st.2 = if storedLevel st.1 s then 1 else 0)
  ∧ (∀ b, (∀ s ∈ symOrder, s.button ≠ b) → balance b st.2 = 0)
  ∧ (∀ n b, balance b (st.2.take n) = 0 ∨ balance b (st.2.take n) = 1)

/-- One step of a run of the channel: the poller sends or the consumer
receives. -/
inductive ChanStep where
  | send (button : Button) (pressed : Bool)
  | recv

/-- A run of sends and receives on a listener's channel: the listener, the
events handed to `sendEvent` and the events the consumer received, each oldest
first. -/
def runChan (steps : List ChanStep) (st : Listener × List ButtonEvent × List ButtonEvent) :
    Listener × List ButtonEvent × List ButtonEvent :=
  steps.foldl (fun st step =>
    match step with
    | .send button pressed =>
      (sendEvent st.1 button pressed,
        st.2.1 ++ [{ Button := button, Pressed := pressed, PlayerID := st.1.controllerID }],
        st.2.2)
    | .recv =>
      match receiveEvent st.1 with
      | none => st
      | some (e, l) => (l, st.2.1, st.2.2 ++ [e])) st

/-- A sample with the given bitmask, left trigger and left-stick Y axis, the
other analog values at rest. -/
def sampleOf (buttons leftTrigger : Nat) (thumbLY : Int) : XInputState :=
  { PacketNumber := 0,
    Gamepad :=
      { Buttons := buttons, LeftTrigger := leftTrigger, RightTrigger := 0,
        ThumbLX := 0, ThumbLY := thumbLY, ThumbRX := 0, ThumbRY := 0 } }

/-- Three ticks after a start: A and DPadUp pressed with the left trigger
pulled, a failed sample, then everything released. -/
def sampleRun : List (Option XInputState) :=
  [some (sampleOf 0x1001 200 0), none, some (sampleOf 0 0 0)]

/-! ## Scenario tables -/

/-- A disabled rule for ButtonA placed ahead of the enabled one. -/
def ruleDisabled : MappingRule :=
  { ID := "r0", Name := "", SourceKey := ButtonA, TargetType := TargetKeyboard,
    TargetKeys := [KeyX], Modifiers := Modifiers.zero, TargetButtons := [], Enabled := false }

/-- The rule `{source = ButtonA, Keyboard keys = [KeyW], no modifiers}`. -/
def ruleAW : MappingRule := NewRule "r1" ButtonA KeyW Modifiers.zero

/-- A later enabled rule with the same source as `ruleAW`. -/
def ruleShadowed : MappingRule := NewRule "r2" ButtonA KeyX Modifiers.zero

/-- A fresh mapper whose table holds a disabled rule, the rule for W and a
later rule, all three with source ButtonA. -/
def shadowMapper : Mapper := Mapper.withRules [ruleDisabled, ruleAW, ruleShadowed]

/-- A fresh mapper with the single rule ButtonA -> W. -/
def tapMapper : Mapper := Mapper.withRules [ruleAW]

/-- The state of `tapMapper` while W is held. -/
def tapMapperHeld : Mapper :=
  ⟨[ruleAW], (PressKeys NewSimulator [KeyW] Modifiers.zero).1, BoolMap.empty⟩

/-- The rule `{source = ButtonA, Forward [ButtonB]}`. -/
def ruleAB : MappingRule := NewRuleGamepad "f1" ButtonA [ButtonB]

/-- The rule `{source = ButtonB, Keyboard keys = [KeyX]}`. -/
def ruleBX : MappingRule := NewRule "k1" ButtonB KeyX Modifiers.zero

/-- A fresh mapper with ButtonA forwarding to ButtonB and ButtonB mapped to X. -/
def leafMapper : Mapper := Mapper.withRules [ruleAB, ruleBX]

/-- The rule `{source = ButtonB, Forward [ButtonA]}`. -/
def ruleBA : MappingRule := NewRuleGamepad "f2" ButtonB [ButtonA]

/-- A fresh mapper with the two-rule cycle A -> B -> A. -/
def cycleMapper : Mapper := Mapper.withRules [ruleAB, ruleBA]

/-- A fresh mapper with the three-rule cycle A -> B -> X -> A. -/
def cycle3Mapper : Mapper :=
  Mapper.withRules [ruleAB, NewRuleGamepad "f3" ButtonB [ButtonX],
    NewRuleGamepad "f4" ButtonX [ButtonA]]

/-- The single-rule table of `tapMapper` entered while ButtonA is marked
in-flight. -/
def guardedMapper : Mapper :=
  ⟨[ruleAW], NewSimulator, (BoolMap.empty : BoolMap Button).set ButtonA⟩

/-- A fresh mapper whose only rule for ButtonA is disabled. -/
def disabledMapper : Mapper := Mapper.withRules [ruleDisabled, ruleBX]

/-! ## The rule table -/

/-- New of `mapper.go`: no rules, a fresh simulator, an empty guard (the error
of `NewSimulator` is not modelled). -/
def Mapper.New : Mapper := ⟨[], NewSimulator, BoolMap.empty⟩

/-- AddRule of `mapper.go`: `m.rules = append(m.rules, rule)`. -/
def Mapper.AddRule (m : Mapper) (rule : MappingRule) : Mapper :=
  { m with rules := m.rules ++ [rule] }

/-- The loop of `RemoveRule` on the content of the table: at the first index
`i` with `rule.ID == id` the result is `rules[:i]` followed by `rules[i+1:]`;
`none` when the loop ends without a match. -/
def removeFirst (id : String) : List MappingRule → Option (List MappingRule)
  | [] => none
  | rule :: rest =>
    if rule.ID == id then some rest
    else
      match removeFirst id rest with
      | none => none
      | some rest1 => some (rule :: rest1)

/-- RemoveRule of `mapper.go`; the second component is the returned bool. -/
def Mapper.RemoveRule (m : Mapper) (id : String) : Mapper × Bool :=
  match removeFirst id m.rules with
  | some rules => ({ m with rules := rules }, true)
  | none => (m, false)

/-- GetRules of `mapper.go`, as the content of the copy it returns. -/
def Mapper.GetRules (m : Mapper) : List MappingRule := m.rules

/-- SetRules of `mapper.go`. -/
def Mapper.SetRules (m : Mapper) (rules : List MappingRule) : Mapper :=
  { m with rules := rules }

/-- ClearRules of `mapper.go`. -/
def Mapper.ClearRules (m : Mapper) : Mapper := { m with rules := [] }

/-- HasConflict of `mapper.go`: true at the first rule with
`rule.SourceKey == sourceKey && rule.ID != excludeID`, false when the loop ends. -/
def Mapper.HasConflict (m : Mapper) (sourceKey : Button) (excludeID : String) : Bool :=
  m.rules.any (fun rule => rule.SourceKey == sourceKey && rule.ID != excludeID)

/-! ### The table with its slice storage explicit -/

/-- A Go slice `[]*MappingRule` that starts at the head of its backing array:
the array (by index in the heap), the length and the capacity.  All slices the
table's methods store or return are of this shape. -/
structure Slice where
  arr : Nat
  len : Nat
  cap : Nat
deriving DecidableEq

/-- The field `Mapper.rules` together with the heap of backing arrays it and
its callers' slices live in.  A slot holds `none` for a nil pointer; rules are
held by value because no method of the table writes through a rule pointer. -/
structure RuleStore where
  heap : List (List (Option MappingRule))
  rules : Slice

/-- The elements a slice shows: the first `len` slots of its backing array. -/
def readSlice (heap : List (List (Option MappingRule))) (s : Slice) :
    List (Option MappingRule) :=
  (heap.getD s.arr []).take s.len

/-- The table made by `New`: `make([]*MappingRule, 0)`. -/
def RuleStore.New : RuleStore := ⟨[[]], ⟨0, 0, 0⟩⟩

/-- A caller building a slice of its own (a literal, or the result of decoding
a configuration): a new backing array holding exactly the given rules. -/
def RuleStore.alloc (st : RuleStore) (rules : List MappingRule) : RuleStore × Slice :=
  ({ st with heap := st.heap ++ [rules.map some] },
    ⟨st.heap.length, rules.length, rules.length⟩)

/-- GetRules of `mapper.go`: `make([]*MappingRule, len(m.rules))` allocates a
new array, `copy` fills it from the table, and the new slice is returned. -/
def RuleStore.GetRules (st : RuleStore) : RuleStore × Slice :=
  ({ st with heap := st.heap ++ [readSlice st.heap st.rules] },
    ⟨st.heap.length, st.rules.len, st.rules.len⟩)

/-- SetRules of `mapper.go`: `m.rules = rules` stores the caller's slice
itself, backing array included. -/
def RuleStore.SetRules (st : RuleStore) (rules : Slice) : RuleStore :=
  { st with rules := rules }

/-- ClearRules of `mapper.go`: `m.rules = make([]*MappingRule, 0)`. -/
def RuleStore.ClearRules (st : RuleStore) : RuleStore :=
  { heap := st.heap ++ [[]], rules := ⟨st.heap.length, 0, 0⟩ }

/-- AddRule of `mapper.go`: `m.rules = append(m.rules, rule)`.  With spare
capacity `append` writes the slot after the last element of the same array;
otherwise it moves the elements to a new array, whose capacity the runtime
chooses (`grow`, raised to the needed length when smaller). -/
def RuleStore.AddRule (st : RuleStore) (rule : MappingRule) (grow : Nat) : RuleStore :=
  if st.rules.len < st.rules.cap then
    { heap := st.heap.set st.rules.arr
        ((st.heap.getD st.rules.arr []).set st.rules.len (some rule)),
      rules := { st.rules with len := st.rules.len + 1 } }
  else
    { heap := st.heap ++ [readSlice st.heap st.rules ++ [some rule]
        ++ List.replicate (max grow (st.rules.len + 1) - (st.rules.len + 1)) none],
      rules := ⟨st.heap.length, st.rules.len + 1, max grow (st.rules.len + 1)⟩ }

/-- The index the loop of `RemoveRule` stops at: the first slot of the slice
whose rule has the given ID.  (A nil slot is passed over here; in Go reading
its ID panics.) -/
def findRuleIdx (id : String) : List (Option MappingRule) → Option Nat
  | [] => none
  | slot :: rest =>
    if (match slot with
        | some rule => rule.ID == id
        | none => false) then some 0
    else
      match findRuleIdx id rest with
      | none => none
      | some i => some (i + 1)

/-- RemoveRule of `mapper.go`: `m.rules = append(m.rules[:i], m.rules[i+1:]...)`.
The capacity of `m.rules[:i]` always suffices, so `append` moves the elements
behind `i` one slot down inside the same backing array; the slot of the old last
element keeps its value and the length drops by one. -/
def RuleStore.RemoveRule (st : RuleStore) (id : String) : RuleStore × Bool :=
  match findRuleIdx id (readSlice st.heap st.rules) with
  | none => (st, false)
  | some i =>
    let a := st.heap.getD st.rules.arr []
    ({ heap := st.heap.set st.rules.arr
          (a.take i ++ (a.drop (i + 1)).take (st.rules.len - 1 - i) ++ a.drop (st.rules.len - 1)),
       rules := { st.rules with len := st.rules.len - 1 } }, true)

/-- One later call on the table, as a caller of the package can make it. -/
inductive TableOp where
  | addRule (rule : MappingRule) (grow : Nat)
  | removeRule (id : String)
  | setRules (rules : Slice)
  | clearRules
  | getRules

/-- The effect of one call on the store. -/
def TableOp.apply (st : RuleStore) : TableOp → RuleStore
  | .addRule rule grow => st.AddRule rule grow
  | .removeRule id => (st.RemoveRule id).1
  | .setRules rules => st.SetRules rules
  | .clearRules => st.ClearRules
  | .getRules => st.GetRules.1

/-- A sequence of calls on the store. -/
def runTable (ops : List TableOp) (st : RuleStore) : RuleStore :=
  ops.foldl TableOp.apply st

/-- The slice and its backing array fit together: the array is allocated, has
exactly `cap` slots, and `len` does not exceed `cap`. -/
def RuleStore.Valid (st : RuleStore) : Prop :=
  st.rules.arr < st.heap.length ∧ st.rules.len ≤ st.rules.cap
    ∧ (st.heap.getD st.rules.arr []).length = st.rules.cap

/-! ## The controller -/

/-- State of `app.go`. -/
inductive State where
  | StateStopped
  | StateRunning
deriving DecidableEq, Repr

/-- App of `app.go`.  The three callback fields are modelled by whether a
callback is set; the mutex is not modelled. -/
structure App where
  mapper : Mapper
  listener : Listener
  state : State
  onStateChange : Bool
  onRulesChange : Bool
  onError : Bool
deriving DecidableEq

/-- The errors the add operations return. -/
inductive AddError where
  | conflict (source : Button)
  | selfTarget
deriving DecidableEq, Repr

/-- What a controller method does to its collaborators, in the order of the
statements of the source. -/
inductive AppAction where
  | listenerStart
  | spawnEventLoop
  | releaseAll (signals : List Signal)
  | listenerStop
  | stateChange (s : State)
  | rulesChange
  | errorHook (err : String)
  | saveConfig (rules : List MappingRule)
deriving DecidableEq

/-- New of `app.go`. -/
def App.New : App :=
  { mapper := Mapper.New, listener := NewListener 0, state := State.StateStopped,
    onStateChange := false, onRulesChange := false, onError := false }

/-- Stop of `listener.go`: cancels the poll loop and clears `running`. -/
def Listener.Stop (l : Listener) : Listener :=
  if !l.running then l else { l with running := false }

/-- Start of `app.go`.  `loadErr` is the result of `LoadXInput` inside
`listener.Start`; the components are the new controller, the returned error and
the actions performed. -/
def App.Start (a : App) (loadErr : Option String) : App × Option String × List AppAction :=
  if a.state = State.StateRunning then (a, none, [])
  else
    match (a.listener.Start loadErr).2 with
    | some err =>
      ({ a with listener := (a.listener.Start loadErr).1 }, some err,
        [AppAction.listenerStart] ++ (if a.onError then [AppAction.errorHook err] else []))
    | none =>
      ({ a with listener := (a.listener.Start loadErr).1, state := State.StateRunning }, none,
        [AppAction.listenerStart, AppAction.spawnEventLoop]
          ++ (if a.onStateChange then [AppAction.stateChange State.StateRunning] else []))

/-- Stop of `app.go`: `a.mapper.ReleaseAll()`, then `a.listener.Stop()`, then
the state and the notification. -/
def App.Stop (a : App) : App × List AppAction :=
  if a.state = State.StateStopped then (a, [])
  else
    ({ a with
        mapper := a.mapper.ReleaseAll.1, listener := a.listener.Stop,
        state := State.StateStopped },
      [AppAction.releaseAll a.mapper.ReleaseAll.2, AppAction.listenerStop]
        ++ (if a.onStateChange then [AppAction.stateChange State.StateStopped] else []))

/-- generateRuleID of `app.go`: `fmt.Sprintf("rule_%d", time.Now().UnixNano())`;
`nanos` is the clock reading. -/
def generateRuleID (nanos : Int) : String := "rule_" ++ toString nanos

/-- The tail shared by the add operations: `a.mapper.AddRule(rule)`,
`a.SaveConfig()`, the rules-change notification, `return rule, nil`. -/
def App.commitRule (a : App) (rule : MappingRule) :
    App × Except AddError MappingRule × List AppAction :=
  ({ a with mapper := a.mapper.AddRule rule }, Except.ok rule,
    [AppAction.saveConfig (a.mapper.AddRule rule).GetRules]
      ++ (if a.onRulesChange then [AppAction.rulesChange] else []))

/-- AddRuleMultiKeys of `app.go`. -/
def App.AddRuleMultiKeys (a : App) (nanos : Int) (source : Button) (targets : List KeyCode)
    (mods : Modifiers) : App × Except AddError MappingRule × List AppAction :=
  if a.mapper.HasConflict source "" then (a, Except.error (AddError.conflict source), [])
  else a.commitRule (NewRuleMultiKeys (generateRuleID nanos) source targets mods)

/-- AddRule of `app.go`. -/
def App.AddRule (a : App) (nanos : Int) (source : Button) (target : KeyCode)
    (mods : Modifiers) : App × Except AddError MappingRule × List AppAction :=
  a.AddRuleMultiKeys nanos source [target] mods

/-- AddRuleGamepad of `app.go`. -/
def App.AddRuleGamepad (a : App) (nanos : Int) (source : Button) (targets : List Button) :
    App × Except AddError MappingRule × List AppAction :=
  if a.mapper.HasConflict source "" then (a, Except.error (AddError.conflict source), [])
  else if targets.any (fun target => target == source) then
    (a, Except.error AddError.selfTarget, [])
  else a.commitRule (NewRuleGamepad (generateRuleID nanos) source targets)

/-- RemoveRule of `app.go`. -/
def App.RemoveRule (a : App) (id : String) : App × Bool × List AppAction :=
  if (a.mapper.RemoveRule id).2 then
    ({ a with mapper := (a.mapper.RemoveRule id).1 }, true,
      [AppAction.saveConfig (a.mapper.RemoveRule id).1.GetRules]
        ++ (if a.onRulesChange then [AppAction.rulesChange] else []))
  else (a, false, [])

/-- SetRules of `app.go`. -/
def App.SetRules (a : App) (rules : List MappingRule) : App × List AppAction :=
  ({ a with mapper := a.mapper.SetRules rules },
    if a.onRulesChange then [AppAction.rulesChange] else [])

/-- One mutating call on the control surface. -/
inductive AppOp where
  | addRule (nanos : Int) (source : Button) (target : KeyCode) (mods : Modifiers)
  | addRuleMultiKeys (nanos : Int) (source : Button) (targets : List KeyCode) (mods : Modifiers)
  | addRuleGamepad (nanos : Int) (source : Button) (targets : List Button)
  | removeRule (id : String)
  | setRules (rules : List MappingRule)

/-- The controller after one mutating call. -/
def AppOp.apply (a : App) : AppOp → App
  | .addRule nanos source target mods => (a.AddRule nanos source target mods).1
  | .addRuleMultiKeys nanos source targets mods =>
    (a.AddRuleMultiKeys nanos source targets mods).1
  | .addRuleGamepad nanos source targets => (a.AddRuleGamepad nanos source targets).1
  | .removeRule id => (a.RemoveRule id).1
  | .setRules rules => (a.SetRules rules).1

/-- A sequence of mutating calls. -/
def runApp (ops : List AppOp) (a : App) : App := ops.foldl AppOp.apply a

/-- At most one enabled rule of the table has any given `SourceKey`. -/
def AtMostOnePerSource (rules : List MappingRule) : Prop :=
  ∀ s : Button, (rules.filter (fun r => r.Enabled && r.SourceKey == s)).length ≤ 1

/-- In the list of actions, `x` is performed before `y`. -/
def Precedes (x y : AppAction) (actions : List AppAction) : Prop :=
  ∃ pre mid post, actions = pre ++ x :: (mid ++ y :: post)

/-! ## One-shot simulation -/

/-- sendInputs of `simulator_windows.go`, as the error it returns: nothing is
sent and `nil` returned for an empty batch; otherwise the outcome is that of the
operating-system call (`osFails` when it inserts no event). -/
def sendInputs (inputs : List Signal) (osFails : Bool) : Bool :=
  if inputs.length = 0 then false else osFails

/-- One of the guarded blocks of `SimulateCombo`:
`if mods.F { inputs = append(inputs, <down or up of F>) }`. -/
def comboMod (mods : Modifiers) (f : ModFlag) (keyUp : Bool) (inputs : List Signal) :
    List Signal :=
  if mods.get f then inputs ++ [Signal.modifier f keyUp] else inputs

/-- SimulateCombo of `simulator_windows.go`.  `fails1` and `fails2` are the
outcomes of the two operating-system calls; the components are the simulator,
every signal handed to `sendInputs` and whether an error is returned. -/
def SimulateCombo (s : Simulator) (keys : List KeyCode) (mods : Modifiers)
    (fails1 fails2 : Bool) : Simulator × List Signal × Bool :=
  let inputs : List Signal := []
  let inputs := comboMod mods .Ctrl false inputs
  let inputs := comboMod mods .Alt false inputs
  let inputs := comboMod mods .Shift false inputs
  let inputs := comboMod mods .Win false inputs
  let inputs := keys.foldl (fun acc key => acc ++ [Signal.key key false]) inputs
  if sendInputs inputs fails1 then (s, inputs, true)
  else
    let releaseInputs : List Signal :=
      keys.reverse.foldl (fun acc key => acc ++ [Signal.key key true]) []
    let releaseInputs := comboMod mods .Win true releaseInputs
    let releaseInputs := comboMod mods .Shift true releaseInputs
    let releaseInputs := comboMod mods .Alt true releaseInputs
    let releaseInputs := comboMod mods .Ctrl true releaseInputs
    (s, inputs ++ releaseInputs, sendInputs releaseInputs fails2)

/-- SimulateKey of `simulator_windows.go`. -/
def SimulateKey (s : Simulator) (key : KeyCode) (fails1 fails2 : Bool) :
    Simulator × List Signal × Bool :=
  SimulateCombo s [key] Modifiers.zero fails1 fails2

/-- The up-signal for the key or modifier of a signal. -/
def Signal.release : Signal → Signal
  | .key k _ => .key k true
  | .modifier f _ => .modifier f true

/-- The down-signals of a chord: the set modifiers in the order Ctrl, Alt,
Shift, Win, then the keys as listed. -/
def chordDowns (keys : List KeyCode) (mods : Modifiers) : List Signal :=
  (pressOrder.filter (fun f => mods.get f)).map (fun f => Signal.modifier f false)
    ++ keys.map (fun k => Signal.key k false)

/-- The modifier flags of the signals of one direction, in order of emission. -/
def modFlags (keyUp : Bool) (signals : List Signal) : List ModFlag :=
  signals.filterMap (fun sig =>
    match sig with
    | .modifier f up => if up = keyUp then some f else none
    | .key _ _ => none)

/-- A sequence of `PressKeys` calls, as simulator calls. -/
def pressCalls (calls : List (List KeyCode × Modifiers)) : List SimOp :=
  calls.map (fun c => SimOp.press c.1 c.2)

/-! ## More scenarios -/

/-- A table whose only rule for ButtonA is disabled. -/
def conflictMapper : Mapper := Mapper.withRules [ruleDisabled]

/-- An enabled rule for ButtonA whose ID is the empty string, as a hand-edited
configuration without an id yields. -/
def ruleNoID : MappingRule := NewRule "" ButtonA KeyX Modifiers.zero

/-- A controller whose table was installed by `SetRules` and holds `ruleNoID`. -/
def noIDApp : App := (App.New.SetRules [ruleNoID]).1

/-- A running controller with W and Ctrl held and a state-change callback. -/
def runningApp : App :=
  { mapper := ⟨[ruleAW], (PressKeys NewSimulator [KeyW] ⟨true, false, false, false⟩).1,
      BoolMap.empty⟩,
    listener := ((NewListener 0).Start none).1, state := State.StateRunning,
    onStateChange := true, onRulesChange := false, onError := false }

/-- The store after two rules were added to a new table, the runtime having
grown the array to one and then two slots. -/
def twoRuleStore : RuleStore := (RuleStore.New.AddRule ruleAW 1).AddRule ruleBX 2

/-- A controller whose table holds the rule ButtonA -> W with ID "r1". -/
def tapApp : App := (App.New.SetRules [ruleAW]).1

/-- Calls on the control surface: an add, a second add for the same source, a
one-rule table installed, a forward rule for another button, a removal. -/
def sampleOps : List AppOp :=
  [AppOp.addRule 1 ButtonA KeyW Modifiers.zero,
    AppOp.addRuleMultiKeys 2 ButtonA [KeyX] Modifiers.zero,
    AppOp.setRules [ruleAW],
    AppOp.addRuleGamepad 3 ButtonB [ButtonA],
    AppOp.removeRule "r1"]

/-- Two `PressKeys` calls that acquire Shift first and Ctrl second. -/
def shiftThenCtrl : List (List KeyCode × Modifiers) :=
  [([], ⟨false, false, true, false⟩), ([], ⟨true, false, false, false⟩)]

/-! ## What a dispatch does to the simulator -/

/-- The simulator calls of a dispatch that reaches the keyboard rules `visited`
in that order: `PressKeys` with each rule's keys and modifiers on a press,
`ReleaseKeys` on a release (the keyboard branch of `HandleEvent` and of
`handleGamepadMapping`). -/
def ruleOps (pressed : Bool) (visited : List MappingRule) : List SimOp :=
  visited.map (fun r =>
    if pressed then SimOp.press r.TargetKeys r.Modifiers
    else SimOp.release r.TargetKeys r.Modifiers)

/-- Number of keys and modifier flags recorded held. -/
def heldCount (s : Simulator) : Nat :=
  s.pressedKeys.keys.length + (pressOrder.filter (fun f => s.pressedMods.get f)).length

/-- Tells an up-signal from a down-signal. -/
def Signal.isUp : Signal → Bool
  | .key _ up => up
  | .modifier _ up => up

/-- A fan-out table: A forwards to B and X, B types W with Ctrl, X forwards back
to A and to B. -/
def fanOutMapper : Mapper :=
  Mapper.withRules
    [NewRuleGamepad "g1" ButtonA [ButtonB, ButtonX],
      NewRuleMultiKeys "k1" ButtonB [KeyW] ⟨true, false, false, false⟩,
      NewRuleGamepad "g2" ButtonX [ButtonA, ButtonB]]

/-! ## Reading a sample -/

def ButtonPaddle1 : Button := 0x40000
def ButtonPaddle2 : Button := 0x80000
def ButtonPaddle3 : Button := 0x100000
def ButtonPaddle4 : Button := 0x200000

/-- AllButtons of `buttons.go`. -/
def AllButtons : List Button :=
  [ButtonA, ButtonB, ButtonX, ButtonY,
    ButtonLB, ButtonRB, ButtonLT, ButtonRT,
    ButtonStart, ButtonBack, ButtonShare,
    ButtonLeftThumb, ButtonRightThumb,
    ButtonDPadUp, ButtonDPadDown, ButtonDPadLeft, ButtonDPadRight,
    ButtonPaddle1, ButtonPaddle2, ButtonPaddle3, ButtonPaddle4,
    ButtonLeftStickUp, ButtonLeftStickDown, ButtonLeftStickLeft, ButtonLeftStickRight,
    ButtonRightStickUp, ButtonRightStickDown, ButtonRightStickLeft, ButtonRightStickRight]

/-- IsButtonPressed of `xinput.go`: the two triggers against the threshold,
every other button through `s.Gamepad.Buttons&uint16(button) != 0`. -/
def XInputState.IsButtonPressed (s : XInputState) (button : Button) : Bool :=
  if button = ButtonLT then decide (s.Gamepad.LeftTrigger > TriggerThreshold)
  else if button = ButtonRT then decide (s.Gamepad.RightTrigger > TriggerThreshold)
  else s.Gamepad.Buttons &&& Button.toUint16 button != 0

/-- GetPressedButtons of `xinput.go`: the loop over `AllButtons()` appending
every button for which `IsButtonPressed` holds. -/
def XInputState.GetPressedButtons (s : XInputState) : List Button :=
  AllButtons.foldl (fun pressed btn => if s.IsButtonPressed btn then pressed ++ [btn] else pressed)
    []

/-- The paddle symbols and the eight stick-direction symbols. -/
def paddleAndStickButtons : List Button :=
  [ButtonPaddle1, ButtonPaddle2, ButtonPaddle3, ButtonPaddle4,
    ButtonLeftStickUp, ButtonLeftStickDown, ButtonLeftStickLeft, ButtonLeftStickRight,
    ButtonRightStickUp, ButtonRightStickDown, ButtonRightStickLeft, ButtonRightStickRight]

/-- A sample with A and the Xbox button down, the left trigger pulled and both
sticks pushed to the upper right corner. -/
def busySample : XInputState :=
  { PacketNumber := 7,
    Gamepad :=
      { Buttons := 0x1400, LeftTrigger := 200, RightTrigger := 128,
        ThumbLX := 32767, ThumbLY := 32767, ThumbRX := 32767, ThumbRY := 32767 } }

/-! ## The poller and the consumer side by side -/

/-- The records handed to `sendInputs` for a list of signals, in order. -/
def sentRecords (signals : List Signal) : List INPUT := signals.map Signal.toINPUT

/-- A down-record `d` occurs among the records sent and no up-record `u`
occurs after it. -/
def SentOutstanding (d u : INPUT) (sent : List INPUT) : Prop :=
  ∃ pre post, sent = pre ++ d :: post ∧ u ∉ post

/-- A key code that `uint16` leaves as it is and that is none of the four codes
the simulator sends for the modifier flags (0x11, 0x12, 0x10, 0x5B).  All key
constants of `keys.go` are of this kind. -/
def PlainKey (k : KeyCode) : Prop :=
  0 ≤ k ∧ k < 65536 ∧ uint16 k ≠ 0x11 ∧ uint16 k ≠ 0x12 ∧ uint16 k ≠ 0x10 ∧ uint16 k ≠ 0x5B

instance (k : KeyCode) : Decidable (PlainKey k) := by
  unfold PlainKey
  infer_instance

/-- A signal for a modifier flag or for a plain key. -/
def PlainSignal : Signal → Prop
  | .key k _ => PlainKey k
  | .modifier _ _ => True

/-- The keys a call names. -/
def SimOp.keys : SimOp → List KeyCode
  | .press keys _ => keys
  | .release keys _ => keys
  | .releaseAll => []

/-- The key with code 0x11 is pressed, Ctrl is acquired as a modifier, the key
0x11 is released. -/
def collidingOps : List SimOp :=
  [.press [0x11] Modifiers.zero, .press [] ⟨true, false, false, false⟩,
    .release [0x11] Modifiers.zero]

/-- W is pressed, the key 0x10057 (W after `uint16`) is pressed and released. -/
def truncatedOps : List SimOp :=
  [.press [KeyW] Modifiers.zero, .press [0x10057] Modifiers.zero,
    .release [0x10057] Modifiers.zero]

/-- W with Ctrl and Shift, X on top, then W released with Ctrl. -/
def plainOps : List SimOp :=
  [.press [KeyW] ⟨true, false, true, false⟩, .press [KeyX, KeyW] Modifiers.zero,
    .release [KeyW] ⟨true, false, false, false⟩]

/-! ## Lemmas on maps and lists -/

namespace BoolMap

theorem ext_keys {α : Type} {a b : BoolMap α} (h : a.keys = b.keys) : a = b := by
  cases a; cases b; cases h; rfl

@[simp] theorem keys_empty {α : Type} : (empty : BoolMap α).keys = [] := rfl

variable {α : Type} [DecidableEq α]

@[simp] theorem get_iff (m : BoolMap α) (k : α) : m.get k = true ↔ k ∈ m.keys := by
  simp [get]

theorem get_false_iff (m : BoolMap α) (k : α) : m.get k = false ↔ k ∉ m.keys := by
  simp [get]

theorem keys_set (m : BoolMap α) (k : α) :
    (m.set k).keys = if k ∈ m.keys then m.keys else m.keys ++ [k] := by
  unfold set
  split <;> rfl

@[simp] theorem keys_delete (m : BoolMap α) (k : α) :
    (m.delete k).keys = m.keys.filter (fun x => decide (x ≠ k)) := rfl

@[simp] theorem mem_set (m : BoolMap α) (k x : α) :
    x ∈ (m.set k).keys ↔ x ∈ m.keys ∨ x = k := by
  rw [keys_set]
  split
  · constructor
    · exact Or.inl
    · rintro (h | rfl) <;> assumption
  · simp

theorem mem_delete (m : BoolMap α) (k x : α) :
    x ∈ (m.delete k).keys ↔ x ∈ m.keys ∧ x ≠ k := by
  simp

theorem set_of_mem (m : BoolMap α) (k : α) (h : k ∈ m.keys) : m.set k = m := by
  apply ext_keys
  rw [keys_set, if_pos h]

theorem delete_of_not_mem (m : BoolMap α) (k : α) (h : k ∉ m.keys) : m.delete k = m := by
  apply ext_keys
  rw [keys_delete, List.filter_eq_self]
  intro a ha
  simp only [ne_eq, decide_eq_true_eq]
  rintro rfl
  exact h ha

theorem delete_set (m : BoolMap α) (k : α) : (m.set k).delete k = m.delete k := by
  apply ext_keys
  rw [keys_delete, keys_delete, keys_set]
  split
  · rfl
  · simp

theorem set_set (m : BoolMap α) (k : α) : (m.set k).set k = m.set k :=
  set_of_mem _ _ (by simp)

end BoolMap

theorem firstOccurrences_nil {α : Type} [DecidableEq α] :
    firstOccurrences ([] : List α) = [] := rfl

theorem firstOccurrences_concat {α : Type} [DecidableEq α] (l : List α) (a : α) :
    firstOccurrences (l ++ [a]) =
      if a ∈ l then firstOccurrences l else firstOccurrences l ++ [a] := by
  unfold firstOccurrences
  rw [List.reverse_append, List.reverse_singleton, List.singleton_append]
  by_cases h : a ∈ l
  · rw [if_pos h, List.dedup_cons_of_mem (List.mem_reverse.mpr h)]
  · rw [if_neg h, List.dedup_cons_of_not_mem (fun h1 => h (List.mem_reverse.mp h1)),
      List.reverse_cons]

theorem firstOccurrences_nodup {α : Type} [DecidableEq α] (l : List α) :
    (firstOccurrences l).Nodup :=
  List.nodup_reverse.mpr (List.nodup_dedup _)

theorem mem_firstOccurrences {α : Type} [DecidableEq α] (l : List α) (a : α) :
    a ∈ firstOccurrences l ↔ a ∈ l := by
  simp [firstOccurrences]

theorem firstOccurrences_sublist {α : Type} [DecidableEq α] (l : List α) :
    (firstOccurrences l).Sublist l := by
  have h := List.dedup_sublist l.reverse
  have h2 := List.reverse_sublist.mpr h
  rwa [List.reverse_reverse] at h2

theorem firstOccurrences_eq_nil {α : Type} [DecidableEq α] (l : List α) (h : l = []) :
    firstOccurrences l = [] := by
  subst h; rfl

/-! ## Lemmas on the simulator -/

@[simp] theorem Modifiers.get_set (m : Modifiers) (f g : ModFlag) (v : Bool) :
    (m.set f v).get g = if g = f then v else m.get g := by
  cases f <;> cases g <;> simp [Modifiers.set, Modifiers.get]

@[simp] theorem Modifiers.get_zero (f : ModFlag) : Modifiers.zero.get f = false := by
  cases f <;> rfl

theorem Modifiers.ext_get {a b : Modifiers} (h : ∀ f, a.get f = b.get f) : a = b := by
  have h1 := h .Ctrl
  have h2 := h .Alt
  have h3 := h .Shift
  have h4 := h .Win
  cases a; cases b
  simp only [Modifiers.get] at h1 h2 h3 h4
  simp [h1, h2, h3, h4]

/-- The modifier phase of `PressKeys`. -/
theorem pressMods_eq (s : Simulator) (mods : Modifiers) :
    pressMod mods .Win (pressMod mods .Shift (pressMod mods .Alt (pressMod mods .Ctrl (s, []))))
      = (⟨s.pressedKeys, ⟨s.pressedMods.Ctrl || mods.Ctrl, s.pressedMods.Alt || mods.Alt,
            s.pressedMods.Shift || mods.Shift, s.pressedMods.Win || mods.Win⟩⟩,
         (pressOrder.filter (fun f => mods.get f && !s.pressedMods.get f)).map
            (fun f => Signal.modifier f false)) := by
  obtain ⟨pk, ⟨a, b, c, d⟩⟩ := s
  obtain ⟨e, f, g, h⟩ := mods
  cases a <;> cases b <;> cases c <;> cases d <;> cases e <;> cases f <;> cases g <;> cases h <;> rfl

theorem foldl_snoc_map {α β : Type} (f : α → β) (l : List α) (out : List β) :
    l.foldl (fun acc x => acc ++ [f x]) out = out ++ l.map f := by
  induction l generalizing out with
  | nil => simp
  | cons a t ih => simp [ih]

/-- The modifier phase of `ReleaseKeys`. -/
theorem releaseMods_eq (s : Simulator) (mods : Modifiers) (out : List Signal) :
    releaseMod mods .Ctrl (releaseMod mods .Alt (releaseMod mods .Shift
        (releaseMod mods .Win (s, out))))
      = (⟨s.pressedKeys, ⟨s.pressedMods.Ctrl && !mods.Ctrl, s.pressedMods.Alt && !mods.Alt,
            s.pressedMods.Shift && !mods.Shift, s.pressedMods.Win && !mods.Win⟩⟩,
         out ++ (releaseOrder.filter (fun f => mods.get f && s.pressedMods.get f)).map
            (fun f => Signal.modifier f true)) := by
  rw [← foldl_snoc_map]
  obtain ⟨pk, ⟨a, b, c, d⟩⟩ := s
  obtain ⟨e, f, g, h⟩ := mods
  cases a <;> cases b <;> cases c <;> cases d <;> cases e <;> cases f <;> cases g <;> cases h <;> rfl

/-- The modifier phase of `ReleaseAllKeys`. -/
theorem releaseAllMods_eq (s : Simulator) (out : List Signal) :
    releaseAllMod s .Ctrl (releaseAllMod s .Alt (releaseAllMod s .Shift
        (releaseAllMod s .Win out)))
      = out ++ (releaseOrder.filter (fun f => s.pressedMods.get f)).map
            (fun f => Signal.modifier f true) := by
  rw [← foldl_snoc_map]
  obtain ⟨pk, ⟨a, b, c, d⟩⟩ := s
  cases a <;> cases b <;> cases c <;> cases d <;> rfl

/-- The key loop of `PressKeys`, from any intermediate state. -/
theorem pressKey_foldl (keys : List KeyCode) (st : Simulator × List Signal) :
    (keys.foldl pressKey st).2 = st.2 ++
        (firstOccurrences (keys.filter (fun k => !st.1.pressedKeys.get k))).map
          (fun k => Signal.key k false)
    ∧ (keys.foldl pressKey st).1.pressedMods = st.1.pressedMods
    ∧ ∀ x, x ∈ (keys.foldl pressKey st).1.pressedKeys.keys ↔
        x ∈ st.1.pressedKeys.keys ∨ x ∈ keys := by
  induction keys using List.reverseRecOn with
  | nil => simp [firstOccurrences_nil]
  | append_singleton ks k ih =>
    obtain ⟨ih1, ih2, ih3⟩ := ih
    rw [List.foldl_append, List.foldl_cons, List.foldl_nil]
    by_cases hk : k ∈ st.1.pressedKeys.keys
    · have hk2 : k ∈ (ks.foldl pressKey st).1.pressedKeys.keys := (ih3 k).mpr (Or.inl hk)
      have e : pressKey (ks.foldl pressKey st) k = ks.foldl pressKey st := by
        simp [pressKey, hk2]
      rw [e]
      refine ⟨?_, ih2, ?_⟩
      · rw [ih1, List.filter_append]
        simp [hk]
      · intro x
        rw [ih3 x]
        constructor
        · rintro (h | h)
          · exact Or.inl h
          · exact Or.inr (List.mem_append_left _ h)
        · rintro (h | h)
          · exact Or.inl h
          · rcases List.mem_append.mp h with h | h
            · exact Or.inr h
            · rw [List.mem_singleton] at h; subst h; exact Or.inl hk
    · by_cases hks : k ∈ ks
      · have hk2 : k ∈ (ks.foldl pressKey st).1.pressedKeys.keys := (ih3 k).mpr (Or.inr hks)
        have e : pressKey (ks.foldl pressKey st) k = ks.foldl pressKey st := by
          simp [pressKey, hk2]
        rw [e]
        refine ⟨?_, ih2, ?_⟩
        · rw [ih1, List.filter_append]
          have : List.filter (fun k => !st.1.pressedKeys.get k) [k] = [k] := by
            simp [BoolMap.get, hk]
          rw [this, firstOccurrences_concat, if_pos]
          simp [BoolMap.get, hk, hks]
        · intro x
          rw [ih3 x]
          constructor
          · rintro (h | h)
            · exact Or.inl h
            · exact Or.inr (List.mem_append_left _ h)
          · rintro (h | h)
            · exact Or.inl h
            · rcases List.mem_append.mp h with h | h
              · exact Or.inr h
              · rw [List.mem_singleton] at h; subst h; exact Or.inr hks
      · have hk2 : k ∉ (ks.foldl pressKey st).1.pressedKeys.keys := by
          rw [ih3 k]; simp [hk, hks]
        have e : pressKey (ks.foldl pressKey st) k =
            (⟨(ks.foldl pressKey st).1.pressedKeys.set k, (ks.foldl pressKey st).1.pressedMods⟩,
              (ks.foldl pressKey st).2 ++ [Signal.key k false]) := by
          simp [pressKey, hk2]
        rw [e]
        refine ⟨?_, ih2, ?_⟩
        · rw [ih1, List.filter_append]
          have : List.filter (fun k => !st.1.pressedKeys.get k) [k] = [k] := by
            simp [BoolMap.get, hk]
          rw [this, firstOccurrences_concat, if_neg]
          · simp
          · simp [hks]
        · intro x
          simp only [BoolMap.mem_set, ih3 x, List.mem_append, List.mem_singleton]
          tauto

/-- The key loop of `ReleaseKeys`, from any intermediate state. -/
theorem releaseKey_foldl (keys : List KeyCode) (st : Simulator × List Signal) :
    (keys.foldl releaseKey st).2 = st.2 ++
        (firstOccurrences (keys.filter (fun k => st.1.pressedKeys.get k))).map
          (fun k => Signal.key k true)
    ∧ (keys.foldl releaseKey st).1.pressedMods = st.1.pressedMods
    ∧ ∀ x, x ∈ (keys.foldl releaseKey st).1.pressedKeys.keys ↔
        x ∈ st.1.pressedKeys.keys ∧ x ∉ keys := by
  induction keys using List.reverseRecOn with
  | nil => simp [firstOccurrences_nil]
  | append_singleton ks k ih =>
    obtain ⟨ih1, ih2, ih3⟩ := ih
    rw [List.foldl_append, List.foldl_cons, List.foldl_nil]
    by_cases hk : k ∈ st.1.pressedKeys.keys
    · have hf : List.filter (fun k => st.1.pressedKeys.get k) [k] = [k] := by
        simp [BoolMap.get, hk]
      by_cases hks : k ∈ ks
      · have hk2 : k ∉ (ks.foldl releaseKey st).1.pressedKeys.keys := by
          rw [ih3 k]; simp [hks]
        have e : releaseKey (ks.foldl releaseKey st) k = ks.foldl releaseKey st := by
          simp [releaseKey, hk2]
        rw [e]
        refine ⟨?_, ih2, ?_⟩
        · rw [ih1, List.filter_append, hf, firstOccurrences_concat, if_pos]
          simp [BoolMap.get, hk, hks]
        · intro x
          rw [ih3 x]
          simp only [List.mem_append, List.mem_singleton, not_or]
          constructor
          · rintro ⟨h1, h2⟩
            exact ⟨h1, h2, fun h => h2 (h ▸ hks)⟩
          · rintro ⟨h1, h2, _⟩
            exact ⟨h1, h2⟩
      · have hk2 : k ∈ (ks.foldl releaseKey st).1.pressedKeys.keys := by
          rw [ih3 k]; exact ⟨hk, hks⟩
        have e : releaseKey (ks.foldl releaseKey st) k =
            (⟨(ks.foldl releaseKey st).1.pressedKeys.delete k,
              (ks.foldl releaseKey st).1.pressedMods⟩,
              (ks.foldl releaseKey st).2 ++ [Signal.key k true]) := by
          simp [releaseKey, hk2]
        rw [e]
        refine ⟨?_, ih2, ?_⟩
        · rw [ih1, List.filter_append, hf, firstOccurrences_concat, if_neg]
          · simp
          · simp [hks]
        · intro x
          rw [BoolMap.mem_delete, ih3 x]
          simp only [List.mem_append, List.mem_singleton, not_or, ne_eq]
          tauto
    · have hf : List.filter (fun k => st.1.pressedKeys.get k) [k] = [] := by
        simp [BoolMap.get, hk]
      have hk2 : k ∉ (ks.foldl releaseKey st).1.pressedKeys.keys := by
        rw [ih3 k]; simp [hk]
      have e : releaseKey (ks.foldl releaseKey st) k = ks.foldl releaseKey st := by
        simp [releaseKey, hk2]
      rw [e]
      refine ⟨?_, ih2, ?_⟩
      · rw [ih1, List.filter_append, hf, List.append_nil]
      · intro x
        rw [ih3 x]
        simp only [List.mem_append, List.mem_singleton, not_or]
        constructor
        · rintro ⟨h1, h2⟩
          exact ⟨h1, h2, fun h => hk (h ▸ h1)⟩
        · rintro ⟨h1, h2, _⟩
          exact ⟨h1, h2⟩

theorem pressKey_foldl_noop (keys : List KeyCode) (st : Simulator × List Signal)
    (h : ∀ k ∈ keys, k ∈ st.1.pressedKeys.keys) : keys.foldl pressKey st = st := by
  induction keys with
  | nil => rfl
  | cons k ks ih =>
    have e : pressKey st k = st := by
      simp [pressKey, h k (List.mem_cons_self _ _)]
    rw [List.foldl_cons, e]
    exact ih (fun x hx => h x (List.mem_cons_of_mem _ hx))

theorem releaseKey_foldl_noop (keys : List KeyCode) (st : Simulator × List Signal)
    (h : ∀ k ∈ keys, k ∉ st.1.pressedKeys.keys) : keys.foldl releaseKey st = st := by
  induction keys with
  | nil => rfl
  | cons k ks ih =>
    have e : releaseKey st k = st := by
      simp [releaseKey, h k (List.mem_cons_self _ _)]
    rw [List.foldl_cons, e]
    exact ih (fun x hx => h x (List.mem_cons_of_mem _ hx))

theorem PressKeys_out (s : Simulator) (keys : List KeyCode) (mods : Modifiers) :
    (PressKeys s keys mods).2 =
      (pressOrder.filter (fun f => mods.get f && !s.pressedMods.get f)).map
          (fun f => Signal.modifier f false) ++
        (firstOccurrences (keys.filter (fun k => !s.pressedKeys.get k))).map
          (fun k => Signal.key k false) := by
  unfold PressKeys
  simp only []
  rw [pressMods_eq]
  exact (pressKey_foldl keys _).1

theorem PressKeys_mods (s : Simulator) (keys : List KeyCode) (mods : Modifiers) (f : ModFlag) :
    (PressKeys s keys mods).1.pressedMods.get f = (s.pressedMods.get f || mods.get f) := by
  unfold PressKeys
  simp only []
  rw [pressMods_eq, (pressKey_foldl keys _).2.1]
  cases f <;> rfl

theorem PressKeys_keys (s : Simulator) (keys : List KeyCode) (mods : Modifiers) (k : KeyCode) :
    k ∈ (PressKeys s keys mods).1.pressedKeys.keys ↔ k ∈ s.pressedKeys.keys ∨ k ∈ keys := by
  unfold PressKeys
  simp only []
  rw [pressMods_eq]
  exact (pressKey_foldl keys _).2.2 k

theorem PressKeys_noop (s : Simulator) (keys : List KeyCode) (mods : Modifiers)
    (hm : ∀ f, mods.get f = true → s.pressedMods.get f = true)
    (hk : ∀ k ∈ keys, k ∈ s.pressedKeys.keys) : PressKeys s keys mods = (s, []) := by
  have e : ∀ f, pressMod mods f (s, []) = (s, []) := by
    intro f
    unfold pressMod
    rw [if_neg]
    have := hm f
    cases h1 : mods.get f <;> simp_all
  unfold PressKeys
  simp only []
  rw [e, e, e, e]
  exact pressKey_foldl_noop keys _ hk

theorem ReleaseKeys_out (s : Simulator) (keys : List KeyCode) (mods : Modifiers) :
    (ReleaseKeys s keys mods).2 =
      (firstOccurrences (keys.filter (fun k => s.pressedKeys.get k))).map
          (fun k => Signal.key k true) ++
        (releaseOrder.filter (fun f => mods.get f && s.pressedMods.get f)).map
          (fun f => Signal.modifier f true) := by
  unfold ReleaseKeys
  simp only []
  have h := releaseKey_foldl keys (s, [])
  have e : keys.foldl releaseKey (s, []) =
      ((keys.foldl releaseKey (s, [])).1, (keys.foldl releaseKey (s, [])).2) := rfl
  rw [e, releaseMods_eq, h.1, h.2.1]
  simp

theorem ReleaseKeys_mods (s : Simulator) (keys : List KeyCode) (mods : Modifiers) (f : ModFlag) :
    (ReleaseKeys s keys mods).1.pressedMods.get f = (s.pressedMods.get f && !mods.get f) := by
  unfold ReleaseKeys
  simp only []
  have h := releaseKey_foldl keys (s, [])
  have e : keys.foldl releaseKey (s, []) =
      ((keys.foldl releaseKey (s, [])).1, (keys.foldl releaseKey (s, [])).2) := rfl
  rw [e, releaseMods_eq, h.2.1]
  cases f <;> rfl

theorem ReleaseKeys_keys (s : Simulator) (keys : List KeyCode) (mods : Modifiers) (k : KeyCode) :
    k ∈ (ReleaseKeys s keys mods).1.pressedKeys.keys ↔ k ∈ s.pressedKeys.keys ∧ k ∉ keys := by
  unfold ReleaseKeys
  simp only []
  have h := releaseKey_foldl keys (s, [])
  have e : keys.foldl releaseKey (s, []) =
      ((keys.foldl releaseKey (s, [])).1, (keys.foldl releaseKey (s, [])).2) := rfl
  rw [e, releaseMods_eq]
  exact h.2.2 k

theorem ReleaseKeys_noop (s : Simulator) (keys : List KeyCode) (mods : Modifiers)
    (hm : ∀ f, mods.get f = true → s.pressedMods.get f = false)
    (hk : ∀ k ∈ keys, k ∉ s.pressedKeys.keys) : ReleaseKeys s keys mods = (s, []) := by
  have e : ∀ f, releaseMod mods f (s, []) = (s, []) := by
    intro f
    unfold releaseMod
    rw [if_neg]
    have := hm f
    cases h1 : mods.get f <;> simp_all
  unfold ReleaseKeys
  simp only []
  rw [releaseKey_foldl_noop keys _ hk, e, e, e, e]

theorem ReleaseAllKeys_out (s : Simulator) :
    (ReleaseAllKeys s).2 =
      s.pressedKeys.keys.map (fun k => Signal.key k true) ++
        (releaseOrder.filter (fun f => s.pressedMods.get f)).map
          (fun f => Signal.modifier f true) := by
  unfold ReleaseAllKeys
  simp only []
  rw [releaseAllMods_eq, foldl_snoc_map, List.nil_append]

theorem ReleaseAllKeys_state (s : Simulator) : (ReleaseAllKeys s).1 = NewSimulator := rfl

theorem pressOrder_nodup : pressOrder.Nodup := by decide

theorem releaseOrder_nodup : releaseOrder.Nodup := by decide

theorem mem_pressOrder (f : ModFlag) : f ∈ pressOrder := by cases f <;> decide

theorem mem_releaseOrder (f : ModFlag) : f ∈ releaseOrder := by cases f <;> decide

theorem signals_nodup (fs : List ModFlag) (ks : List KeyCode) (u1 u2 : Bool)
    (h1 : fs.Nodup) (h2 : ks.Nodup) :
    (fs.map (fun f => Signal.modifier f u1) ++ ks.map (fun k => Signal.key k u2)).Nodup := by
  rw [List.nodup_append]
  refine ⟨h1.map (fun a b h => by injection h), h2.map (fun a b h => by injection h), ?_⟩
  intro x hx hy
  rw [List.mem_map] at hx hy
  obtain ⟨f, _, rfl⟩ := hx
  obtain ⟨k, _, h⟩ := hy
  cases h

theorem signals_nodup_rev (fs : List ModFlag) (ks : List KeyCode) (u1 u2 : Bool)
    (h1 : fs.Nodup) (h2 : ks.Nodup) :
    (ks.map (fun k => Signal.key k u2) ++ fs.map (fun f => Signal.modifier f u1)).Nodup := by
  rw [List.nodup_append]
  refine ⟨h2.map (fun a b h => by injection h), h1.map (fun a b h => by injection h), ?_⟩
  intro x hx hy
  rw [List.mem_map] at hx hy
  obtain ⟨f, _, rfl⟩ := hx
  obtain ⟨k, _, h⟩ := hy
  cases h

theorem PressKeys_nodup (s : Simulator) (keys : List KeyCode) (mods : Modifiers) :
    (PressKeys s keys mods).2.Nodup := by
  rw [PressKeys_out]
  exact signals_nodup _ _ _ _ (pressOrder_nodup.filter _) (firstOccurrences_nodup _)

theorem PressKeys_mem_key (s : Simulator) (keys : List KeyCode) (mods : Modifiers)
    (k : KeyCode) (up : Bool) :
    Signal.key k up ∈ (PressKeys s keys mods).2 ↔
      up = false ∧ k ∈ keys ∧ k ∉ s.pressedKeys.keys := by
  rw [PressKeys_out]
  cases up <;> simp [mem_firstOccurrences, BoolMap.get]

theorem PressKeys_mem_mod (s : Simulator) (keys : List KeyCode) (mods : Modifiers)
    (f : ModFlag) (up : Bool) :
    Signal.modifier f up ∈ (PressKeys s keys mods).2 ↔
      up = false ∧ mods.get f = true ∧ s.pressedMods.get f = false := by
  rw [PressKeys_out]
  cases up <;> simp [mem_pressOrder]

theorem ReleaseKeys_nodup (s : Simulator) (keys : List KeyCode) (mods : Modifiers) :
    (ReleaseKeys s keys mods).2.Nodup := by
  rw [ReleaseKeys_out]
  exact signals_nodup_rev _ _ _ _ (releaseOrder_nodup.filter _) (firstOccurrences_nodup _)

theorem ReleaseKeys_mem_key (s : Simulator) (keys : List KeyCode) (mods : Modifiers)
    (k : KeyCode) (up : Bool) :
    Signal.key k up ∈ (ReleaseKeys s keys mods).2 ↔
      up = true ∧ k ∈ keys ∧ k ∈ s.pressedKeys.keys := by
  rw [ReleaseKeys_out]
  cases up <;> simp [mem_firstOccurrences, BoolMap.get]

theorem ReleaseKeys_mem_mod (s : Simulator) (keys : List KeyCode) (mods : Modifiers)
    (f : ModFlag) (up : Bool) :
    Signal.modifier f up ∈ (ReleaseKeys s keys mods).2 ↔
      up = true ∧ mods.get f = true ∧ s.pressedMods.get f = true := by
  rw [ReleaseKeys_out]
  cases up <;> simp [mem_releaseOrder]

theorem ReleaseAllKeys_nodup (s : Simulator) : (ReleaseAllKeys s).2.Nodup := by
  rw [ReleaseAllKeys_out]
  exact signals_nodup_rev _ _ _ _ (releaseOrder_nodup.filter _) s.pressedKeys.nodup

theorem ReleaseAllKeys_mem_key (s : Simulator) (k : KeyCode) (up : Bool) :
    Signal.key k up ∈ (ReleaseAllKeys s).2 ↔ up = true ∧ k ∈ s.pressedKeys.keys := by
  rw [ReleaseAllKeys_out]
  cases up <;> simp

theorem ReleaseAllKeys_mem_mod (s : Simulator) (f : ModFlag) (up : Bool) :
    Signal.modifier f up ∈ (ReleaseAllKeys s).2 ↔ up = true ∧ s.pressedMods.get f = true := by
  rw [ReleaseAllKeys_out]
  cases up <;> simp [mem_releaseOrder]

theorem not_outstanding_nil (d u : Signal) : ¬ Outstanding d u [] := by
  rintro ⟨pre, post, h, _⟩
  cases pre <;> cases h

theorem outstanding_split (d u : Signal) (t o : List Signal) :
    Outstanding d u (t ++ o) ↔
      (Outstanding d u t ∧ u ∉ o) ∨ (∃ a b, o = a ++ d :: b ∧ u ∉ b) := by
  constructor
  · rintro ⟨pre, post, h, hu⟩
    rcases List.append_eq_append_iff.mp h with ⟨a, rfl, ho⟩ | ⟨c, ht, hc⟩
    · exact Or.inr ⟨a, post, ho, hu⟩
    · cases c with
      | nil =>
        simp only [List.nil_append] at hc
        exact Or.inr ⟨[], post, by simpa using hc.symm, hu⟩
      | cons x c =>
        simp only [List.cons_append, List.cons.injEq] at hc
        obtain ⟨rfl, rfl⟩ := hc
        simp only [List.mem_append, not_or] at hu
        exact Or.inl ⟨⟨pre, c, ht, hu.1⟩, hu.2⟩
  · rintro (⟨⟨pre, post, rfl, hu⟩, hu2⟩ | ⟨a, b, rfl, hu⟩)
    · refine ⟨pre, post ++ o, by simp, ?_⟩
      simp [hu, hu2]
    · exact ⟨t ++ a, b, by simp, hu⟩

theorem outstanding_append_of_no_up (d u : Signal) (t o : List Signal) (hu : u ∉ o) :
    Outstanding d u (t ++ o) ↔ Outstanding d u t ∨ d ∈ o := by
  rw [outstanding_split]
  constructor
  · rintro (⟨h, _⟩ | ⟨a, b, rfl, _⟩)
    · exact Or.inl h
    · exact Or.inr (by simp)
  · rintro (h | h)
    · exact Or.inl ⟨h, hu⟩
    · obtain ⟨a, b, rfl⟩ := List.append_of_mem h
      refine Or.inr ⟨a, b, rfl, fun hb => hu ?_⟩
      simp [hb]

theorem outstanding_append_of_no_down (d u : Signal) (t o : List Signal) (hd : d ∉ o) :
    Outstanding d u (t ++ o) ↔ Outstanding d u t ∧ u ∉ o := by
  rw [outstanding_split]
  constructor
  · rintro (h | ⟨a, b, rfl, _⟩)
    · exact h
    · exact absurd (by simp) hd
  · exact Or.inl

/-- One call preserves the held-state invariant. -/
theorem held_step (st : Simulator × List Signal) (op : SimOp)
    (hk : ∀ k, k ∈ st.1.pressedKeys.keys ↔
      Outstanding (Signal.key k false) (Signal.key k true) st.2)
    (hm : ∀ f, st.1.pressedMods.get f = true ↔
      Outstanding (Signal.modifier f false) (Signal.modifier f true) st.2) :
    (∀ k, k ∈ (op.apply st.1).1.pressedKeys.keys ↔
      Outstanding (Signal.key k false) (Signal.key k true) (st.2 ++ (op.apply st.1).2))
    ∧ (∀ f, (op.apply st.1).1.pressedMods.get f = true ↔
      Outstanding (Signal.modifier f false) (Signal.modifier f true)
        (st.2 ++ (op.apply st.1).2)) := by
  cases op with
  | press keys mods =>
    constructor
    · intro k
      rw [outstanding_append_of_no_up _ _ _ _ (by simp [SimOp.apply, PressKeys_mem_key])]
      simp only [SimOp.apply, PressKeys_mem_key, PressKeys_keys, ← hk k]
      tauto
    · intro f
      rw [outstanding_append_of_no_up _ _ _ _ (by simp [SimOp.apply, PressKeys_mem_mod])]
      simp only [SimOp.apply, PressKeys_mem_mod, PressKeys_mods, ← hm f]
      cases st.1.pressedMods.get f <;> cases mods.get f <;> simp
  | release keys mods =>
    constructor
    · intro k
      rw [outstanding_append_of_no_down _ _ _ _ (by simp [SimOp.apply, ReleaseKeys_mem_key])]
      simp only [SimOp.apply, ReleaseKeys_mem_key, ReleaseKeys_keys, ← hk k]
      tauto
    · intro f
      rw [outstanding_append_of_no_down _ _ _ _ (by simp [SimOp.apply, ReleaseKeys_mem_mod])]
      simp only [SimOp.apply, ReleaseKeys_mem_mod, ReleaseKeys_mods, ← hm f]
      cases st.1.pressedMods.get f <;> cases mods.get f <;> simp
  | releaseAll =>
    constructor
    · intro k
      rw [outstanding_append_of_no_down _ _ _ _ (by simp [SimOp.apply, ReleaseAllKeys_mem_key])]
      simp only [SimOp.apply, ReleaseAllKeys_mem_key, ReleaseAllKeys_state, ← hk k]
      simp [NewSimulator]
    · intro f
      rw [outstanding_append_of_no_down _ _ _ _ (by simp [SimOp.apply, ReleaseAllKeys_mem_mod])]
      simp only [SimOp.apply, ReleaseAllKeys_mem_mod, ReleaseAllKeys_state, ← hm f]
      simp [NewSimulator]

/-- Any sequence of calls preserves the held-state invariant. -/
theorem held_runOps (ops : List SimOp) (st : Simulator × List Signal)
    (hk : ∀ k, k ∈ st.1.pressedKeys.keys ↔
      Outstanding (Signal.key k false) (Signal.key k true) st.2)
    (hm : ∀ f, st.1.pressedMods.get f = true ↔
      Outstanding (Signal.modifier f false) (Signal.modifier f true) st.2) :
    (∀ k, k ∈ (runOps ops st).1.pressedKeys.keys ↔
      Outstanding (Signal.key k false) (Signal.key k true) (runOps ops st).2)
    ∧ (∀ f, (runOps ops st).1.pressedMods.get f = true ↔
      Outstanding (Signal.modifier f false) (Signal.modifier f true) (runOps ops st).2) := by
  induction ops generalizing st with
  | nil => exact ⟨hk, hm⟩
  | cons op ops ih =>
    have h := held_step st op hk hm
    exact ih _ h.1 h.2

/-! ## Lemmas on the dispatch engine -/

theorem gamepad_ne_keyboard : (TargetGamepad = TargetKeyboard) ↔ False := by decide

theorem findRule_some {rules : List MappingRule} {b : Button} {r : MappingRule}
    (h : findRule rules b = some r) : r ∈ rules ∧ r.Enabled = true ∧ r.SourceKey = b := by
  have h1 := List.mem_of_find?_eq_some h
  have h2 := List.find?_some h
  simp only [Bool.and_eq_true, beq_iff_eq] at h2
  exact ⟨h1, h2.1, h2.2⟩

theorem findTargetRule_some {rules : List MappingRule} {t : Button} {rule tr : MappingRule}
    (h : findTargetRule rules t rule = some tr) :
    tr ∈ rules ∧ tr.Enabled = true ∧ tr.SourceKey = t ∧ tr.ID ≠ rule.ID := by
  have h1 := List.mem_of_find?_eq_some h
  have h2 := List.find?_some h
  simp only [Bool.and_eq_true, beq_iff_eq, bne_iff_ne, ne_eq] at h2
  exact ⟨h1, h2.1.1, h2.1.2, h2.2⟩

theorem countP_lt_of_witness {α : Type} (p q : α → Bool) (l : List α)
    (h : ∀ x, p x = true → q x = true) (t : α) (ht : t ∈ l) (hq : q t = true)
    (hp : p t = false) : l.countP p < l.countP q := by
  induction l with
  | nil => cases ht
  | cons a l ih =>
    rw [List.countP_cons, List.countP_cons]
    have hmono : l.countP p ≤ l.countP q := List.countP_mono_left (fun x _ => h x)
    rcases List.mem_cons.mp ht with rfl | ht1
    · rw [hq, hp]
      simp only [if_true, Bool.false_eq_true, if_false]
      omega
    · have := ih ht1
      have h3 := h a
      cases hpa : p a
      · simp only [Bool.false_eq_true, if_false]; omega
      · rw [h3 hpa]; simp only [if_true]; omega

theorem freeSources_le (rules : List MappingRule) (P : BoolMap Button) :
    freeSources rules P ≤ distinctSources rules :=
  List.countP_le_length _

theorem freeSources_set_lt (rules : List MappingRule) (P : BoolMap Button) (r : MappingRule)
    (hr : r ∈ rules) (hP : r.SourceKey ∉ P.keys) :
    freeSources rules (P.set r.SourceKey) < freeSources rules P := by
  unfold freeSources
  apply countP_lt_of_witness _ _ _ _ r.SourceKey
  · rw [List.mem_dedup]
    exact List.mem_map.mpr ⟨r, hr, rfl⟩
  · simp [BoolMap.get, hP]
  · simp [BoolMap.get]
  · intro x hx
    simp only [BoolMap.get, BoolMap.mem_set, Bool.not_eq_true', decide_eq_false_iff_not,
      not_or] at hx ⊢
    exact hx.1

/-- One iteration of the target loop returns, restores the guard and keeps the
table; when every enabled rule forwards it also emits nothing and leaves the
simulator alone. -/
theorem forwardTarget_total (fuel : Nat) (pressed : Bool) (pid : Int) (rule : MappingRule)
    (ih : ∀ (m : Mapper) (tr : MappingRule),
      freeSources m.rules (m.processing.set tr.SourceKey) < fuel →
      ∃ sim out, handleGamepadMapping fuel m tr pressed pid =
          some (⟨m.rules, sim, m.processing.delete tr.SourceKey⟩, out)
        ∧ ((∀ r ∈ m.rules, r.Enabled = true → r.TargetType = TargetGamepad) →
            sim = m.simulator ∧ out = []))
    (st : Mapper × List Signal) (hμ : freeSources st.1.rules st.1.processing ≤ fuel)
    (t : Button) :
    ∃ sim out, forwardTarget (fun m1 tr => handleGamepadMapping fuel m1 tr pressed pid)
          rule pressed st t = some (⟨st.1.rules, sim, st.1.processing⟩, out)
      ∧ ((∀ r ∈ st.1.rules, r.Enabled = true → r.TargetType = TargetGamepad) →
          sim = st.1.simulator ∧ out = st.2) := by
  obtain ⟨⟨R, S, P⟩, o⟩ := st
  simp only at hμ ⊢
  unfold forwardTarget
  cases hfind : findTargetRule R t rule with
  | none => exact ⟨S, o, rfl, fun _ => ⟨rfl, rfl⟩⟩
  | some tr =>
    obtain ⟨hmem, hen, hsrc, _⟩ := findTargetRule_some hfind
    simp only
    by_cases hkb : tr.TargetType = TargetKeyboard
    · refine ⟨(applyKeyboard tr pressed (⟨R, S, P⟩, o)).1.simulator,
        (applyKeyboard tr pressed (⟨R, S, P⟩, o)).2, ?_, ?_⟩
      · simp [hkb, applyKeyboard]
      · intro hall
        have := hall tr hmem hen
        rw [hkb] at this
        exact absurd this (by decide)
    · by_cases hgp : tr.TargetType = TargetGamepad
      · cases hproc : P.get t with
        | true =>
          refine ⟨S, o, ?_, fun _ => ⟨rfl, rfl⟩⟩
          simp [hgp, hproc, gamepad_ne_keyboard]
        | false =>
          have hP : t ∉ P.keys := (BoolMap.get_false_iff P t).mp hproc
          have hlt : freeSources R ((P.set t).set tr.SourceKey) < fuel := by
            rw [hsrc, BoolMap.set_set]
            have := freeSources_set_lt R P tr hmem (by rw [hsrc]; exact hP)
            rw [hsrc] at this
            omega
          obtain ⟨sim, out, hrec, hsil⟩ := ih ⟨R, S, P.set t⟩ tr hlt
          simp only [hsrc] at hrec
          refine ⟨sim, o ++ out, ?_, ?_⟩
          · simp only [hgp, hproc, beq_self_eq_true, Bool.not_false, if_true, hrec,
              beq_iff_eq, if_false, gamepad_ne_keyboard]
            rw [BoolMap.delete_set, BoolMap.delete_of_not_mem _ _ (by simp),
              BoolMap.delete_of_not_mem _ _ hP]
          · intro hall
            obtain ⟨h1, h2⟩ := hsil hall
            exact ⟨h1, by rw [h2, List.append_nil]⟩
      · refine ⟨S, o, ?_, fun _ => ⟨rfl, rfl⟩⟩
        simp [hkb, hgp]

theorem forwardLoop_total (fuel : Nat) (pressed : Bool) (pid : Int) (rule : MappingRule)
    (ih : ∀ (m : Mapper) (tr : MappingRule),
      freeSources m.rules (m.processing.set tr.SourceKey) < fuel →
      ∃ sim out, handleGamepadMapping fuel m tr pressed pid =
          some (⟨m.rules, sim, m.processing.delete tr.SourceKey⟩, out)
        ∧ ((∀ r ∈ m.rules, r.Enabled = true → r.TargetType = TargetGamepad) →
            sim = m.simulator ∧ out = []))
    (ts : List Button) (st : Mapper × List Signal)
    (hμ : freeSources st.1.rules st.1.processing ≤ fuel) :
    ∃ sim out, forwardLoop (fun m1 tr => handleGamepadMapping fuel m1 tr pressed pid)
          rule pressed ts st = some (⟨st.1.rules, sim, st.1.processing⟩, out)
      ∧ ((∀ r ∈ st.1.rules, r.Enabled = true → r.TargetType = TargetGamepad) →
          sim = st.1.simulator ∧ out = st.2) := by
  induction ts generalizing st with
  | nil => exact ⟨st.1.simulator, st.2, rfl, fun _ => ⟨rfl, rfl⟩⟩
  | cons t ts iht =>
    obtain ⟨sim1, out1, h1, hs1⟩ := forwardTarget_total fuel pressed pid rule ih st hμ t
    obtain ⟨sim2, out2, h2, hs2⟩ := iht (⟨st.1.rules, sim1, st.1.processing⟩, out1) hμ
    refine ⟨sim2, out2, ?_, ?_⟩
    · unfold forwardLoop
      rw [h1]
      exact h2
    · intro hall
      obtain ⟨a1, a2⟩ := hs1 hall
      obtain ⟨b1, b2⟩ := hs2 hall
      exact ⟨b1.trans a1, b2.trans a2⟩

/-- A call of `handleGamepadMapping` returns as soon as the depth bound exceeds
the number of distinct table sources that are not in-flight after its own
source has been marked; it keeps the table and leaves the guard as it was, less
its own source. -/
theorem handleGamepadMapping_total (fuel : Nat) (pressed : Bool) (pid : Int) :
    ∀ (m : Mapper) (rule : MappingRule),
      freeSources m.rules (m.processing.set rule.SourceKey) < fuel →
      ∃ sim out, handleGamepadMapping fuel m rule pressed pid =
          some (⟨m.rules, sim, m.processing.delete rule.SourceKey⟩, out)
        ∧ ((∀ r ∈ m.rules, r.Enabled = true → r.TargetType = TargetGamepad) →
            sim = m.simulator ∧ out = []) := by
  induction fuel with
  | zero => intro m rule h; omega
  | succ fuel ih =>
    intro m rule h
    obtain ⟨sim, out, h1, hs⟩ := forwardLoop_total fuel pressed pid rule ih rule.TargetButtons
      (⟨m.rules, m.simulator, m.processing.set rule.SourceKey⟩, []) (by simp only; omega)
    refine ⟨sim, out, ?_, hs⟩
    unfold handleGamepadMapping
    simp only at h1 ⊢
    rw [h1]
    simp only [BoolMap.delete_set]

theorem forwardTarget_mono
    (rec1 rec2 : Mapper → MappingRule → Option (Mapper × List Signal))
    (h : ∀ m tr r, rec1 m tr = some r → rec2 m tr = some r)
    (rule : MappingRule) (pressed : Bool) (st : Mapper × List Signal) (t : Button)
    (r : Mapper × List Signal) (hr : forwardTarget rec1 rule pressed st t = some r) :
    forwardTarget rec2 rule pressed st t = some r := by
  unfold forwardTarget at hr ⊢
  cases hfind : findTargetRule st.1.rules t rule with
  | none => rw [hfind] at hr; exact hr
  | some tr =>
    rw [hfind] at hr
    simp only at hr ⊢
    by_cases hkb : (tr.TargetType == TargetKeyboard) = true
    · rw [if_pos hkb] at hr ⊢; exact hr
    · rw [if_neg hkb] at hr ⊢
      by_cases hgp : (tr.TargetType == TargetGamepad) = true
      · rw [if_pos hgp] at hr ⊢
        by_cases hp : (!st.1.processing.get t) = true
        · rw [if_pos hp] at hr ⊢
          cases hrec : rec1 { st.1 with processing := st.1.processing.set t } tr with
          | none => rw [hrec] at hr; cases hr
          | some x =>
            rw [hrec] at hr
            rw [h _ _ _ hrec]
            exact hr
        · rw [if_neg hp] at hr ⊢; exact hr
      · rw [if_neg hgp] at hr ⊢; exact hr

theorem forwardLoop_mono
    (rec1 rec2 : Mapper → MappingRule → Option (Mapper × List Signal))
    (h : ∀ m tr r, rec1 m tr = some r → rec2 m tr = some r)
    (rule : MappingRule) (pressed : Bool) (ts : List Button) (st : Mapper × List Signal)
    (r : Mapper × List Signal) (hr : forwardLoop rec1 rule pressed ts st = some r) :
    forwardLoop rec2 rule pressed ts st = some r := by
  induction ts generalizing st with
  | nil => exact hr
  | cons t ts ih =>
    unfold forwardLoop at hr ⊢
    cases h1 : forwardTarget rec1 rule pressed st t with
    | none => rw [h1] at hr; cases hr
    | some st1 =>
      rw [h1] at hr
      rw [forwardTarget_mono rec1 rec2 h rule pressed st t st1 h1]
      exact ih st1 hr

theorem handleGamepadMapping_succ (fuel : Nat) (pressed : Bool) (pid : Int) :
    ∀ (m : Mapper) (rule : MappingRule) (r : Mapper × List Signal),
      handleGamepadMapping fuel m rule pressed pid = some r →
      handleGamepadMapping (fuel + 1) m rule pressed pid = some r := by
  induction fuel with
  | zero => intro m rule r h; cases h
  | succ fuel ih =>
    intro m rule r h
    unfold handleGamepadMapping at h ⊢
    simp only at h ⊢
    cases hl : forwardLoop (fun m1 tr => handleGamepadMapping fuel m1 tr pressed pid)
        rule pressed rule.TargetButtons
        ({ m with processing := m.processing.set rule.SourceKey }, []) with
    | none => rw [hl] at h; cases h
    | some x =>
      rw [hl] at h
      rw [forwardLoop_mono _ (fun m1 tr => handleGamepadMapping (fuel + 1) m1 tr pressed pid)
        (fun m tr r => ih m tr r) rule pressed _ _ x hl]
      exact h

theorem handleGamepadMapping_fuel_le (fuel fuel2 : Nat) (hle : fuel ≤ fuel2) (pressed : Bool)
    (pid : Int) (m : Mapper) (rule : MappingRule) (r : Mapper × List Signal)
    (h : handleGamepadMapping fuel m rule pressed pid = some r) :
    handleGamepadMapping fuel2 m rule pressed pid = some r := by
  induction hle with
  | refl => exact h
  | step _ ih => exact handleGamepadMapping_succ _ pressed pid m rule r ih

theorem findRule_of_split (rules pre post : List MappingRule) (rule : MappingRule)
    (b : Button) (htable : rules = pre ++ rule :: post)
    (hpre : ∀ r ∈ pre, ¬ (r.Enabled = true ∧ r.SourceKey = b))
    (hen : rule.Enabled = true) (hsrc : rule.SourceKey = b) :
    findRule rules b = some rule := by
  unfold findRule
  rw [List.find?_eq_some]
  refine ⟨by simp [hen, hsrc], pre, post, htable, ?_⟩
  intro a ha
  have := hpre a ha
  simp only [Bool.not_eq_true', Bool.and_eq_false_iff, beq_eq_false_iff_ne, ne_eq]
  by_cases h : a.Enabled = true
  · exact Or.inr (fun h2 => this ⟨h, h2⟩)
  · exact Or.inl (by simpa using h)

theorem HandleEvent_keyboard_eq (fuel : Nat) (m : Mapper) (event : ButtonEvent)
    (rule : MappingRule) (hguard : m.processing.get event.Button = false)
    (hfind : findRule m.rules event.Button = some rule)
    (hkb : rule.TargetType = TargetKeyboard) :
    HandleEvent fuel m event = some (applyKeyboard rule event.Pressed (m, [])) := by
  unfold HandleEvent
  simp [hguard, hfind, hkb]

theorem PressKeys_again (s : Simulator) (K : List KeyCode) (M : Modifiers) :
    PressKeys (PressKeys s K M).1 K M = ((PressKeys s K M).1, []) := by
  apply PressKeys_noop
  · intro f hf
    rw [PressKeys_mods, hf, Bool.or_true]
  · intro k hk
    exact (PressKeys_keys s K M k).mpr (Or.inr hk)

theorem dispatchAll_replicate_noop (fuel : Nat) (m : Mapper) (event : ButtonEvent)
    (h : HandleEvent fuel m event = some (m, [])) (n : Nat) (out : List Signal) :
    dispatchAll fuel (List.replicate n event) (m, out) = some (m, out) := by
  induction n with
  | zero => rfl
  | succ n ih =>
    rw [List.replicate_succ]
    unfold dispatchAll
    simp only [h, List.append_nil]
    exact ih

/-- The target loop when no target resolves to a forwarding rule. -/
theorem forwardLoop_leaves (recurse : Mapper → MappingRule → Option (Mapper × List Signal))
    (rule : MappingRule) (pressed : Bool) (ts : List Button) (st : Mapper × List Signal)
    (hleaf : ∀ t ∈ ts, ∀ tr, findTargetRule st.1.rules t rule = some tr →
      tr.TargetType ≠ TargetGamepad) :
    forwardLoop recurse rule pressed ts st =
      some (⟨st.1.rules, (pressLeaves st.1.rules rule pressed ts (st.1.simulator, st.2)).1,
          st.1.processing⟩,
        (pressLeaves st.1.rules rule pressed ts (st.1.simulator, st.2)).2) := by
  induction ts generalizing st with
  | nil => rfl
  | cons t ts ih =>
    obtain ⟨⟨R, S, P⟩, o⟩ := st
    simp only at hleaf ⊢
    unfold forwardLoop forwardTarget
    unfold pressLeaves
    rw [List.foldl_cons]
    have hrest := fun (st1 : Mapper × List Signal) (h : st1.1.rules = R) =>
      ih st1 (by
        intro t1 ht1 tr htr
        rw [h] at htr
        exact hleaf t1 (List.mem_cons_of_mem _ ht1) tr htr)
    cases hfind : findTargetRule R t rule with
    | none =>
      simp only
      rw [hrest (⟨R, S, P⟩, o) rfl]
      rfl
    | some tr =>
      have hng := hleaf t (List.mem_cons_self _ _) tr hfind
      simp only
      by_cases hkb : tr.TargetType = TargetKeyboard
      · simp only [hkb, beq_self_eq_true, if_true]
        rw [hrest _ rfl]
        cases pressed <;> rfl
      · simp only [beq_iff_eq, hkb, hng, if_false]
        rw [hrest (⟨R, S, P⟩, o) rfl]
        rfl

theorem forwardLoop_cons (recurse : Mapper → MappingRule → Option (Mapper × List Signal))
    (rule : MappingRule) (pressed : Bool) (t : Button) (ts : List Button)
    (st : Mapper × List Signal) :
    forwardLoop recurse rule pressed (t :: ts) st =
      (forwardTarget recurse rule pressed st t).bind (forwardLoop recurse rule pressed ts) := by
  rw [forwardLoop]
  cases forwardTarget recurse rule pressed st t <;> rfl

theorem forwardLoop_append (recurse : Mapper → MappingRule → Option (Mapper × List Signal))
    (rule : MappingRule) (pressed : Bool) (ts1 ts2 : List Button) (st : Mapper × List Signal) :
    forwardLoop recurse rule pressed (ts1 ++ ts2) st =
      (forwardLoop recurse rule pressed ts1 st).bind (forwardLoop recurse rule pressed ts2) := by
  induction ts1 generalizing st with
  | nil => rfl
  | cons t ts ih =>
    rw [List.cons_append, forwardLoop_cons, forwardLoop_cons]
    cases forwardTarget recurse rule pressed st t with
    | none => rfl
    | some st1 => exact ih st1

theorem forwardLoop_keyboard_step
    (recurse : Mapper → MappingRule → Option (Mapper × List Signal))
    (rule : MappingRule) (pressed : Bool) (ts1 ts2 : List Button) (t : Button)
    (st0 st1 : Mapper × List Signal) (tr : MappingRule)
    (h1 : forwardLoop recurse rule pressed ts1 st0 = some st1)
    (h2 : findTargetRule st1.1.rules t rule = some tr)
    (h3 : tr.TargetType = TargetKeyboard) :
    forwardLoop recurse rule pressed (ts1 ++ t :: ts2) st0 =
      forwardLoop recurse rule pressed ts2 (applyKeyboard tr pressed st1) := by
  have : forwardTarget recurse rule pressed st1 t = some (applyKeyboard tr pressed st1) := by
    unfold forwardTarget
    simp [h2, h3]
  rw [forwardLoop_append, h1, Option.some_bind, forwardLoop_cons, this, Option.some_bind]

/-- HandleEvent returns once the depth bound reaches the number of distinct
source symbols; it keeps the table and the guard, and when every enabled rule
forwards it emits nothing and leaves the simulator alone. -/
theorem HandleEvent_total (fuel : Nat) (m : Mapper) (event : ButtonEvent)
    (h : distinctSources m.rules ≤ fuel) :
    ∃ sim out, HandleEvent fuel m event = some (⟨m.rules, sim, m.processing⟩, out)
      ∧ ((∀ r ∈ m.rules, r.Enabled = true → r.TargetType = TargetGamepad) →
          sim = m.simulator ∧ out = []) := by
  unfold HandleEvent
  cases hg : m.processing.get event.Button with
  | true => exact ⟨m.simulator, [], by simp, fun _ => ⟨rfl, rfl⟩⟩
  | false =>
    have hP : event.Button ∉ m.processing.keys := (BoolMap.get_false_iff _ _).mp hg
    simp only [Bool.false_eq_true, if_false]
    cases hfind : findRule m.rules event.Button with
    | none => exact ⟨m.simulator, [], rfl, fun _ => ⟨rfl, rfl⟩⟩
    | some rule =>
      obtain ⟨hmem, hen, hsrc⟩ := findRule_some hfind
      simp only
      by_cases hkb : rule.TargetType = TargetKeyboard
      · refine ⟨(applyKeyboard rule event.Pressed (m, [])).1.simulator,
          (applyKeyboard rule event.Pressed (m, [])).2, by simp [hkb, applyKeyboard], ?_⟩
        intro hall
        have := hall rule hmem hen
        rw [hkb] at this
        exact absurd this (by decide)
      · by_cases hgp : rule.TargetType = TargetGamepad
        · have hlt : freeSources m.rules (m.processing.set rule.SourceKey) < fuel := by
            have h1 := freeSources_set_lt m.rules m.processing rule hmem (by rw [hsrc]; exact hP)
            have h2 := freeSources_le m.rules m.processing
            omega
          obtain ⟨sim, out, hrec, hsil⟩ :=
            handleGamepadMapping_total fuel event.Pressed event.PlayerID m rule hlt
          refine ⟨sim, out, ?_, hsil⟩
          simp only [hgp, gamepad_ne_keyboard, beq_iff_eq, if_false, if_true, hrec]
          rw [hsrc, BoolMap.delete_of_not_mem _ _ hP]
        · exact ⟨m.simulator, [], by simp [hkb, hgp], fun _ => ⟨rfl, rfl⟩⟩

theorem HandleEvent_fuel_le (fuel fuel2 : Nat) (hle : fuel ≤ fuel2) (m : Mapper)
    (event : ButtonEvent) (r : Mapper × List Signal) (h : HandleEvent fuel m event = some r) :
    HandleEvent fuel2 m event = some r := by
  unfold HandleEvent at h ⊢
  by_cases hg : m.processing.get event.Button = true
  · rw [if_pos hg] at h ⊢; exact h
  · rw [if_neg hg] at h ⊢
    cases hfind : findRule m.rules event.Button with
    | none => rw [hfind] at h; exact h
    | some rule =>
      rw [hfind] at h
      simp only at h ⊢
      by_cases hkb : (rule.TargetType == TargetKeyboard) = true
      · rw [if_pos hkb] at h ⊢; exact h
      · rw [if_neg hkb] at h ⊢
        by_cases hgp : (rule.TargetType == TargetGamepad) = true
        · rw [if_pos hgp] at h ⊢
          exact handleGamepadMapping_fuel_le fuel fuel2 hle _ _ m rule r h
        · rw [if_neg hgp] at h ⊢; exact h

theorem findRule_none_of_unmapped (rules : List MappingRule) (b : Button)
    (h : ∀ r ∈ rules, ¬ (r.Enabled = true ∧ r.SourceKey = b)) : findRule rules b = none := by
  unfold findRule
  rw [List.find?_eq_none]
  intro r hr
  simpa using h r hr

theorem dispatchAll_total (fuel : Nat) (events : List ButtonEvent) (st : Mapper × List Signal)
    (h : distinctSources st.1.rules ≤ fuel) :
    ∃ sim out, dispatchAll fuel events st = some (⟨st.1.rules, sim, st.1.processing⟩, out) := by
  induction events generalizing st with
  | nil => exact ⟨st.1.simulator, st.2, rfl⟩
  | cons e es ih =>
    obtain ⟨sim, out, h1, _⟩ := HandleEvent_total fuel st.1 e h
    obtain ⟨sim2, out2, h2⟩ := ih (⟨st.1.rules, sim, st.1.processing⟩, st.2 ++ out) h
    refine ⟨sim2, out2, ?_⟩
    unfold dispatchAll
    rw [h1]
    exact h2

/-! ## Lemmas on the edge detector -/

theorem and_two_pow_ne_zero (x i : Nat) : (x &&& 2 ^ i != 0) = x.testBit i := by
  cases h : x.testBit i with
  | true =>
    have h1 : (x &&& 2 ^ i).testBit i = true := by
      rw [Nat.testBit_and, h, Nat.testBit_two_pow_self]; rfl
    have h2 : x &&& 2 ^ i ≠ 0 := by
      intro h0
      rw [h0, Nat.zero_testBit] at h1
      cases h1
    simpa using h2
  | false =>
    have h2 : x &&& 2 ^ i = 0 := by
      apply Nat.eq_of_testBit_eq
      intro j
      rw [Nat.testBit_and, Nat.zero_testBit, Nat.testBit_two_pow]
      by_cases hij : i = j
      · subst hij; rw [h]; rfl
      · simp [hij]
    simp [h2]

theorem testBit_eq_of_xor_eq_zero (c p : Nat) (h : c ^^^ p = 0) (i : Nat) :
    c.testBit i = p.testBit i := by
  rw [Nat.xor_eq_zero.mp h]

theorem standardBtns_eq : standardBtns = standardBits.map (fun i => 2 ^ i) := by decide

theorem standardBits_lt : ∀ i ∈ standardBits, i < 16 := by decide

theorem standardBits_nodup : standardBits.Nodup := by decide

theorem symOrder_nodup : symOrder.Nodup := by decide

theorem symOrder_buttons_nodup : (symOrder.map Sym.button).Nodup := by decide

theorem mem_derivedOrder (d : Derived) : d ∈ derivedOrder := by cases d <;> decide

theorem derivedOrder_nodup : derivedOrder.Nodup := by decide

@[simp] theorem sendEvent_prevState (l : Listener) (b : Button) (p : Bool) :
    (sendEvent l b p).prevState = l.prevState := by
  unfold sendEvent; split <;> rfl

@[simp] theorem sendEvent_prev (l : Listener) (b : Button) (p : Bool) (d : Derived) :
    (sendEvent l b p).prev d = l.prev d := by
  unfold sendEvent; split <;> cases d <;> rfl

@[simp] theorem sendEvent_controllerID (l : Listener) (b : Button) (p : Bool) :
    (sendEvent l b p).controllerID = l.controllerID := by
  unfold sendEvent; split <;> rfl

@[simp] theorem sendEvent_running (l : Listener) (b : Button) (p : Bool) :
    (sendEvent l b p).running = l.running := by
  unfold sendEvent; split <;> rfl

@[simp] theorem setPrev_prev (l : Listener) (d e : Derived) (v : Bool) :
    (l.setPrev d v).prev e = if e = d then v else l.prev e := by
  cases d <;> cases e <;> rfl

@[simp] theorem setPrev_prevState (l : Listener) (d : Derived) (v : Bool) :
    (l.setPrev d v).prevState = l.prevState := by
  cases d <;> rfl

@[simp] theorem setPrev_controllerID (l : Listener) (d : Derived) (v : Bool) :
    (l.setPrev d v).controllerID = l.controllerID := by
  cases d <;> rfl

@[simp] theorem setPrev_running (l : Listener) (d : Derived) (v : Bool) :
    (l.setPrev d v).running = l.running := by
  cases d <;> rfl

/-- The button loop of `pollButtons` over the masks of a list of bit positions
below 16, against any previous bitmask. -/
theorem pollButton_foldl (c p : Nat) (bits : List Nat) (hb : ∀ i ∈ bits, i < 16)
    (st : Listener × List ButtonEvent) :
    ((bits.map (fun i => 2 ^ i)).foldl (pollButton c (c ^^^ p)) st).2 =
        st.2 ++ (bits.filter (fun i => c.testBit i != p.testBit i)).map
          (fun i => { Button := 2 ^ i, Pressed := c.testBit i, PlayerID := st.1.controllerID })
    ∧ ((bits.map (fun i => 2 ^ i)).foldl (pollButton c (c ^^^ p)) st).1.prevState
        = st.1.prevState
    ∧ (∀ d, ((bits.map (fun i => 2 ^ i)).foldl (pollButton c (c ^^^ p)) st).1.prev d
        = st.1.prev d)
    ∧ ((bits.map (fun i => 2 ^ i)).foldl (pollButton c (c ^^^ p)) st).1.controllerID
        = st.1.controllerID
    ∧ ((bits.map (fun i => 2 ^ i)).foldl (pollButton c (c ^^^ p)) st).1.running
        = st.1.running := by
  induction bits generalizing st with
  | nil => simp
  | cons i bits ih =>
    have hi : i < 16 := hb i (List.mem_cons_self _ _)
    have hmask : Button.toUint16 (2 ^ i) = 2 ^ i := by
      unfold Button.toUint16
      apply Nat.mod_eq_of_lt
      calc 2 ^ i < 2 ^ 16 := Nat.pow_lt_pow_right (by decide) hi
        _ = 65536 := by norm_num
    have hstep : pollButton c (c ^^^ p) st (2 ^ i) =
        if (c.testBit i != p.testBit i) = true then emit st (2 ^ i) (c.testBit i) else st := by
      unfold pollButton
      simp only [hmask, and_two_pow_ne_zero, Nat.testBit_xor, Bool.bne_eq_xor]
    rw [List.map_cons, List.foldl_cons, hstep]
    by_cases hc : (c.testBit i != p.testBit i) = true
    · rw [if_pos hc]
      simp only [List.filter_cons, hc, if_true]
      obtain ⟨h1, h2, h3, h4, h5⟩ :=
        ih (fun j hj => hb j (List.mem_cons_of_mem _ hj)) (emit st (2 ^ i) (c.testBit i))
      refine ⟨?_, by rw [h2]; simp [emit], fun d => by rw [h3 d]; simp [emit],
        by rw [h4]; simp [emit], by rw [h5]; simp [emit]⟩
      rw [h1]
      simp [emit]
    · rw [if_neg hc]
      simp only [List.filter_cons, hc, if_false]
      exact ih (fun j hj => hb j (List.mem_cons_of_mem _ hj)) st

theorem edgeEvents_bits (cid : Int) (state : XInputState) (l : Listener) (bits : List Nat) :
    edgeEvents cid state l (bits.map Sym.bit) =
      (bits.filter (fun i => state.Gamepad.Buttons.testBit i != l.prevState.testBit i)).map
        (fun i => { Button := 2 ^ i, Pressed := state.Gamepad.Buttons.testBit i,
                    PlayerID := cid }) := by
  unfold edgeEvents
  rw [List.filter_map, List.map_map]
  rfl

theorem edgeEvents_derived (cid : Int) (state : XInputState) (l : Listener)
    (ds : List Derived) :
    edgeEvents cid state l (ds.map Sym.derived) =
      (ds.filter (fun d => d.level state != l.prev d)).map
        (fun d => { Button := d.button, Pressed := d.level state, PlayerID := cid }) := by
  unfold edgeEvents
  rw [List.filter_map, List.map_map]
  rfl

theorem edgeEvents_append (cid : Int) (state : XInputState) (l : Listener)
    (a b : List Sym) :
    edgeEvents cid state l (a ++ b) = edgeEvents cid state l a ++ edgeEvents cid state l b := by
  unfold edgeEvents
  rw [List.filter_append, List.map_append]

/-- What `pollButtons` does: the edges of the sixteen button bits in the order
of `standardBtns`, the bitmask stored, nothing else touched but the channel. -/
theorem pollButtons_spec (st : Listener × List ButtonEvent) (state : XInputState) :
    (pollButtons st state).2 =
        st.2 ++ edgeEvents st.1.controllerID state st.1 (standardBits.map Sym.bit)
    ∧ (pollButtons st state).1.prevState = state.Gamepad.Buttons
    ∧ (∀ d, (pollButtons st state).1.prev d = st.1.prev d)
    ∧ (pollButtons st state).1.controllerID = st.1.controllerID
    ∧ (pollButtons st state).1.running = st.1.running := by
  rw [edgeEvents_bits]
  have key : ∀ X : Listener × List ButtonEvent,
      X = (if (state.Gamepad.Buttons ^^^ st.1.prevState != 0) = true then
          standardBtns.foldl
            (pollButton state.Gamepad.Buttons (state.Gamepad.Buttons ^^^ st.1.prevState)) st
        else st) →
      X.2 = st.2 ++ (standardBits.filter
          (fun i => state.Gamepad.Buttons.testBit i != st.1.prevState.testBit i)).map
          (fun i => { Button := 2 ^ i, Pressed := state.Gamepad.Buttons.testBit i,
                      PlayerID := st.1.controllerID })
      ∧ (∀ d, X.1.prev d = st.1.prev d)
      ∧ X.1.controllerID = st.1.controllerID
      ∧ X.1.running = st.1.running := by
    intro X hX
    subst hX
    by_cases hz : state.Gamepad.Buttons ^^^ st.1.prevState = 0
    · have hnil : standardBits.filter
          (fun i => state.Gamepad.Buttons.testBit i != st.1.prevState.testBit i) = [] := by
        rw [List.filter_eq_nil_iff]
        intro i _
        rw [testBit_eq_of_xor_eq_zero _ _ hz i]
        simp
      rw [if_neg (by simp [hz]), hnil]
      exact ⟨by simp, fun d => rfl, rfl, rfl⟩
    · rw [if_pos (by simpa using hz), standardBtns_eq]
      obtain ⟨h1, _, h3, h4, h5⟩ :=
        pollButton_foldl state.Gamepad.Buttons st.1.prevState standardBits standardBits_lt st
      exact ⟨h1, h3, h4, h5⟩
  obtain ⟨k1, k2, k3, k4⟩ := key _ rfl
  exact ⟨k1, rfl, fun d => by rw [← k2 d]; cases d <;> rfl, k3, k4⟩

theorem pollDerived_spec (state : XInputState) (st : Listener × List ButtonEvent)
    (d : Derived) :
    (pollDerived state st d).2 =
        st.2 ++ (if (d.level state != st.1.prev d) = true then
          [{ Button := d.button, Pressed := d.level state, PlayerID := st.1.controllerID }]
          else [])
    ∧ (∀ e, (pollDerived state st d).1.prev e =
        if e = d then d.level state else st.1.prev e)
    ∧ (pollDerived state st d).1.prevState = st.1.prevState
    ∧ (pollDerived state st d).1.controllerID = st.1.controllerID
    ∧ (pollDerived state st d).1.running = st.1.running := by
  unfold pollDerived
  simp only []
  by_cases hc : (d.level state != st.1.prev d) = true
  · rw [if_pos hc, if_pos hc]
    exact ⟨rfl, fun e => by simp [emit], by simp [emit], by simp [emit], by simp [emit]⟩
  · rw [if_neg hc, if_neg hc]
    refine ⟨(List.append_nil _).symm, fun e => ?_, rfl, rfl, rfl⟩
    by_cases he : e = d
    · rw [if_pos he, he]
      have : d.level state = st.1.prev d := by simpa using hc
      exact this.symm
    · rw [if_neg he]

/-- The guarded blocks of a duplicate-free list of derived symbols, run in
order. -/
theorem pollDerived_foldl (state : XInputState) (ds : List Derived) (hnd : ds.Nodup)
    (st : Listener × List ButtonEvent) :
    (ds.foldl (pollDerived state) st).2 =
        st.2 ++ (ds.filter (fun d => d.level state != st.1.prev d)).map
          (fun d => { Button := d.button, Pressed := d.level state,
                      PlayerID := st.1.controllerID })
    ∧ (∀ e, (ds.foldl (pollDerived state) st).1.prev e =
        if e ∈ ds then e.level state else st.1.prev e)
    ∧ (ds.foldl (pollDerived state) st).1.prevState = st.1.prevState
    ∧ (ds.foldl (pollDerived state) st).1.controllerID = st.1.controllerID
    ∧ (ds.foldl (pollDerived state) st).1.running = st.1.running := by
  induction ds generalizing st with
  | nil => simp
  | cons d ds ih =>
    obtain ⟨hd, hnd2⟩ := List.nodup_cons.mp hnd
    obtain ⟨s1, s2, s3, s4, s5⟩ := pollDerived_spec state st d
    obtain ⟨h1, h2, h3, h4, h5⟩ := ih hnd2 (pollDerived state st d)
    rw [List.foldl_cons]
    refine ⟨?_, ?_, by rw [h3, s3], by rw [h4, s4], by rw [h5, s5]⟩
    · rw [h1, s1, s4]
      have hcongr : ds.filter (fun e => e.level state != (pollDerived state st d).1.prev e) =
          ds.filter (fun e => e.level state != st.1.prev e) := by
        apply List.filter_congr
        intro e he
        rw [s2 e, if_neg (fun (h : e = d) => hd (h ▸ he))]
      rw [hcongr]
      by_cases hc : (d.level state != st.1.prev d) = true
      · rw [if_pos hc]
        simp only [List.filter_cons, hc, if_true]
        simp
      · rw [if_neg hc]
        simp only [List.filter_cons, hc, if_false]
        simp
    · intro e
      rw [h2 e, s2 e]
      by_cases he : e = d
      · subst he
        simp [hd]
      · simp [he]

/-- What one successful `poll` does: it reports the edges of all 26 symbols in
the fixed order and stores the levels of the sample. -/
theorem poll_spec (st : Listener × List ButtonEvent) (state : XInputState) :
    (poll st (some state)).2 = st.2 ++ edgeEvents st.1.controllerID state st.1 symOrder
    ∧ (∀ s, storedLevel (poll st (some state)).1 s = sampleLevel state s)
    ∧ (poll st (some state)).1.prevState = state.Gamepad.Buttons
    ∧ (poll st (some state)).1.controllerID = st.1.controllerID
    ∧ (poll st (some state)).1.running = st.1.running := by
  have e : poll st (some state) = derivedOrder.foldl (pollDerived state) (pollButtons st state) :=
    rfl
  obtain ⟨b1, b2, b3, b4, b5⟩ := pollButtons_spec st state
  obtain ⟨h1, h2, h3, h4, h5⟩ :=
    pollDerived_foldl state derivedOrder derivedOrder_nodup (pollButtons st state)
  rw [e]
  refine ⟨?_, ?_, by rw [h3, b2], by rw [h4, b4], by rw [h5, b5]⟩
  · rw [h1, b1, b4]
    unfold symOrder
    rw [edgeEvents_append, edgeEvents_derived, List.append_assoc]
    have hcongr : derivedOrder.filter
          (fun d => d.level state != (pollButtons st state).1.prev d) =
        derivedOrder.filter (fun d => d.level state != st.1.prev d) := by
      apply List.filter_congr
      intro d _
      rw [b3 d]
    rw [hcongr]
  · intro s
    cases s with
    | bit i => simp only [storedLevel, sampleLevel, h3, b2]
    | derived d => simp only [storedLevel, sampleLevel, h2 d, mem_derivedOrder, if_true]

theorem balance_nil (b : Button) : balance b [] = 0 := rfl

theorem balance_append (b : Button) (l1 l2 : List ButtonEvent) :
    balance b (l1 ++ l2) = balance b l1 + balance b l2 := by
  unfold balance
  rw [List.countP_append, List.countP_append]
  push_cast
  ring

theorem balance_cons (b : Button) (e : ButtonEvent) (l : List ButtonEvent) :
    balance b (e :: l) =
      (if e.Button = b then (if e.Pressed = true then 1 else -1) else 0) + balance b l := by
  unfold balance
  rw [List.countP_cons, List.countP_cons]
  by_cases h : e.Button = b
  · cases hp : e.Pressed <;> simp [h, hp] <;> ring
  · simp [h]

theorem balance_eq_zero_of_absent (b : Button) (l : List ButtonEvent)
    (h : ∀ e ∈ l, e.Button ≠ b) : balance b l = 0 := by
  induction l with
  | nil => rfl
  | cons e l ih =>
    rw [balance_cons, if_neg (h e (List.mem_cons_self _ _)),
      ih (fun x hx => h x (List.mem_cons_of_mem _ hx))]
    rfl

theorem Sym.button_inj {s t : Sym} (hs : s ∈ symOrder) (ht : t ∈ symOrder)
    (h : s.button = t.button) : s = t :=
  List.inj_on_of_nodup_map symOrder_buttons_nodup hs ht h

/-- Balance of a batch of edge events for a duplicate-free list of tracked
symbols. -/
theorem balance_edges (cid : Int) (lv : Sym → Bool) (P : List Sym) (hnd : P.Nodup)
    (hP : ∀ s ∈ P, s ∈ symOrder) (s0 : Sym) (h0 : s0 ∈ symOrder) :
    balance s0.button
        (P.map (fun s => { Button := s.button, Pressed := lv s, PlayerID := cid })) =
      if s0 ∈ P then (if lv s0 = true then 1 else -1) else 0 := by
  induction P with
  | nil => rfl
  | cons s P ih =>
    obtain ⟨hs, hnd2⟩ := List.nodup_cons.mp hnd
    have ih2 := ih hnd2 (fun x hx => hP x (List.mem_cons_of_mem _ hx))
    rw [List.map_cons, balance_cons, ih2]
    by_cases he : s = s0
    · subst he
      simp [hs]
    · have hb : ¬ s.button = s0.button :=
        fun h => he (Sym.button_inj (hP s (List.mem_cons_self _ _)) h0 h)
      have hm : s0 ∈ s :: P ↔ s0 ∈ P := by
        simp [List.mem_cons, Ne.symm he]
      simp only [hb, if_false, zero_add, hm]

theorem balance_edges_untracked (cid : Int) (lv : Sym → Bool) (P : List Sym)
    (hP : ∀ s ∈ P, s ∈ symOrder) (b : Button) (hb : ∀ s ∈ symOrder, s.button ≠ b) :
    balance b (P.map (fun s => { Button := s.button, Pressed := lv s, PlayerID := cid })) = 0 := by
  apply balance_eq_zero_of_absent
  intro e he
  obtain ⟨s, hs, rfl⟩ := List.mem_map.mp he
  exact hb s (hP s hs)

/-- Appending the edges of a duplicate-free list of changed tracked symbols to
a log that satisfies the invariant keeps every balance at 0 or 1. -/
theorem balance_step (st : Listener × List ButtonEvent) (hinv : EdgeInv st) (cid : Int)
    (lv : Sym → Bool) (P : List Sym) (hnd : P.Nodup)
    (hP : ∀ s ∈ P, s ∈ symOrder ∧ (lv s != storedLevel st.1 s) = true) :
    (∀ s0 ∈ symOrder,
      balance s0.button
          (st.2 ++ P.map (fun s => { Button := s.button, Pressed := lv s, PlayerID := cid })) =
        if s0 ∈ P then (if lv s0 = true then 1 else 0)
        else (if storedLevel st.1 s0 = true then 1 else 0))
    ∧ (∀ b, (∀ s ∈ symOrder, s.button ≠ b) →
      balance b
          (st.2 ++ P.map (fun s => { Button := s.button, Pressed := lv s, PlayerID := cid }))
        = 0) := by
  obtain ⟨i1, i2, _⟩ := hinv
  constructor
  · intro s0 h0
    rw [balance_append, i1 s0 h0, balance_edges cid lv P hnd (fun s hs => (hP s hs).1) s0 h0]
    by_cases hm : s0 ∈ P
    · have hc := (hP s0 hm).2
      rw [if_pos hm, if_pos hm]
      cases h1 : lv s0 <;> cases h2 : storedLevel st.1 s0 <;> simp [h1, h2] at hc ⊢
    · rw [if_neg hm, if_neg hm]
      simp
  · intro b hb
    rw [balance_append, i2 b hb,
      balance_edges_untracked cid lv P (fun s hs => (hP s hs).1) b hb]
    rfl

theorem zero_or_one_of_tracked (x : Int) (c1 c2 c3 : Prop) [Decidable c1] [Decidable c2]
    [Decidable c3]
    (h : x = if c1 then (if c2 then 1 else 0) else (if c3 then 1 else 0)) : x = 0 ∨ x = 1 := by
  subst h
  by_cases h1 : c1 <;> by_cases h2 : c2 <;> by_cases h3 : c3 <;> simp [h1, h2, h3]

/-- One tick preserves the bookkeeping invariant. -/
theorem EdgeInv_poll (st : Listener × List ButtonEvent) (sample : Option XInputState)
    (hinv : EdgeInv st) : EdgeInv (poll st sample) := by
  cases sample with
  | none => exact hinv
  | some state =>
    obtain ⟨p1, p2, _, _, _⟩ := poll_spec st state
    have hfilt : ∀ (Q : List Sym), Q.Sublist
        (symOrder.filter (fun s => sampleLevel state s != storedLevel st.1 s)) →
        Q.Nodup ∧ ∀ s ∈ Q, s ∈ symOrder ∧ (sampleLevel state s != storedLevel st.1 s) = true := by
      intro Q hQ
      refine ⟨(symOrder_nodup.filter _).sublist hQ, fun s hs => ?_⟩
      have := List.mem_filter.mp (hQ.subset hs)
      exact ⟨this.1, this.2⟩
    have hlog : (poll st (some state)).2 = st.2 ++
        (symOrder.filter (fun s => sampleLevel state s != storedLevel st.1 s)).map
          (fun s => { Button := s.button, Pressed := sampleLevel state s,
                      PlayerID := st.1.controllerID }) := p1
    refine ⟨?_, ?_, ?_⟩
    · intro s0 h0
      obtain ⟨hn, hp⟩ := hfilt _ (List.Sublist.refl _)
      rw [hlog, (balance_step st hinv st.1.controllerID (sampleLevel state) _ hn hp).1 s0 h0,
        p2 s0]
      by_cases hm : s0 ∈ symOrder.filter (fun s => sampleLevel state s != storedLevel st.1 s)
      · rw [if_pos hm]
      · rw [if_neg hm]
        have hc : ¬ (sampleLevel state s0 != storedLevel st.1 s0) = true :=
          fun hc => hm (List.mem_filter.mpr ⟨h0, hc⟩)
        have : sampleLevel state s0 = storedLevel st.1 s0 := by simpa using hc
        rw [this]
    · intro b hb
      obtain ⟨hn, hp⟩ := hfilt _ (List.Sublist.refl _)
      rw [hlog]
      exact (balance_step st hinv st.1.controllerID (sampleLevel state) _ hn hp).2 b hb
    · intro n b
      rw [hlog, List.take_append_eq_append_take]
      by_cases hle : n ≤ st.2.length
      · have h0 : n - st.2.length = 0 := by omega
        rw [h0, List.take_zero, List.append_nil]
        exact hinv.2.2 n b
      · rw [List.take_of_length_le (by omega), ← List.map_take]
        obtain ⟨hn, hp⟩ := hfilt _ (List.take_sublist (n - st.2.length) _)
        have hstep := balance_step st hinv st.1.controllerID (sampleLevel state) _ hn hp
        by_cases hb : ∃ s ∈ symOrder, s.button = b
        · obtain ⟨s0, h0, rfl⟩ := hb
          exact zero_or_one_of_tracked _ _ _ _ (hstep.1 s0 h0)
        · exact Or.inl (hstep.2 b (fun s hs h => hb ⟨s, hs, h⟩))

theorem EdgeInv_pollAll (samples : List (Option XInputState))
    (st : Listener × List ButtonEvent) (hinv : EdgeInv st) : EdgeInv (pollAll samples st) := by
  induction samples generalizing st with
  | nil => exact hinv
  | cons x xs ih => exact ih _ (EdgeInv_poll st x hinv)

/-- A listener whose stored levels are all clear satisfies the invariant with an
empty log. -/
theorem EdgeInv_baseline (l : Listener) (h0 : l.prevState = 0) (hd : ∀ d, l.prev d = false) :
    EdgeInv (l, []) := by
  refine ⟨fun s _ => ?_, fun b _ => rfl, fun n b => Or.inl (by simp [balance_nil])⟩
  cases s with
  | bit i => simp [storedLevel, h0, balance_nil]
  | derived d => simp [storedLevel, hd d, balance_nil]

theorem Start_baseline (l : Listener) (h : l.running = false) :
    (l.Start none).1.prevState = 0 ∧ (∀ d, (l.Start none).1.prev d = false)
    ∧ (l.Start none).1.eventChan = [] ∧ (l.Start none).1.running = true
    ∧ (l.Start none).1.controllerID = l.controllerID ∧ (l.Start none).2 = none := by
  unfold Listener.Start
  rw [h]
  exact ⟨rfl, fun d => by cases d <;> rfl, rfl, rfl, rfl, rfl⟩

/-- In a log whose balances stay at 0 or 1, the first event of a button is a
press. -/
theorem first_event_pressed (log pre post : List ButtonEvent) (e : ButtonEvent)
    (hgood : ∀ n b, balance b (log.take n) = 0 ∨ balance b (log.take n) = 1)
    (hsplit : log = pre ++ e :: post) (hfirst : ∀ x ∈ pre, x.Button ≠ e.Button) :
    e.Pressed = true := by
  have h := hgood (pre.length + 1) e.Button
  have ht : log.take (pre.length + 1) = pre ++ [e] := by
    rw [hsplit, List.take_append_eq_append_take, List.take_of_length_le (by omega)]
    simp
  rw [ht, balance_append, balance_eq_zero_of_absent _ _ hfirst, balance_cons, balance_nil] at h
  cases hp : e.Pressed with
  | true => rfl
  | false => simp [hp] at h

/-- In a log whose balances stay at 0 or 1, two consecutive events of one
button differ in direction. -/
theorem events_alternate (log pre mid post : List ButtonEvent) (e1 e2 : ButtonEvent)
    (hgood : ∀ n b, balance b (log.take n) = 0 ∨ balance b (log.take n) = 1)
    (hsplit : log = pre ++ e1 :: (mid ++ e2 :: post)) (hb : e2.Button = e1.Button)
    (hmid : ∀ x ∈ mid, x.Button ≠ e1.Button) : e1.Pressed ≠ e2.Pressed := by
  have h0 := hgood pre.length e1.Button
  have h1 := hgood (pre.length + 1 + mid.length + 1) e1.Button
  have t0 : log.take pre.length = pre := by
    rw [hsplit, List.take_append_eq_append_take, List.take_of_length_le (le_refl _)]
    simp
  have t1 : log.take (pre.length + 1 + mid.length + 1) = pre ++ [e1] ++ mid ++ [e2] := by
    have : log = (pre ++ [e1] ++ mid ++ [e2]) ++ post := by simp [hsplit]
    rw [this, List.take_append_eq_append_take, List.take_of_length_le (by simp; omega)]
    have hl : pre.length + 1 + mid.length + 1 - (pre ++ [e1] ++ mid ++ [e2]).length = 0 := by
      simp; omega
    rw [hl]
    simp
  rw [t0] at h0
  rw [t1, balance_append, balance_append, balance_append, balance_cons, balance_cons,
    balance_nil, balance_eq_zero_of_absent _ _ hmid, if_pos rfl, if_pos hb] at h1
  intro heq
  rw [heq] at h1
  cases hp : e2.Pressed <;> simp [hp] at h1 <;> omega

theorem mem_standardBits (i : Nat) : i ∈ standardBits ↔ i < 16 := by
  constructor
  · exact standardBits_lt i
  · intro h
    interval_cases i <;> decide

theorem Derived.button_injective {d e : Derived} (h : d.button = e.button) : d = e := by
  have hd : Sym.derived d ∈ symOrder :=
    List.mem_append_right _ (List.mem_map.mpr ⟨d, mem_derivedOrder d, rfl⟩)
  have he : Sym.derived e ∈ symOrder :=
    List.mem_append_right _ (List.mem_map.mpr ⟨e, mem_derivedOrder e, rfl⟩)
  have := Sym.button_inj hd he h
  injection this

/-- The channel never holds more than its capacity, and what the consumer has
received followed by what is still queued is a subsequence of what was sent. -/
theorem runChan_inv (steps : List ChanStep)
    (st : Listener × List ButtonEvent × List ButtonEvent)
    (hlen : st.1.eventChan.length ≤ eventChanCap)
    (hsub : (st.2.2 ++ st.1.eventChan).Sublist st.2.1) :
    (runChan steps st).1.eventChan.length ≤ eventChanCap
    ∧ ((runChan steps st).2.2 ++ (runChan steps st).1.eventChan).Sublist (runChan steps st).2.1
    ∧ (runChan steps st).1.controllerID = st.1.controllerID := by
  induction steps generalizing st with
  | nil => exact ⟨hlen, hsub, rfl⟩
  | cons step steps ih =>
    unfold runChan
    rw [List.foldl_cons]
    cases step with
    | send button pressed =>
      simp only
      by_cases hroom : st.1.eventChan.length < eventChanCap
      · have e : sendEvent st.1 button pressed = { st.1 with eventChan := st.1.eventChan ++
            [{ Button := button, Pressed := pressed, PlayerID := st.1.controllerID }] } := by
          unfold sendEvent
          simp only [hroom, if_true]
        have := ih (sendEvent st.1 button pressed, st.2.1 ++
            [{ Button := button, Pressed := pressed, PlayerID := st.1.controllerID }], st.2.2)
          (by rw [e]; simp only [List.length_append, List.length_singleton]; omega)
          (by
            rw [e]
            simp only
            rw [← List.append_assoc]
            exact List.Sublist.append hsub (List.Sublist.refl _))
        simpa [runChan] using this
      · have e : sendEvent st.1 button pressed = st.1 := by
          unfold sendEvent
          simp only [hroom, if_false]
        have := ih (sendEvent st.1 button pressed, st.2.1 ++
            [{ Button := button, Pressed := pressed, PlayerID := st.1.controllerID }], st.2.2)
          (by rw [e]; exact hlen)
          (by
            rw [e]
            exact hsub.trans (List.sublist_append_left _ _))
        simpa [runChan, e] using this
    | recv =>
      simp only
      cases hq : st.1.eventChan with
      | nil =>
        have e : receiveEvent st.1 = none := by unfold receiveEvent; rw [hq]
        rw [e]
        exact ih st hlen hsub
      | cons x rest =>
        have e : receiveEvent st.1 = some (x, { st.1 with eventChan := rest }) := by
          unfold receiveEvent; rw [hq]
        rw [e]
        simp only
        have := ih ({ st.1 with eventChan := rest }, st.2.1, st.2.2 ++ [x])
          (by
            rw [hq] at hlen
            simp only [List.length_cons] at hlen ⊢
            omega)
          (by
            rw [hq] at hsub
            simpa using hsub)
        simpa [runChan] using this

/-- Among the edge events of a duplicate-free list of tracked symbols, those of
one tracked symbol are its single event, or none. -/
theorem filter_button_edges (cid : Int) (lv : Sym → Bool) (P : List Sym) (hnd : P.Nodup)
    (hP : ∀ s ∈ P, s ∈ symOrder) (s0 : Sym) (h0 : s0 ∈ symOrder) :
    (P.map (fun s => ({ Button := s.button, Pressed := lv s, PlayerID := cid } : ButtonEvent))).filter
        (fun e => e.Button == s0.button) =
      if s0 ∈ P then [{ Button := s0.button, Pressed := lv s0, PlayerID := cid }] else [] := by
  induction P with
  | nil => rfl
  | cons s P ih =>
    obtain ⟨hs, hnd2⟩ := List.nodup_cons.mp hnd
    have ih2 := ih hnd2 (fun x hx => hP x (List.mem_cons_of_mem _ hx))
    rw [List.map_cons, List.filter_cons, ih2]
    by_cases he : s = s0
    · subst he
      simp [hs]
    · have hb : ¬ s.button = s0.button :=
        fun h => he (Sym.button_inj (hP s (List.mem_cons_self _ _)) h0 h)
      have hm : s0 ∈ s :: P ↔ s0 ∈ P := by
        simp [List.mem_cons, Ne.symm he]
      simp only [beq_iff_eq, hb, if_false, hm]

theorem edgeEvents_filter_button (cid : Int) (state : XInputState) (l : Listener)
    (syms : List Sym) (hnd : syms.Nodup) (hs : ∀ s ∈ syms, s ∈ symOrder) (s0 : Sym)
    (h0 : s0 ∈ syms) :
    (edgeEvents cid state l syms).filter (fun e => e.Button == s0.button) =
      if (sampleLevel state s0 != storedLevel l s0) = true then
        [{ Button := s0.button, Pressed := sampleLevel state s0, PlayerID := cid }]
      else [] := by
  unfold edgeEvents
  rw [filter_button_edges cid (sampleLevel state) _ (hnd.filter _)
    (fun s h => hs s (List.mem_filter.mp h).1) s0 (hs s0 h0)]
  by_cases hc : (sampleLevel state s0 != storedLevel l s0) = true
  · rw [if_pos hc, if_pos (List.mem_filter.mpr ⟨h0, hc⟩)]
  · have hm : s0 ∉ syms.filter (fun s => sampleLevel state s != storedLevel l s) :=
      fun h => hc (List.mem_filter.mp h).2
    rw [if_neg hc, if_neg hm]

theorem edgeEvents_nodup (cid : Int) (state : XInputState) (l : Listener) (syms : List Sym)
    (hnd : syms.Nodup) (hs : ∀ s ∈ syms, s ∈ symOrder) :
    (edgeEvents cid state l syms).Nodup := by
  unfold edgeEvents
  apply List.Nodup.map_on _ (hnd.filter _)
  intro a ha b hb hab
  have h1 : a.button = b.button := congrArg ButtonEvent.Button hab
  exact Sym.button_inj (hs a (List.mem_filter.mp ha).1) (hs b (List.mem_filter.mp hb).1) h1

theorem bits_subset_symOrder : ∀ s ∈ standardBits.map Sym.bit, s ∈ symOrder :=
  fun _ h => List.mem_append_left _ h

theorem derived_subset_symOrder : ∀ s ∈ derivedOrder.map Sym.derived, s ∈ symOrder :=
  fun _ h => List.mem_append_right _ h

theorem bits_syms_nodup : (standardBits.map Sym.bit).Nodup := by decide

theorem derived_syms_nodup : (derivedOrder.map Sym.derived).Nodup := by decide

theorem pollTriggersSticks_spec (st : Listener × List ButtonEvent) (state : XInputState) :
    (pollSticks (pollTriggers st state) state).2 =
        st.2 ++ edgeEvents st.1.controllerID state st.1 (derivedOrder.map Sym.derived)
    ∧ (∀ d, (pollSticks (pollTriggers st state) state).1.prev d = d.level state)
    ∧ (pollSticks (pollTriggers st state) state).1.prevState = st.1.prevState
    ∧ (pollSticks (pollTriggers st state) state).1.controllerID = st.1.controllerID := by
  have e : pollSticks (pollTriggers st state) state = derivedOrder.foldl (pollDerived state) st :=
    rfl
  obtain ⟨h1, h2, h3, h4, _⟩ := pollDerived_foldl state derivedOrder derivedOrder_nodup st
  rw [e, edgeEvents_derived]
  exact ⟨h1, fun d => by rw [h2 d, if_pos (mem_derivedOrder d)], h3, h4⟩

/-! ## Lemmas on the rule table and the controller -/

theorem HasConflict_iff (m : Mapper) (s : Button) (x : String) :
    m.HasConflict s x = true ↔ ∃ r ∈ m.rules, r.ID ≠ x ∧ r.SourceKey = s := by
  unfold Mapper.HasConflict
  rw [List.any_eq_true]
  constructor
  · rintro ⟨r, hr, h⟩
    simp only [Bool.and_eq_true, beq_iff_eq, bne_iff_ne, ne_eq] at h
    exact ⟨r, hr, h.2, h.1⟩
  · rintro ⟨r, hr, h1, h2⟩
    exact ⟨r, hr, by simp [h1, h2]⟩

theorem HasConflict_false_iff (m : Mapper) (s : Button) (x : String) :
    m.HasConflict s x = false ↔ ∀ r ∈ m.rules, r.SourceKey = s → r.ID = x := by
  rw [← Bool.not_eq_true, HasConflict_iff]
  constructor
  · intro h r hr hs
    by_contra hne
    exact h ⟨r, hr, hne, hs⟩
  · rintro h ⟨r, hr, hne, hs⟩
    exact hne (h r hr hs)

theorem generateRuleID_ne_empty (nanos : Int) : generateRuleID nanos ≠ "" := by
  intro h
  have := congrArg String.length h
  unfold generateRuleID at this
  rw [String.length_append] at this
  have h5 : "rule_".length = 5 := by decide
  have h0 : "".length = 0 := by decide
  omega

theorem removeFirst_none_iff (id : String) (rules : List MappingRule) :
    removeFirst id rules = none ↔ ∀ r ∈ rules, r.ID ≠ id := by
  induction rules with
  | nil => simp [removeFirst]
  | cons r rs ih =>
    unfold removeFirst
    by_cases h : r.ID = id
    · simp [h]
    · simp only [beq_iff_eq, h, if_false, List.mem_cons, forall_eq_or_imp, ne_eq, not_false_eq_true,
        true_and]
      rw [← ih]
      cases removeFirst id rs <;> simp

theorem removeFirst_some (id : String) (rules rs : List MappingRule)
    (h : removeFirst id rules = some rs) :
    ∃ pre r post, rules = pre ++ r :: post ∧ r.ID = id ∧ (∀ x ∈ pre, x.ID ≠ id)
      ∧ rs = pre ++ post := by
  induction rules generalizing rs with
  | nil => simp [removeFirst] at h
  | cons r rest ih =>
    unfold removeFirst at h
    by_cases hid : r.ID = id
    · simp only [hid, beq_self_eq_true, if_true, Option.some.injEq] at h
      exact ⟨[], r, rest, rfl, hid, by simp, by simp [h]⟩
    · simp only [beq_iff_eq, hid, if_false] at h
      cases hrec : removeFirst id rest with
      | none => rw [hrec] at h; cases h
      | some rest1 =>
        rw [hrec] at h
        simp only [Option.some.injEq] at h
        obtain ⟨pre, x, post, h1, h2, h3, h4⟩ := ih rest1 hrec
        refine ⟨r :: pre, x, post, by simp [h1], h2, ?_, by simp [← h, h4]⟩
        intro y hy
        rcases List.mem_cons.mp hy with rfl | hy
        · exact hid
        · exact h3 y hy

theorem removeFirst_sublist (id : String) (rules rs : List MappingRule)
    (h : removeFirst id rules = some rs) : rs.Sublist rules := by
  obtain ⟨pre, r, post, h1, _, _, h4⟩ := removeFirst_some id rules rs h
  rw [h1, h4]
  exact List.Sublist.append (List.Sublist.refl _) (List.sublist_cons_self _ _)

theorem AddRuleMultiKeys_of_conflict (a : App) (nanos : Int) (source : Button)
    (targets : List KeyCode) (mods : Modifiers) (h : a.mapper.HasConflict source "" = true) :
    a.AddRuleMultiKeys nanos source targets mods =
      (a, Except.error (AddError.conflict source), []) := by
  unfold App.AddRuleMultiKeys
  rw [if_pos h]

theorem AddRuleMultiKeys_of_free (a : App) (nanos : Int) (source : Button)
    (targets : List KeyCode) (mods : Modifiers) (h : a.mapper.HasConflict source "" = false) :
    a.AddRuleMultiKeys nanos source targets mods =
      a.commitRule (NewRuleMultiKeys (generateRuleID nanos) source targets mods) := by
  unfold App.AddRuleMultiKeys
  rw [if_neg (by simp [h])]

theorem AddRuleGamepad_of_conflict (a : App) (nanos : Int) (source : Button)
    (targets : List Button) (h : a.mapper.HasConflict source "" = true) :
    a.AddRuleGamepad nanos source targets =
      (a, Except.error (AddError.conflict source), []) := by
  unfold App.AddRuleGamepad
  rw [if_pos h]

theorem AddRuleGamepad_of_self (a : App) (nanos : Int) (source : Button)
    (targets : List Button) (h : a.mapper.HasConflict source "" = false)
    (hs : source ∈ targets) :
    a.AddRuleGamepad nanos source targets = (a, Except.error AddError.selfTarget, []) := by
  unfold App.AddRuleGamepad
  rw [if_neg (by simp [h]), if_pos]
  rw [List.any_eq_true]
  exact ⟨source, hs, by simp⟩

theorem AddRuleGamepad_of_free (a : App) (nanos : Int) (source : Button)
    (targets : List Button) (h : a.mapper.HasConflict source "" = false)
    (hs : source ∉ targets) :
    a.AddRuleGamepad nanos source targets =
      a.commitRule (NewRuleGamepad (generateRuleID nanos) source targets) := by
  unfold App.AddRuleGamepad
  rw [if_neg (by simp [h]), if_neg]
  rw [List.any_eq_true]
  rintro ⟨t, ht, h2⟩
  simp only [beq_iff_eq] at h2
  exact hs (h2 ▸ ht)

/-- The table after one mutating call is the old table, the old table with a
rule made by one of the constructors appended (the source then being free of
rules with a non-empty ID), the old table less a rule, or the installed
sequence. -/
theorem AppOp.apply_rules (a : App) (op : AppOp) :
    (op.apply a).mapper.rules = a.mapper.rules
    ∨ (∃ rule, (op.apply a).mapper.rules = a.mapper.rules ++ [rule]
        ∧ rule.Enabled = true ∧ rule.ID ≠ ""
        ∧ a.mapper.HasConflict rule.SourceKey "" = false)
    ∨ (op.apply a).mapper.rules.Sublist a.mapper.rules
    ∨ (∃ rs, op = AppOp.setRules rs ∧ (op.apply a).mapper.rules = rs) := by
  cases op with
  | addRule nanos source target mods =>
    simp only [AppOp.apply, App.AddRule]
    cases h : a.mapper.HasConflict source ""
    · rw [AddRuleMultiKeys_of_free a nanos source [target] mods h]
      exact Or.inr (Or.inl ⟨_, rfl, rfl, generateRuleID_ne_empty nanos, h⟩)
    · rw [AddRuleMultiKeys_of_conflict a nanos source [target] mods h]
      exact Or.inl rfl
  | addRuleMultiKeys nanos source targets mods =>
    simp only [AppOp.apply]
    cases h : a.mapper.HasConflict source ""
    · rw [AddRuleMultiKeys_of_free a nanos source targets mods h]
      exact Or.inr (Or.inl ⟨_, rfl, rfl, generateRuleID_ne_empty nanos, h⟩)
    · rw [AddRuleMultiKeys_of_conflict a nanos source targets mods h]
      exact Or.inl rfl
  | addRuleGamepad nanos source targets =>
    simp only [AppOp.apply]
    cases h : a.mapper.HasConflict source ""
    · by_cases hs : source ∈ targets
      · rw [AddRuleGamepad_of_self a nanos source targets h hs]
        exact Or.inl rfl
      · rw [AddRuleGamepad_of_free a nanos source targets h hs]
        exact Or.inr (Or.inl ⟨_, rfl, rfl, generateRuleID_ne_empty nanos, h⟩)
    · rw [AddRuleGamepad_of_conflict a nanos source targets h]
      exact Or.inl rfl
  | removeRule id =>
    simp only [AppOp.apply, App.RemoveRule, Mapper.RemoveRule]
    cases h : removeFirst id a.mapper.rules with
    | none => exact Or.inl (by simp)
    | some rs => exact Or.inr (Or.inr (Or.inl (by simpa using removeFirst_sublist id _ rs h)))
  | setRules rs => exact Or.inr (Or.inr (Or.inr ⟨rs, rfl, rfl⟩))

theorem AtMostOnePerSource_sublist (l1 l2 : List MappingRule) (h : l1.Sublist l2)
    (h2 : AtMostOnePerSource l2) : AtMostOnePerSource l1 := by
  intro s
  exact le_trans (List.Sublist.length_le (List.Sublist.filter _ h)) (h2 s)

/-- Appending an enabled rule keeps at most one enabled rule per source when
every enabled rule has a non-empty ID and the source has no rule with a
non-empty ID. -/
theorem AtMostOnePerSource_append (rules : List MappingRule) (rule : MappingRule)
    (h1 : AtMostOnePerSource rules) (h2 : ∀ r ∈ rules, r.Enabled = true → r.ID ≠ "")
    (hfree : ∀ r ∈ rules, r.SourceKey = rule.SourceKey → r.ID = "") :
    AtMostOnePerSource (rules ++ [rule]) := by
  intro s
  rw [List.filter_append, List.length_append]
  by_cases hs : rule.SourceKey = s
  · have hnil : rules.filter (fun r => r.Enabled && r.SourceKey == s) = [] := by
      rw [List.filter_eq_nil_iff]
      intro r hr hc
      simp only [Bool.and_eq_true, beq_iff_eq] at hc
      exact h2 r hr hc.1 (hfree r hr (hc.2.trans hs.symm))
    rw [hnil]
    simp only [List.length_nil, zero_add]
    exact List.length_filter_le _ _
  · have hnil : [rule].filter (fun r => r.Enabled && r.SourceKey == s) = [] := by
      simp [hs]
    rw [hnil]
    simpa using h1 s

theorem runApp_invariant (ops : List AppOp) (a : App)
    (hops : ∀ rs, AppOp.setRules rs ∈ ops →
      AtMostOnePerSource rs ∧ ∀ r ∈ rs, r.Enabled = true → r.ID ≠ "")
    (h1 : AtMostOnePerSource a.mapper.rules)
    (h2 : ∀ r ∈ a.mapper.rules, r.Enabled = true → r.ID ≠ "") :
    AtMostOnePerSource (runApp ops a).mapper.rules
    ∧ ∀ r ∈ (runApp ops a).mapper.rules, r.Enabled = true → r.ID ≠ "" := by
  induction ops generalizing a with
  | nil => exact ⟨h1, h2⟩
  | cons op ops ih =>
    have hrest : ∀ rs, AppOp.setRules rs ∈ ops →
        AtMostOnePerSource rs ∧ ∀ r ∈ rs, r.Enabled = true → r.ID ≠ "" :=
      fun rs h => hops rs (List.mem_cons_of_mem _ h)
    apply ih (op.apply a) hrest
    · rcases AppOp.apply_rules a op with h | ⟨rule, h, _, _, hc⟩ | h | ⟨rs, hop, h⟩
      · rw [h]; exact h1
      · rw [h]
        exact AtMostOnePerSource_append _ rule h1 h2
          ((HasConflict_false_iff a.mapper rule.SourceKey "").mp hc)
      · exact AtMostOnePerSource_sublist _ _ h h1
      · rw [h]
        exact (hops rs (hop ▸ List.mem_cons_self _ _)).1
    · rcases AppOp.apply_rules a op with h | ⟨rule, h, _, hid, _⟩ | h | ⟨rs, hop, h⟩
      · rw [h]; exact h2
      · rw [h]
        intro r hr he
        rcases List.mem_append.mp hr with hr | hr
        · exact h2 r hr he
        · rw [List.mem_singleton] at hr
          rw [hr]; exact hid
      · intro r hr he
        exact h2 r (h.subset hr) he
      · rw [h]
        exact (hops rs (hop ▸ List.mem_cons_self _ _)).2

theorem Listener.Start_fail (l : Listener) (loadErr : Option String) (err : String)
    (h : (l.Start loadErr).2 = some err) : (l.Start loadErr).1 = l ∧ loadErr = some err := by
  unfold Listener.Start at h ⊢
  cases hr : l.running
  · cases loadErr with
    | none => simp [hr] at h
    | some e =>
      simp only [hr, Bool.false_eq_true, if_false, Option.some.injEq] at h ⊢
      exact ⟨trivial, h⟩
  · simp [hr] at h

theorem App.Stop_actions (a : App) (h : a.state = State.StateRunning) :
    (App.Stop a).2 =
      [AppAction.releaseAll a.mapper.ReleaseAll.2, AppAction.listenerStop]
        ++ (if a.onStateChange then [AppAction.stateChange State.StateStopped] else []) := by
  unfold App.Stop
  rw [if_neg (by rw [h]; decide)]

theorem not_stop_before_release (sigs0 : List Signal) (tail : List AppAction)
    (ht : tail = [] ∨ tail = [AppAction.stateChange State.StateStopped]) :
    ¬ ∃ sigs, Precedes AppAction.listenerStop (AppAction.releaseAll sigs)
        ([AppAction.releaseAll sigs0, AppAction.listenerStop] ++ tail) := by
  rintro ⟨sigs, pre, mid, post, h⟩
  rcases ht with ht | ht <;> subst ht
  · rcases pre with _ | ⟨x, _ | ⟨y, _ | ⟨z, pre⟩⟩⟩ <;> simp at h
  · rcases pre with _ | ⟨x, _ | ⟨y, _ | ⟨z, pre⟩⟩⟩
    · simp at h
    · rcases mid with _ | ⟨u, mid⟩ <;> simp at h
    · simp at h
    · simp at h

theorem comboDowns_eq (keys : List KeyCode) (mods : Modifiers) :
    keys.foldl (fun acc key => acc ++ [Signal.key key false])
        (comboMod mods .Win false (comboMod mods .Shift false
          (comboMod mods .Alt false (comboMod mods .Ctrl false [])))) =
      chordDowns keys mods := by
  rw [foldl_snoc_map]
  rcases mods with ⟨c, a, sh, w⟩
  cases c <;> cases a <;> cases sh <;> cases w <;> rfl

theorem comboUps_eq (keys : List KeyCode) (mods : Modifiers) :
    comboMod mods .Ctrl true (comboMod mods .Alt true (comboMod mods .Shift true
        (comboMod mods .Win true
          (keys.reverse.foldl (fun acc key => acc ++ [Signal.key key true]) [])))) =
      (chordDowns keys mods).reverse.map Signal.release := by
  rw [foldl_snoc_map]
  have hk : (keys.map (fun k => Signal.key k false)).reverse.map Signal.release =
      keys.reverse.map (fun k => Signal.key k true) := by
    rw [List.map_reverse, List.map_reverse, List.map_map]
    rfl
  unfold chordDowns
  rw [List.reverse_append, List.map_append, hk]
  rcases mods with ⟨c, a, sh, w⟩
  cases c <;> cases a <;> cases sh <;> cases w <;>
    simp [comboMod, Modifiers.get, pressOrder, Signal.release]

theorem SimulateCombo_eq (s : Simulator) (keys : List KeyCode) (mods : Modifiers)
    (fails1 fails2 : Bool) :
    SimulateCombo s keys mods fails1 fails2 =
      if sendInputs (chordDowns keys mods) fails1 then (s, chordDowns keys mods, true)
      else (s, chordDowns keys mods ++ (chordDowns keys mods).reverse.map Signal.release,
        sendInputs ((chordDowns keys mods).reverse.map Signal.release) fails2) := by
  unfold SimulateCombo
  simp only [comboDowns_eq, comboUps_eq]

theorem modFlags_append (u : Bool) (a b : List Signal) :
    modFlags u (a ++ b) = modFlags u a ++ modFlags u b := by
  unfold modFlags
  rw [List.filterMap_append]

theorem modFlags_map_modifier (u : Bool) (fs : List ModFlag) :
    modFlags u (fs.map (fun f => Signal.modifier f u)) = fs := by
  induction fs with
  | nil => rfl
  | cons f t ih =>
    unfold modFlags at ih ⊢
    simp only [List.map_cons, List.filterMap_cons, if_true, ih]

theorem modFlags_map_modifier_ne (u v : Bool) (h : v ≠ u) (fs : List ModFlag) :
    modFlags u (fs.map (fun f => Signal.modifier f v)) = [] := by
  induction fs with
  | nil => rfl
  | cons f t ih =>
    unfold modFlags at ih ⊢
    simp only [List.map_cons, List.filterMap_cons, if_neg h, ih]

theorem modFlags_map_key (u v : Bool) (ks : List KeyCode) :
    modFlags u (ks.map (fun k => Signal.key k v)) = [] := by
  induction ks with
  | nil => rfl
  | cons k t ih =>
    unfold modFlags at ih ⊢
    simp only [List.map_cons, List.filterMap_cons, ih]

theorem modFlags_PressKeys (s : Simulator) (keys : List KeyCode) (mods : Modifiers) :
    modFlags false (PressKeys s keys mods).2 =
      pressOrder.filter (fun f => mods.get f && !s.pressedMods.get f) := by
  rw [PressKeys_out, modFlags_append, modFlags_map_modifier, modFlags_map_key,
    List.append_nil]

theorem modFlags_ReleaseKeys (s : Simulator) (keys : List KeyCode) (mods : Modifiers) :
    modFlags true (ReleaseKeys s keys mods).2 =
      releaseOrder.filter (fun f => mods.get f && s.pressedMods.get f) := by
  rw [ReleaseKeys_out, modFlags_append, modFlags_map_modifier, modFlags_map_key,
    List.nil_append]

/-- A sublist of a duplicate-free list is that list filtered by membership. -/
theorem sublist_eq_filter {α : Type} [DecidableEq α] {l l1 : List α} (h : l.Sublist l1)
    (hn : l1.Nodup) : l = l1.filter (fun x => decide (x ∈ l)) := by
  induction h with
  | slnil => rfl
  | @cons l l1 a h ih =>
    rw [List.nodup_cons] at hn
    have ha : a ∉ l := fun hm => hn.1 (h.subset hm)
    rw [List.filter_cons, if_neg (by simpa using ha)]
    exact ih hn.2
  | @cons₂ l l1 a h ih =>
    rw [List.nodup_cons] at hn
    rw [List.filter_cons, if_pos (by simp)]
    congr 1
    have e : l1.filter (fun x => decide (x ∈ a :: l)) = l1.filter (fun x => decide (x ∈ l)) := by
      apply List.filter_congr
      intro x hx
      have hxa : x ≠ a := fun hh => hn.1 (hh ▸ hx)
      simp [hxa]
    rw [e]
    exact ih hn.2

/-- The modifier downs of a run of `PressKeys` calls are duplicate-free and are
exactly the modifiers held after it. -/
theorem runOps_press_downs (calls : List (List KeyCode × Modifiers))
    (st : Simulator × List Signal) (h1 : (modFlags false st.2).Nodup)
    (h2 : ∀ f, f ∈ modFlags false st.2 ↔ st.1.pressedMods.get f = true) :
    (modFlags false (runOps (pressCalls calls) st).2).Nodup
    ∧ ∀ f, f ∈ modFlags false (runOps (pressCalls calls) st).2 ↔
        (runOps (pressCalls calls) st).1.pressedMods.get f = true := by
  induction calls generalizing st with
  | nil => exact ⟨h1, h2⟩
  | cons c t ih =>
    have e : runOps (pressCalls (c :: t)) st =
        runOps (pressCalls t) ((PressKeys st.1 c.1 c.2).1, st.2 ++ (PressKeys st.1 c.1 c.2).2) :=
      rfl
    rw [e]
    apply ih
    · show (modFlags false (st.2 ++ (PressKeys st.1 c.1 c.2).2)).Nodup
      rw [modFlags_append, modFlags_PressKeys, List.nodup_append]
      refine ⟨h1, pressOrder_nodup.filter _, ?_⟩
      intro f hf hg
      have hh := (h2 f).mp hf
      rw [List.mem_filter, hh] at hg
      simp at hg
    · intro f
      show f ∈ modFlags false (st.2 ++ (PressKeys st.1 c.1 c.2).2) ↔
        (PressKeys st.1 c.1 c.2).1.pressedMods.get f = true
      rw [modFlags_append, modFlags_PressKeys, List.mem_append, h2 f, List.mem_filter,
        PressKeys_mods]
      have hm := mem_pressOrder f
      cases st.1.pressedMods.get f <;> cases c.2.get f <;> simp [hm]

theorem take_succ_set {α : Type} (l : List α) (n : Nat) (x : α) (h : n < l.length) :
    (l.set n x).take (n + 1) = l.take n ++ [x] := by
  induction l generalizing n with
  | nil => simp at h
  | cons a t ih =>
    cases n with
    | zero => simp
    | succ m =>
      simp only [List.length_cons, Nat.add_lt_add_iff_right] at h
      simp [ih m h]

theorem getD_append_length {α : Type} (l : List α) (c d : α) :
    (l ++ [c]).getD l.length d = c := by
  simp [List.getD_eq_getElem?_getD]

theorem getD_set_self {α : Type} (l : List α) (n : Nat) (c d : α) (h : n < l.length) :
    (l.set n c).getD n d = c := by
  simp [List.getD_eq_getElem?_getD, h]

/-- The slice `GetRules` returns shows what the table shows. -/
theorem RuleStore.GetRules_read (st : RuleStore) :
    readSlice st.GetRules.1.heap st.GetRules.2 = readSlice st.heap st.rules := by
  unfold RuleStore.GetRules readSlice
  simp only [getD_append_length, List.take_take, Nat.min_self]

/-- After `AddRule` the table shows what it showed, with the rule at the end. -/
theorem RuleStore.AddRule_read (st : RuleStore) (rule : MappingRule) (grow : Nat)
    (hv : st.Valid) :
    readSlice (st.AddRule rule grow).heap (st.AddRule rule grow).rules =
      readSlice st.heap st.rules ++ [some rule] := by
  obtain ⟨h1, h2, h3⟩ := hv
  unfold RuleStore.AddRule
  by_cases hc : st.rules.len < st.rules.cap
  · rw [if_pos hc]
    unfold readSlice
    simp only [getD_set_self _ _ _ _ h1]
    exact take_succ_set _ _ _ (by rw [h3]; exact hc)
  · rw [if_neg hc]
    unfold readSlice
    simp only [getD_append_length]
    have hl : (List.take st.rules.len (st.heap.getD st.rules.arr [])).length = st.rules.len := by
      rw [List.length_take, h3]
      exact Nat.min_eq_left h2
    rw [List.take_append_of_le_length (by rw [List.length_append, hl]; simp)]
    rw [List.take_of_length_le (by rw [List.length_append, hl]; simp)]

/-! ## Lemmas on the rules a dispatch visits -/

theorem runOps_cons (op : SimOp) (ops : List SimOp) (st : Simulator × List Signal) :
    runOps (op :: ops) st = runOps ops ((op.apply st.1).1, st.2 ++ (op.apply st.1).2) := rfl

theorem runOps_append (a b : List SimOp) (st : Simulator × List Signal) :
    runOps (a ++ b) st = runOps b (runOps a st) := by
  unfold runOps
  rw [List.foldl_append]

/-- The signals emitted before a run are only carried along by it. -/
theorem runOps_acc (ops : List SimOp) (s : Simulator) (acc : List Signal) :
    runOps ops (s, acc) = ((runOps ops (s, [])).1, acc ++ (runOps ops (s, [])).2) := by
  induction ops generalizing s acc with
  | nil => simp [runOps]
  | cons op ops ih =>
    rw [runOps_cons, runOps_cons, ih, ih (op.apply s).1 ([] ++ (op.apply s).2)]
    simp

theorem ruleOps_append (pressed : Bool) (a b : List MappingRule) :
    ruleOps pressed (a ++ b) = ruleOps pressed a ++ ruleOps pressed b := by
  unfold ruleOps
  rw [List.map_append]

theorem applyKeyboard_eq (tr : MappingRule) (pressed : Bool) (R : List MappingRule)
    (S : Simulator) (P : BoolMap Button) (o : List Signal) :
    applyKeyboard tr pressed (⟨R, S, P⟩, o) =
      (⟨R, (runOps (ruleOps pressed [tr]) (S, o)).1, P⟩,
        (runOps (ruleOps pressed [tr]) (S, o)).2) := by
  cases pressed <;> rfl

/-- One iteration of the target loop applies a list of keyboard rules that
depends on the table and the guard only. -/
theorem forwardTarget_visits (fuel : Nat) (rule : MappingRule)
    (ih : ∀ (R : List MappingRule) (P : BoolMap Button) (tr : MappingRule),
      freeSources R (P.set tr.SourceKey) < fuel →
      ∃ visited : List MappingRule,
        (∀ r ∈ visited, r ∈ R ∧ r.Enabled = true ∧ r.TargetType = TargetKeyboard)
        ∧ ∀ (S : Simulator) (pressed : Bool) (pid : Int),
          handleGamepadMapping fuel ⟨R, S, P⟩ tr pressed pid =
            some (⟨R, (runOps (ruleOps pressed visited) (S, [])).1, P.delete tr.SourceKey⟩,
              (runOps (ruleOps pressed visited) (S, [])).2))
    (R : List MappingRule) (P : BoolMap Button) (hμ : freeSources R P ≤ fuel) (t : Button) :
    ∃ visited : List MappingRule,
      (∀ r ∈ visited, r ∈ R ∧ r.Enabled = true ∧ r.TargetType = TargetKeyboard)
      ∧ ∀ (S : Simulator) (o : List Signal) (pressed : Bool) (pid : Int),
        forwardTarget (fun m1 tr => handleGamepadMapping fuel m1 tr pressed pid)
            rule pressed (⟨R, S, P⟩, o) t =
          some (⟨R, (runOps (ruleOps pressed visited) (S, o)).1, P⟩,
            (runOps (ruleOps pressed visited) (S, o)).2) := by
  cases hfind : findTargetRule R t rule with
  | none =>
    refine ⟨[], fun r hr => absurd hr (List.not_mem_nil r), ?_⟩
    intro S o pressed pid
    unfold forwardTarget
    simp only [hfind]
    rfl
  | some tr =>
    obtain ⟨hmem, hen, hsrc, _⟩ := findTargetRule_some hfind
    by_cases hkb : tr.TargetType = TargetKeyboard
    · refine ⟨[tr], ?_, ?_⟩
      · intro r hr
        rw [List.mem_singleton] at hr
        subst hr
        exact ⟨hmem, hen, hkb⟩
      · intro S o pressed pid
        unfold forwardTarget
        simp only [hfind, hkb, beq_self_eq_true, if_true]
        rw [applyKeyboard_eq]
    · by_cases hgp : tr.TargetType = TargetGamepad
      · cases hproc : P.get t with
        | true =>
          refine ⟨[], fun r hr => absurd hr (List.not_mem_nil r), ?_⟩
          intro S o pressed pid
          unfold forwardTarget
          simp only [hfind, hgp, hproc, gamepad_ne_keyboard, beq_iff_eq, if_false,
            beq_self_eq_true, if_true, Bool.not_true, Bool.false_eq_true]
          rfl
        | false =>
          have hP : t ∉ P.keys := (BoolMap.get_false_iff P t).mp hproc
          have hlt : freeSources R ((P.set t).set tr.SourceKey) < fuel := by
            rw [hsrc, BoolMap.set_set]
            have := freeSources_set_lt R P tr hmem (by rw [hsrc]; exact hP)
            rw [hsrc] at this
            omega
          obtain ⟨visited, hv, hrec⟩ := ih R (P.set t) tr hlt
          refine ⟨visited, hv, ?_⟩
          intro S o pressed pid
          unfold forwardTarget
          simp only [hfind, hgp, hproc, gamepad_ne_keyboard, beq_iff_eq, if_false,
            beq_self_eq_true, if_true, Bool.not_false, hrec S pressed pid]
          rw [hsrc, BoolMap.delete_set, BoolMap.delete_of_not_mem _ _ (by simp),
            BoolMap.delete_of_not_mem _ _ hP, runOps_acc _ S o]
      · refine ⟨[], fun r hr => absurd hr (List.not_mem_nil r), ?_⟩
        intro S o pressed pid
        unfold forwardTarget
        simp only [hfind, hkb, hgp, beq_iff_eq, if_false]
        rfl

theorem forwardLoop_visits (fuel : Nat) (rule : MappingRule)
    (ih : ∀ (R : List MappingRule) (P : BoolMap Button) (tr : MappingRule),
      freeSources R (P.set tr.SourceKey) < fuel →
      ∃ visited : List MappingRule,
        (∀ r ∈ visited, r ∈ R ∧ r.Enabled = true ∧ r.TargetType = TargetKeyboard)
        ∧ ∀ (S : Simulator) (pressed : Bool) (pid : Int),
          handleGamepadMapping fuel ⟨R, S, P⟩ tr pressed pid =
            some (⟨R, (runOps (ruleOps pressed visited) (S, [])).1, P.delete tr.SourceKey⟩,
              (runOps (ruleOps pressed visited) (S, [])).2))
    (R : List MappingRule) (P : BoolMap Button) (hμ : freeSources R P ≤ fuel)
    (ts : List Button) :
    ∃ visited : List MappingRule,
      (∀ r ∈ visited, r ∈ R ∧ r.Enabled = true ∧ r.TargetType = TargetKeyboard)
      ∧ ∀ (S : Simulator) (o : List Signal) (pressed : Bool) (pid : Int),
        forwardLoop (fun m1 tr => handleGamepadMapping fuel m1 tr pressed pid)
            rule pressed ts (⟨R, S, P⟩, o) =
          some (⟨R, (runOps (ruleOps pressed visited) (S, o)).1, P⟩,
            (runOps (ruleOps pressed visited) (S, o)).2) := by
  induction ts with
  | nil => exact ⟨[], fun r hr => absurd hr (List.not_mem_nil r), fun S o pressed pid => rfl⟩
  | cons t ts iht =>
    obtain ⟨v1, hv1, h1⟩ := forwardTarget_visits fuel rule ih R P hμ t
    obtain ⟨v2, hv2, h2⟩ := iht
    refine ⟨v1 ++ v2, ?_, ?_⟩
    · intro r hr
      rcases List.mem_append.mp hr with h | h
      · exact hv1 r h
      · exact hv2 r h
    · intro S o pressed pid
      rw [forwardLoop_cons, h1 S o pressed pid, Option.some_bind, h2, ruleOps_append,
        runOps_append]

/-- A call of `handleGamepadMapping` applies a list of keyboard rules of the
table that depends on the table, the guard and the forwarding rule only, not on
the held state nor on the direction of the event. -/
theorem handleGamepadMapping_visits (fuel : Nat) :
    ∀ (R : List MappingRule) (P : BoolMap Button) (rule : MappingRule),
      freeSources R (P.set rule.SourceKey) < fuel →
      ∃ visited : List MappingRule,
        (∀ r ∈ visited, r ∈ R ∧ r.Enabled = true ∧ r.TargetType = TargetKeyboard)
        ∧ ∀ (S : Simulator) (pressed : Bool) (pid : Int),
          handleGamepadMapping fuel ⟨R, S, P⟩ rule pressed pid =
            some (⟨R, (runOps (ruleOps pressed visited) (S, [])).1, P.delete rule.SourceKey⟩,
              (runOps (ruleOps pressed visited) (S, [])).2) := by
  induction fuel with
  | zero => intro R P rule h; omega
  | succ fuel ih =>
    intro R P rule h
    obtain ⟨visited, hv, hl⟩ := forwardLoop_visits fuel rule ih R (P.set rule.SourceKey)
      (by omega) rule.TargetButtons
    refine ⟨visited, hv, ?_⟩
    intro S pressed pid
    unfold handleGamepadMapping
    simp only [hl S [] pressed pid, BoolMap.delete_set]

/-- The dispatch of an event applies a list of keyboard rules of the table that
depends on the table, the guard and the button only. -/
theorem HandleEvent_visits (R : List MappingRule) (P : BoolMap Button) (button : Button) :
    ∃ visited : List MappingRule,
      (∀ r ∈ visited, r ∈ R ∧ r.Enabled = true ∧ r.TargetType = TargetKeyboard)
      ∧ ∀ (S : Simulator) (pressed : Bool) (pid : Int),
        HandleEvent (distinctSources R) ⟨R, S, P⟩ ⟨button, pressed, pid⟩ =
          some (⟨R, (runOps (ruleOps pressed visited) (S, [])).1, P⟩,
            (runOps (ruleOps pressed visited) (S, [])).2) := by
  cases hg : P.get button with
  | true =>
    refine ⟨[], fun r hr => absurd hr (List.not_mem_nil r), ?_⟩
    intro S pressed pid
    unfold HandleEvent
    simp only [hg, if_true]
    rfl
  | false =>
    have hP : button ∉ P.keys := (BoolMap.get_false_iff _ _).mp hg
    cases hfind : findRule R button with
    | none =>
      refine ⟨[], fun r hr => absurd hr (List.not_mem_nil r), ?_⟩
      intro S pressed pid
      unfold HandleEvent
      simp only [hg, Bool.false_eq_true, if_false, hfind]
      rfl
    | some rule =>
      obtain ⟨hmem, hen, hsrc⟩ := findRule_some hfind
      by_cases hkb : rule.TargetType = TargetKeyboard
      · refine ⟨[rule], ?_, ?_⟩
        · intro r hr
          rw [List.mem_singleton] at hr
          subst hr
          exact ⟨hmem, hen, hkb⟩
        · intro S pressed pid
          unfold HandleEvent
          simp only [hg, Bool.false_eq_true, if_false, hfind, hkb, beq_self_eq_true, if_true]
          rw [applyKeyboard_eq]
      · by_cases hgp : rule.TargetType = TargetGamepad
        · have hlt : freeSources R (P.set rule.SourceKey) < distinctSources R := by
            have h1 := freeSources_set_lt R P rule hmem (by rw [hsrc]; exact hP)
            have h2 := freeSources_le R P
            omega
          obtain ⟨visited, hv, hrec⟩ := handleGamepadMapping_visits _ R P rule hlt
          refine ⟨visited, hv, ?_⟩
          intro S pressed pid
          unfold HandleEvent
          simp only [hg, Bool.false_eq_true, if_false, hfind, hgp, gamepad_ne_keyboard,
            beq_iff_eq, beq_self_eq_true, if_true, hrec S pressed pid]
          rw [hsrc, BoolMap.delete_of_not_mem _ _ hP]
        · refine ⟨[], fun r hr => absurd hr (List.not_mem_nil r), ?_⟩
          intro S pressed pid
          unfold HandleEvent
          simp only [hg, Bool.false_eq_true, if_false, hfind, hkb, hgp, beq_iff_eq]
          rfl

theorem runOps_cons_nil (op : SimOp) (ops : List SimOp) (S : Simulator) :
    runOps (op :: ops) (S, []) =
      ((runOps ops ((op.apply S).1, [])).1,
        (op.apply S).2 ++ (runOps ops ((op.apply S).1, [])).2) := by
  rw [runOps_cons, runOps_acc]
  simp

theorem ruleOps_press_cons (r : MappingRule) (t : List MappingRule) (S : Simulator) :
    runOps (ruleOps true (r :: t)) (S, []) =
      ((runOps (ruleOps true t) ((PressKeys S r.TargetKeys r.Modifiers).1, [])).1,
        (PressKeys S r.TargetKeys r.Modifiers).2
          ++ (runOps (ruleOps true t) ((PressKeys S r.TargetKeys r.Modifiers).1, [])).2) :=
  runOps_cons_nil _ _ S

theorem ruleOps_release_cons (r : MappingRule) (t : List MappingRule) (S : Simulator) :
    runOps (ruleOps false (r :: t)) (S, []) =
      ((runOps (ruleOps false t) ((ReleaseKeys S r.TargetKeys r.Modifiers).1, [])).1,
        (ReleaseKeys S r.TargetKeys r.Modifiers).2
          ++ (runOps (ruleOps false t) ((ReleaseKeys S r.TargetKeys r.Modifiers).1, [])).2) :=
  runOps_cons_nil _ _ S

/-- The held state after the presses of a dispatch. -/
theorem press_run_state (visited : List MappingRule) (S : Simulator) :
    (∀ k, k ∈ (runOps (ruleOps true visited) (S, [])).1.pressedKeys.keys ↔
        k ∈ S.pressedKeys.keys ∨ ∃ r ∈ visited, k ∈ r.TargetKeys)
    ∧ (∀ f, (runOps (ruleOps true visited) (S, [])).1.pressedMods.get f = true ↔
        S.pressedMods.get f = true ∨ ∃ r ∈ visited, r.Modifiers.get f = true) := by
  induction visited generalizing S with
  | nil =>
    refine ⟨fun k => ?_, fun f => ?_⟩
    · show k ∈ S.pressedKeys.keys ↔ _
      simp
    · show S.pressedMods.get f = true ↔ _
      simp
  | cons r t ih =>
    rw [ruleOps_press_cons]
    obtain ⟨h1, h2⟩ := ih (PressKeys S r.TargetKeys r.Modifiers).1
    refine ⟨fun k => ?_, fun f => ?_⟩
    · rw [h1 k, PressKeys_keys]
      simp only [List.mem_cons, exists_eq_or_imp]
      tauto
    · rw [h2 f, PressKeys_mods]
      simp only [List.mem_cons, exists_eq_or_imp, Bool.or_eq_true]
      tauto

/-- The held state after the releases of a dispatch. -/
theorem release_run_state (visited : List MappingRule) (S : Simulator) :
    (∀ k, k ∈ (runOps (ruleOps false visited) (S, [])).1.pressedKeys.keys ↔
        k ∈ S.pressedKeys.keys ∧ ∀ r ∈ visited, k ∉ r.TargetKeys)
    ∧ (∀ f, (runOps (ruleOps false visited) (S, [])).1.pressedMods.get f = true ↔
        S.pressedMods.get f = true ∧ ∀ r ∈ visited, r.Modifiers.get f = false) := by
  induction visited generalizing S with
  | nil =>
    refine ⟨fun k => ?_, fun f => ?_⟩
    · show k ∈ S.pressedKeys.keys ↔ _
      simp
    · show S.pressedMods.get f = true ↔ _
      simp
  | cons r t ih =>
    rw [ruleOps_release_cons]
    obtain ⟨h1, h2⟩ := ih (ReleaseKeys S r.TargetKeys r.Modifiers).1
    refine ⟨fun k => ?_, fun f => ?_⟩
    · rw [h1 k, ReleaseKeys_keys]
      simp only [List.mem_cons, forall_eq_or_imp]
      tauto
    · rw [h2 f, ReleaseKeys_mods]
      simp only [List.mem_cons, forall_eq_or_imp, Bool.and_eq_true, Bool.not_eq_true']
      tauto

/-- The signals of the presses of a dispatch: downs only, of keys and
modifiers of the visited rules that were not held. -/
theorem press_run_out (visited : List MappingRule) (S : Simulator) :
    (∀ k up, Signal.key k up ∈ (runOps (ruleOps true visited) (S, [])).2 →
        up = false ∧ k ∉ S.pressedKeys.keys ∧ ∃ r ∈ visited, k ∈ r.TargetKeys)
    ∧ (∀ f up, Signal.modifier f up ∈ (runOps (ruleOps true visited) (S, [])).2 →
        up = false ∧ S.pressedMods.get f = false ∧ ∃ r ∈ visited, r.Modifiers.get f = true) := by
  induction visited generalizing S with
  | nil =>
    refine ⟨fun k up h => ?_, fun f up h => ?_⟩
    · exact absurd h (List.not_mem_nil _)
    · exact absurd h (List.not_mem_nil _)
  | cons r t ih =>
    rw [ruleOps_press_cons]
    obtain ⟨h1, h2⟩ := ih (PressKeys S r.TargetKeys r.Modifiers).1
    refine ⟨fun k up h => ?_, fun f up h => ?_⟩
    · rcases List.mem_append.mp h with h | h
      · obtain ⟨a, b, c⟩ := (PressKeys_mem_key _ _ _ _ _).mp h
        exact ⟨a, c, r, List.mem_cons_self _ _, b⟩
      · obtain ⟨a, b, r1, hr1, c⟩ := h1 k up h
        rw [PressKeys_keys] at b
        exact ⟨a, fun hk => b (Or.inl hk), r1, List.mem_cons_of_mem _ hr1, c⟩
    · rcases List.mem_append.mp h with h | h
      · obtain ⟨a, b, c⟩ := (PressKeys_mem_mod _ _ _ _ _).mp h
        exact ⟨a, c, r, List.mem_cons_self _ _, b⟩
      · obtain ⟨a, b, r1, hr1, c⟩ := h2 f up h
        rw [PressKeys_mods] at b
        refine ⟨a, ?_, r1, List.mem_cons_of_mem _ hr1, c⟩
        cases hS : S.pressedMods.get f
        · rfl
        · rw [hS] at b
          simp at b

/-- The signals of the releases of a dispatch: ups only, one for every held key
and modifier of the visited rules. -/
theorem release_run_out (visited : List MappingRule) (S : Simulator) :
    (∀ k up, Signal.key k up ∈ (runOps (ruleOps false visited) (S, [])).2 ↔
        up = true ∧ k ∈ S.pressedKeys.keys ∧ ∃ r ∈ visited, k ∈ r.TargetKeys)
    ∧ (∀ f up, Signal.modifier f up ∈ (runOps (ruleOps false visited) (S, [])).2 ↔
        up = true ∧ S.pressedMods.get f = true ∧ ∃ r ∈ visited, r.Modifiers.get f = true) := by
  induction visited generalizing S with
  | nil =>
    refine ⟨fun k up => ?_, fun f up => ?_⟩
    · show Signal.key k up ∈ ([] : List Signal) ↔ _
      simp
    · show Signal.modifier f up ∈ ([] : List Signal) ↔ _
      simp
  | cons r t ih =>
    rw [ruleOps_release_cons]
    obtain ⟨h1, h2⟩ := ih (ReleaseKeys S r.TargetKeys r.Modifiers).1
    refine ⟨fun k up => ?_, fun f up => ?_⟩
    · rw [List.mem_append, h1 k up, ReleaseKeys_mem_key, ReleaseKeys_keys]
      simp only [List.mem_cons, exists_eq_or_imp]
      tauto
    · rw [List.mem_append, h2 f up, ReleaseKeys_mem_mod, ReleaseKeys_mods]
      simp only [List.mem_cons, exists_eq_or_imp, Bool.and_eq_true, Bool.not_eq_true']
      cases hm : r.Modifiers.get f <;> simp

theorem filter_or_length {α : Type} (a b : α → Bool) (l : List α) :
    (l.filter (fun x => a x || b x)).length =
      (l.filter a).length + (l.filter (fun x => b x && !a x)).length := by
  induction l with
  | nil => rfl
  | cons x t ih =>
    simp only [List.filter_cons]
    cases a x <;> cases b x <;> simp [ih] <;> omega

theorem filter_and_not_length {α : Type} (a b : α → Bool) (l : List α) :
    (l.filter (fun x => a x && !b x)).length + (l.filter (fun x => b x && a x)).length =
      (l.filter a).length := by
  induction l with
  | nil => rfl
  | cons x t ih =>
    simp only [List.filter_cons]
    cases a x <;> cases b x <;> simp [ih] <;> omega

theorem releaseOrder_filter_length (p : ModFlag → Bool) :
    (releaseOrder.filter p).length = (pressOrder.filter p).length := by
  have e : releaseOrder = pressOrder.reverse := rfl
  rw [e, List.filter_reverse, List.length_reverse]

/-- What `PressKeys` emits is what it adds to the held state. -/
theorem PressKeys_count (s : Simulator) (keys : List KeyCode) (mods : Modifiers) :
    (PressKeys s keys mods).2.length + heldCount s = heldCount (PressKeys s keys mods).1 := by
  have hk : (PressKeys s keys mods).1.pressedKeys.keys.length =
      s.pressedKeys.keys.length +
        (firstOccurrences (keys.filter (fun k => !s.pressedKeys.get k))).length := by
    rw [← List.length_append]
    apply List.Perm.length_eq
    rw [List.perm_ext_iff_of_nodup (PressKeys s keys mods).1.pressedKeys.nodup]
    · intro a
      rw [PressKeys_keys, List.mem_append, mem_firstOccurrences, List.mem_filter]
      simp only [Bool.not_eq_true', BoolMap.get_false_iff]
      tauto
    · rw [List.nodup_append]
      refine ⟨s.pressedKeys.nodup, firstOccurrences_nodup _, ?_⟩
      intro a ha hb
      rw [mem_firstOccurrences, List.mem_filter] at hb
      simp only [Bool.not_eq_true', BoolMap.get_false_iff] at hb
      exact hb.2 ha
  have hm : (pressOrder.filter (fun f => (PressKeys s keys mods).1.pressedMods.get f)).length =
      (pressOrder.filter (fun f => s.pressedMods.get f)).length +
        (pressOrder.filter (fun f => mods.get f && !s.pressedMods.get f)).length := by
    rw [← filter_or_length]
    congr 1
    apply List.filter_congr
    intro f _
    exact PressKeys_mods s keys mods f
  rw [PressKeys_out, List.length_append, List.length_map, List.length_map]
  unfold heldCount
  omega

/-- What `ReleaseKeys` emits is what it takes from the held state. -/
theorem ReleaseKeys_count (s : Simulator) (keys : List KeyCode) (mods : Modifiers) :
    (ReleaseKeys s keys mods).2.length + heldCount (ReleaseKeys s keys mods).1 =
      heldCount s := by
  have hk : s.pressedKeys.keys.length =
      (ReleaseKeys s keys mods).1.pressedKeys.keys.length +
        (firstOccurrences (keys.filter (fun k => s.pressedKeys.get k))).length := by
    rw [← List.length_append]
    apply List.Perm.length_eq
    rw [List.perm_ext_iff_of_nodup s.pressedKeys.nodup]
    · intro a
      rw [List.mem_append, ReleaseKeys_keys, mem_firstOccurrences, List.mem_filter]
      simp only [BoolMap.get_iff]
      tauto
    · rw [List.nodup_append]
      refine ⟨(ReleaseKeys s keys mods).1.pressedKeys.nodup, firstOccurrences_nodup _, ?_⟩
      intro a ha hb
      rw [ReleaseKeys_keys] at ha
      rw [mem_firstOccurrences, List.mem_filter] at hb
      exact ha.2 hb.1
  have hm : (pressOrder.filter (fun f => (ReleaseKeys s keys mods).1.pressedMods.get f)).length
      + (releaseOrder.filter (fun f => mods.get f && s.pressedMods.get f)).length =
      (pressOrder.filter (fun f => s.pressedMods.get f)).length := by
    rw [releaseOrder_filter_length,
      ← filter_and_not_length (fun f => s.pressedMods.get f) (fun f => mods.get f) pressOrder]
    congr 2
    apply List.filter_congr
    intro f _
    exact ReleaseKeys_mods s keys mods f
  rw [ReleaseKeys_out, List.length_append, List.length_map, List.length_map]
  unfold heldCount
  omega

theorem press_run_count (visited : List MappingRule) (S : Simulator) :
    (runOps (ruleOps true visited) (S, [])).2.length + heldCount S =
      heldCount (runOps (ruleOps true visited) (S, [])).1 := by
  induction visited generalizing S with
  | nil => show 0 + heldCount S = heldCount S; omega
  | cons r t ih =>
    rw [ruleOps_press_cons]
    have h1 := PressKeys_count S r.TargetKeys r.Modifiers
    have h2 := ih (PressKeys S r.TargetKeys r.Modifiers).1
    simp only [List.length_append]
    omega

theorem release_run_count (visited : List MappingRule) (S : Simulator) :
    (runOps (ruleOps false visited) (S, [])).2.length
        + heldCount (runOps (ruleOps false visited) (S, [])).1 = heldCount S := by
  induction visited generalizing S with
  | nil => show 0 + heldCount S = heldCount S; omega
  | cons r t ih =>
    rw [ruleOps_release_cons]
    have h1 := ReleaseKeys_count S r.TargetKeys r.Modifiers
    have h2 := ih (ReleaseKeys S r.TargetKeys r.Modifiers).1
    simp only [List.length_append]
    omega

/-! ## Lemmas on polling and on reading a sample -/

theorem foldl_filter_snoc {α : Type} (p : α → Bool) (l : List α) (acc : List α) :
    l.foldl (fun out x => if p x then out ++ [x] else out) acc = acc ++ l.filter p := by
  induction l generalizing acc with
  | nil => simp
  | cons a t ih =>
    rw [List.foldl_cons, ih, List.filter_cons]
    cases p a <;> simp

theorem pollDerived_fixed (state : XInputState) (st : Listener × List ButtonEvent)
    (d : Derived) (h : st.1.prev d = d.level state) : pollDerived state st d = st := by
  unfold pollDerived
  simp only [h, bne_self_eq_false, Bool.false_eq_true, if_false]

theorem IsButtonPressed_of_high (s : XInputState) (b : Button) (h1 : b ≠ ButtonLT)
    (h2 : b ≠ ButtonRT) (h3 : b % 65536 = 0) : s.IsButtonPressed b = false := by
  unfold XInputState.IsButtonPressed Button.toUint16
  rw [if_neg h1, if_neg h2, h3, Nat.and_zero]
  rfl

/-- A poll of a sample whose levels are the stored ones changes nothing. -/
theorem poll_fixed (st : Listener × List ButtonEvent) (state : XInputState)
    (h1 : st.1.prevState = state.Gamepad.Buttons) (h2 : ∀ d, st.1.prev d = d.level state) :
    poll st (some state) = st := by
  have hb : pollButtons st state = st := by
    unfold pollButtons
    simp only [h1, Nat.xor_self, bne_self_eq_false, Bool.false_eq_true, if_false]
    obtain ⟨l, log⟩ := st
    simp only at h1
    simp only [← h1]
  unfold poll
  simp only [hb]
  unfold pollTriggers pollSticks
  simp only [pollDerived_fixed state st _ (h2 _)]

theorem makeKeyInput_inj (v w : Nat) (a b : Bool) (h : makeKeyInput v a = makeKeyInput w b) :
    v = w ∧ a = b := by
  unfold makeKeyInput at h
  simp only [INPUT.mk.injEq, KEYBDINPUT.mk.injEq, true_and, and_true] at h
  obtain ⟨hv, hf⟩ := h
  subst hv
  refine ⟨rfl, ?_⟩
  by_cases hr : v ≥ 0x70 ∧ v ≤ 0x7B
  · rw [if_pos hr, if_pos hr] at hf
    cases a <;> cases b <;> first | rfl | (exact absurd hf (by decide))
  · rw [if_neg hr, if_neg hr] at hf
    cases a <;> cases b <;> first | rfl | (exact absurd hf (by decide))

theorem uint16_of_plain (k : KeyCode) (h : PlainKey k) : ((uint16 k : Nat) : Int) = k := by
  unfold uint16
  rw [Int.emod_eq_of_lt h.1 h.2.1]
  exact Int.toNat_of_nonneg h.1

/-- On signals for modifier flags and plain keys the record sent tells the
signal. -/
theorem toINPUT_inj (x y : Signal) (hx : PlainSignal x) (hy : PlainSignal y)
    (h : x.toINPUT = y.toINPUT) : x = y := by
  cases x with
  | key k a =>
    cases y with
    | key l b =>
      obtain ⟨h1, h2⟩ := makeKeyInput_inj _ _ _ _ h
      have e : k = l := by
        rw [← uint16_of_plain k hx, ← uint16_of_plain l hy, h1]
      rw [e, h2]
    | modifier f b =>
      obtain ⟨h1, _⟩ := makeKeyInput_inj _ _ _ _ h
      obtain ⟨_, _, c1, c2, c3, c4⟩ := hx
      cases f
      · exact absurd h1 c1
      · exact absurd h1 c2
      · exact absurd h1 c3
      · exact absurd h1 c4
  | modifier f a =>
    cases y with
    | key l b =>
      obtain ⟨h1, _⟩ := makeKeyInput_inj _ _ _ _ h
      obtain ⟨_, _, c1, c2, c3, c4⟩ := hy
      cases f
      · exact absurd h1.symm c1
      · exact absurd h1.symm c2
      · exact absurd h1.symm c3
      · exact absurd h1.symm c4
    | modifier g b =>
      obtain ⟨h1, h2⟩ := makeKeyInput_inj _ _ _ _ h
      have e : f = g := by
        cases f <;> cases g <;> first | rfl | (exact absurd h1 (by decide))
      rw [e, h2]

/-- Among signals for modifier flags and plain keys, a down is outstanding in
the records sent exactly when it is outstanding in the signals. -/
theorem sentOutstanding_iff (d u : Signal) (trace : List Signal) (hd : PlainSignal d)
    (hu : PlainSignal u) (ht : ∀ x ∈ trace, PlainSignal x) :
    SentOutstanding d.toINPUT u.toINPUT (sentRecords trace) ↔ Outstanding d u trace := by
  unfold SentOutstanding Outstanding sentRecords
  constructor
  · rintro ⟨pre, post, hsplit, hno⟩
    obtain ⟨l1, l2, h1, h2, h3⟩ := List.map_eq_append_iff.mp hsplit
    obtain ⟨x, l3, h4, h5, h6⟩ := List.map_eq_cons_iff.mp h3
    have hxm : x ∈ trace := by rw [h1, h4]; simp
    have hxd : x = d := toINPUT_inj x d (ht x hxm) hd h5
    refine ⟨l1, l3, by rw [h1, h4, hxd], ?_⟩
    intro hmem
    apply hno
    rw [← h6]
    exact List.mem_map_of_mem _ hmem
  · rintro ⟨pre, post, hsplit, hno⟩
    refine ⟨pre.map Signal.toINPUT, post.map Signal.toINPUT, by rw [hsplit]; simp, ?_⟩
    intro hmem
    obtain ⟨x, hx, hxe⟩ := List.mem_map.mp hmem
    have hxm : x ∈ trace := by rw [hsplit]; simp [hx]
    have := toINPUT_inj x u (ht x hxm) hu hxe
    exact hno (this ▸ hx)

/-- A run of calls that name plain keys only holds and emits plain keys only. -/
theorem runOps_plain (ops : List SimOp) (hops : ∀ op ∈ ops, ∀ k ∈ op.keys, PlainKey k)
    (st : Simulator × List Signal) (h1 : ∀ k ∈ st.1.pressedKeys.keys, PlainKey k)
    (h2 : ∀ x ∈ st.2, PlainSignal x) :
    (∀ k ∈ (runOps ops st).1.pressedKeys.keys, PlainKey k)
    ∧ ∀ x ∈ (runOps ops st).2, PlainSignal x := by
  induction ops generalizing st with
  | nil => exact ⟨h1, h2⟩
  | cons op ops ih =>
    rw [runOps_cons]
    apply ih (fun o ho => hops o (List.mem_cons_of_mem _ ho))
    · intro k hk
      cases op with
      | press keys mods =>
        rcases (PressKeys_keys st.1 keys mods k).mp hk with h | h
        · exact h1 k h
        · exact hops _ (List.mem_cons_self _ _) k h
      | release keys mods => exact h1 k ((ReleaseKeys_keys st.1 keys mods k).mp hk).1
      | releaseAll => exact absurd hk (List.not_mem_nil _)
    · intro x hx
      rcases List.mem_append.mp hx with hx | hx
      · exact h2 x hx
      · cases x with
        | modifier f up => trivial
        | key k up =>
          cases op with
          | press keys mods =>
            exact hops _ (List.mem_cons_self _ _) k ((PressKeys_mem_key _ _ _ _ _).mp hx).2.1
          | release keys mods =>
            exact hops _ (List.mem_cons_self _ _) k ((ReleaseKeys_mem_key _ _ _ _ _).mp hx).2.1
          | releaseAll => exact h1 k ((ReleaseAllKeys_mem_key _ _ _).mp hx).2

theorem not_sentOutstanding_down_down_up (d u : INPUT) (hne : d ≠ u) :
    ¬ SentOutstanding d u [d, d, u] := by
  rintro ⟨pre, post, h, hno⟩
  rcases pre with _ | ⟨x, _ | ⟨y, _ | ⟨z, pre⟩⟩⟩
  · simp only [List.nil_append, List.cons.injEq, true_and] at h
    subst h
    exact hno (by simp)
  · simp only [List.singleton_append, List.cons.injEq, true_and] at h
    obtain ⟨_, h⟩ := h
    subst h
    exact hno (by simp)
  · simp only [List.cons_append, List.nil_append, List.cons.injEq] at h
    exact hne h.2.2.1.symm
  · simp at h

/-! ## The output sink (simulator) -/

/-- Held-state invariant on the signals told apart by the append site that
emitted them (the key code of the loop variable, or the modifier flag of the
block).  After any finite sequence of `PressKeys`, `ReleaseKeys` and
`ReleaseAllKeys` calls on a fresh simulator, a key is recorded in `pressedKeys`
exactly when a down-signal was appended for that key code with no up-signal for
it afterwards, and a modifier flag is set in `pressedMods` exactly when a
down-signal was appended for that flag with no up-signal for it afterwards. -/
theorem held_state_invariant (ops : List SimOp) :
    (∀ k, (runOps ops (NewSimulator, [])).1.pressedKeys.get k = true ↔
      Outstanding (Signal.key k false) (Signal.key k true) (runOps ops (NewSimulator, [])).2)
    ∧ (∀ f, (runOps ops (NewSimulator, [])).1.pressedMods.get f = true ↔
      Outstanding (Signal.modifier f false) (Signal.modifier f true)
        (runOps ops (NewSimulator, [])).2) := by
  have h := held_runOps ops (NewSimulator, [])
    (fun k => by simp [NewSimulator, not_outstanding_nil])
    (fun f => by simp [NewSimulator, not_outstanding_nil])
  refine ⟨fun k => ?_, h.2⟩
  rw [BoolMap.get_iff]
  exact h.1 k

/-- Counterexample to C1 as stated, on the records really sent.  The key with
code 0x11 is pressed, Ctrl is acquired as a modifier and the key 0x11 is
released: the records sent are a down, a down and an up of virtual key 0x11, so
no down of Ctrl is left without a later up, yet `pressedMods.Ctrl` is set.
Likewise W is pressed and the key 0x10057, which `uint16` turns into W, is
pressed and released: the last record for W is an up, yet W is recorded held. -/
theorem sent_records_contradict_held_state :
    (runOps collidingOps (NewSimulator, [])).1.pressedMods.get .Ctrl = true
    ∧ sentRecords (runOps collidingOps (NewSimulator, [])).2 =
        [makeKeyInput 0x11 false, makeKeyInput 0x11 false, makeKeyInput 0x11 true]
    ∧ ¬ SentOutstanding (Signal.modifier .Ctrl false).toINPUT
        (Signal.modifier .Ctrl true).toINPUT
        (sentRecords (runOps collidingOps (NewSimulator, [])).2)
    ∧ (runOps truncatedOps (NewSimulator, [])).1.pressedKeys.get KeyW = true
    ∧ sentRecords (runOps truncatedOps (NewSimulator, [])).2 =
        [makeKeyInput 0x57 false, makeKeyInput 0x57 false, makeKeyInput 0x57 true]
    ∧ ¬ SentOutstanding (Signal.key KeyW false).toINPUT (Signal.key KeyW true).toINPUT
        (sentRecords (runOps truncatedOps (NewSimulator, [])).2) := by
  have e1 : sentRecords (runOps collidingOps (NewSimulator, [])).2 =
      [makeKeyInput 0x11 false, makeKeyInput 0x11 false, makeKeyInput 0x11 true] := by decide
  have e2 : sentRecords (runOps truncatedOps (NewSimulator, [])).2 =
      [makeKeyInput 0x57 false, makeKeyInput 0x57 false, makeKeyInput 0x57 true] := by decide
  refine ⟨by decide, e1, ?_, by decide, e2, ?_⟩
  · rw [e1]
    exact not_sentOutstanding_down_down_up _ _ (by decide)
  · rw [e2]
    exact not_sentOutstanding_down_down_up _ _ (by decide)

/-- C1 (amended): held-state invariant on the records sent.  After any finite
sequence of `PressKeys`, `ReleaseKeys` and `ReleaseAllKeys` calls on a fresh
simulator in which every key named is a 16-bit virtual-key code other than the
four modifier codes 0x10, 0x11, 0x12 and 0x5B, such a key is recorded in
`pressedKeys` exactly when a down record `makeKeyInput(uint16(key), false)` was
sent with no up record for it afterwards, and a modifier flag is set in
`pressedMods` exactly when a down record of its virtual key was sent with no up
record for it afterwards; no other key is recorded held. -/
theorem held_state_invariant_sent (ops : List SimOp)
    (hops : ∀ op ∈ ops, ∀ k ∈ op.keys, PlainKey k) :
    (∀ k, PlainKey k →
      ((runOps ops (NewSimulator, [])).1.pressedKeys.get k = true ↔
        SentOutstanding (makeKeyInput (uint16 k) false) (makeKeyInput (uint16 k) true)
          (sentRecords (runOps ops (NewSimulator, [])).2)))
    ∧ (∀ f : ModFlag,
      (runOps ops (NewSimulator, [])).1.pressedMods.get f = true ↔
        SentOutstanding (makeKeyInput f.vk false) (makeKeyInput f.vk true)
          (sentRecords (runOps ops (NewSimulator, [])).2))
    ∧ (∀ k, ¬ PlainKey k → (runOps ops (NewSimulator, [])).1.pressedKeys.get k = false) := by
  have h := held_runOps ops (NewSimulator, [])
    (fun k => by simp [NewSimulator, not_outstanding_nil])
    (fun f => by simp [NewSimulator, not_outstanding_nil])
  have hp := runOps_plain ops hops (NewSimulator, [])
    (fun k hk => absurd hk (List.not_mem_nil _)) (fun x hx => absurd hx (List.not_mem_nil _))
  refine ⟨fun k hk => ?_, fun f => ?_, fun k hk => ?_⟩
  · rw [BoolMap.get_iff, h.1 k]
    exact (sentOutstanding_iff (Signal.key k false) (Signal.key k true) _ hk hk hp.2).symm
  · rw [h.2 f]
    exact (sentOutstanding_iff (Signal.modifier f false) (Signal.modifier f true) _
      trivial trivial hp.2).symm
  · rw [BoolMap.get_false_iff]
    exact fun hmem => hk (hp.1 k hmem)

/-- Instance of C1 (amended): W with Ctrl and Shift, X on top, W released with
Ctrl; X is recorded held and its down record has no later up. -/
theorem held_state_invariant_sent_witness :
    (∀ op ∈ plainOps, ∀ k ∈ op.keys, PlainKey k)
    ∧ ((runOps plainOps (NewSimulator, [])).1.pressedKeys.get KeyX = true ↔
        SentOutstanding (makeKeyInput (uint16 KeyX) false) (makeKeyInput (uint16 KeyX) true)
          (sentRecords (runOps plainOps (NewSimulator, [])).2)) :=
  ⟨by decide, (held_state_invariant_sent plainOps (by decide)).1 KeyX (by decide)⟩


/-- C2: for every held state, key list and modifier set, the signals `PressKeys`
emits are the modifier-down signals of the flags set in `mods` and not yet held
(in the order Ctrl, Alt, Shift, Win) followed by the key-down signals of the keys
of `keys` not yet held, one per distinct key in list order; no signal is emitted
twice, none is an up-signal and none is for a key or modifier that was already
held; afterwards exactly the previously held and the requested keys and
modifiers are recorded held. -/
theorem PressKeys_spec (s : Simulator) (keys : List KeyCode) (mods : Modifiers) :
    (PressKeys s keys mods).2 =
        (pressOrder.filter (fun f => mods.get f && !s.pressedMods.get f)).map
            (fun f => Signal.modifier f false) ++
          (firstOccurrences (keys.filter (fun k => !s.pressedKeys.get k))).map
            (fun k => Signal.key k false)
    ∧ (PressKeys s keys mods).2.Nodup
    ∧ (∀ k up, Signal.key k up ∈ (PressKeys s keys mods).2 ↔
        (up = false ∧ k ∈ keys ∧ s.pressedKeys.get k = false))
    ∧ (∀ f up, Signal.modifier f up ∈ (PressKeys s keys mods).2 ↔
        (up = false ∧ mods.get f = true ∧ s.pressedMods.get f = false))
    ∧ (∀ k, (PressKeys s keys mods).1.pressedKeys.get k =
        (s.pressedKeys.get k || decide (k ∈ keys)))
    ∧ (∀ f, (PressKeys s keys mods).1.pressedMods.get f =
        (s.pressedMods.get f || mods.get f)) := by
  refine ⟨PressKeys_out s keys mods, PressKeys_nodup s keys mods, ?_, ?_, ?_,
    PressKeys_mods s keys mods⟩
  · intro k up
    rw [PressKeys_mem_key, BoolMap.get_false_iff]
  · exact PressKeys_mem_mod s keys mods
  · intro k
    have h := PressKeys_keys s keys mods k
    simp only [BoolMap.get, h, Bool.decide_or]

/-- C3: `PressKeys` is idempotent: for every held state and every `(K, M)`, a
second `PressKeys(K, M)` directly after the first emits no signal and leaves the
held state as the first call left it. -/
theorem PressKeys_idempotent (s : Simulator) (K : List KeyCode) (M : Modifiers) :
    PressKeys (PressKeys s K M).1 K M = ((PressKeys s K M).1, []) :=
  PressKeys_again s K M

/-- C4: for every held state, key list and modifier set, the signals
`ReleaseKeys` emits are the key-up signals of the keys of `keys` that are held
(one per distinct key, in list order) followed by the modifier-up signals of the
flags set in `mods` that are held (in the order Win, Shift, Alt, Ctrl); no signal
is emitted twice, none is a down-signal and none is for a key or modifier that
is not held; afterwards those keys and modifiers are no longer recorded and
nothing else changed, and an identical second call emits nothing. -/
theorem ReleaseKeys_spec (s : Simulator) (keys : List KeyCode) (mods : Modifiers) :
    (ReleaseKeys s keys mods).2 =
        (firstOccurrences (keys.filter (fun k => s.pressedKeys.get k))).map
            (fun k => Signal.key k true) ++
          (releaseOrder.filter (fun f => mods.get f && s.pressedMods.get f)).map
            (fun f => Signal.modifier f true)
    ∧ (ReleaseKeys s keys mods).2.Nodup
    ∧ (∀ k up, Signal.key k up ∈ (ReleaseKeys s keys mods).2 ↔
        (up = true ∧ k ∈ keys ∧ s.pressedKeys.get k = true))
    ∧ (∀ f up, Signal.modifier f up ∈ (ReleaseKeys s keys mods).2 ↔
        (up = true ∧ mods.get f = true ∧ s.pressedMods.get f = true))
    ∧ (∀ k, (ReleaseKeys s keys mods).1.pressedKeys.get k =
        (s.pressedKeys.get k && !decide (k ∈ keys)))
    ∧ (∀ f, (ReleaseKeys s keys mods).1.pressedMods.get f =
        (s.pressedMods.get f && !mods.get f))
    ∧ ReleaseKeys (ReleaseKeys s keys mods).1 keys mods = ((ReleaseKeys s keys mods).1, []) := by
  refine ⟨ReleaseKeys_out s keys mods, ReleaseKeys_nodup s keys mods, ?_, ?_, ?_,
    ReleaseKeys_mods s keys mods, ?_⟩
  · intro k up
    rw [ReleaseKeys_mem_key, BoolMap.get_iff]
  · exact ReleaseKeys_mem_mod s keys mods
  · intro k
    have h := ReleaseKeys_keys s keys mods k
    simp only [BoolMap.get, h, Bool.decide_and, decide_not]
  · apply ReleaseKeys_noop
    · intro f hf
      rw [ReleaseKeys_mods, hf]
      simp
    · intro k hk h
      exact ((ReleaseKeys_keys s keys mods k).mp h).2 hk

/-- C5: for every held state, `ReleaseAllKeys` emits one key-up signal per held
key followed by one modifier-up signal per held modifier and nothing else (no
signal twice, no down-signal, nothing for a key or modifier that is not held);
afterwards the held state is that of a fresh simulator, so a directly following
`ReleaseAllKeys` emits nothing.  With W and Ctrl held the signals are key-up(W)
and modifier-up(Ctrl), and the second call is a no-op. -/
theorem ReleaseAllKeys_spec (s : Simulator) :
    (ReleaseAllKeys s).2 =
        s.pressedKeys.keys.map (fun k => Signal.key k true) ++
          (releaseOrder.filter (fun f => s.pressedMods.get f)).map
            (fun f => Signal.modifier f true)
    ∧ (ReleaseAllKeys s).2.Nodup
    ∧ (∀ k up, Signal.key k up ∈ (ReleaseAllKeys s).2 ↔
        (up = true ∧ s.pressedKeys.get k = true))
    ∧ (∀ f up, Signal.modifier f up ∈ (ReleaseAllKeys s).2 ↔
        (up = true ∧ s.pressedMods.get f = true))
    ∧ (∀ k, (ReleaseAllKeys s).1.pressedKeys.get k = false)
    ∧ (∀ f, (ReleaseAllKeys s).1.pressedMods.get f = false)
    ∧ (ReleaseAllKeys s).1 = NewSimulator
    ∧ ReleaseAllKeys (ReleaseAllKeys s).1 = ((ReleaseAllKeys s).1, [])
    ∧ (∀ m : Mapper, (Mapper.ReleaseAll m).2 = (ReleaseAllKeys m.simulator).2
        ∧ (Mapper.ReleaseAll m).1.simulator = NewSimulator)
    ∧ (ReleaseAllKeys (PressKeys NewSimulator [KeyW] ⟨true, false, false, false⟩).1).2 =
        [Signal.key KeyW true, Signal.modifier ModFlag.Ctrl true] := by
  refine ⟨ReleaseAllKeys_out s, ReleaseAllKeys_nodup s, ?_, ReleaseAllKeys_mem_mod s, ?_, ?_,
    rfl, rfl, fun m => ⟨rfl, rfl⟩, by decide⟩
  · intro k up
    rw [ReleaseAllKeys_mem_key, BoolMap.get_iff]
  · intro k
    rfl
  · intro f
    cases f <;> rfl

/-! ## The dispatch engine -/

/-- C6: when the event's button is not in-flight, `HandleEvent` applies the
first enabled rule in table order whose `SourceKey` is the event's button: if
that rule is a keyboard rule, a press has exactly the effect of
`PressKeys(rule.TargetKeys, rule.Modifiers)` and a release exactly the effect of
`ReleaseKeys(rule.TargetKeys, rule.Modifiers)`, whatever disabled rules or rules
for other buttons precede it and whatever rules follow it. -/
theorem HandleEvent_first_enabled_keyboard (fuel : Nat) (m : Mapper) (event : ButtonEvent)
    (pre post : List MappingRule) (rule : MappingRule)
    (hguard : m.processing.get event.Button = false)
    (htable : m.rules = pre ++ rule :: post)
    (hpre : ∀ r ∈ pre, ¬ (r.Enabled = true ∧ r.SourceKey = event.Button))
    (hen : rule.Enabled = true) (hsrc : rule.SourceKey = event.Button)
    (hkb : rule.TargetType = TargetKeyboard) :
    HandleEvent fuel m event =
      some (if event.Pressed then
          (⟨m.rules, (PressKeys m.simulator rule.TargetKeys rule.Modifiers).1, m.processing⟩,
            (PressKeys m.simulator rule.TargetKeys rule.Modifiers).2)
        else
          (⟨m.rules, (ReleaseKeys m.simulator rule.TargetKeys rule.Modifiers).1, m.processing⟩,
            (ReleaseKeys m.simulator rule.TargetKeys rule.Modifiers).2)) := by
  rw [HandleEvent_keyboard_eq fuel m event rule hguard
    (findRule_of_split m.rules pre post rule event.Button htable hpre hen hsrc) hkb]
  cases event.Pressed <;> simp [applyKeyboard]

/-- Instance of C6: a disabled rule ahead of the rule for W and an enabled rule
behind it, all for ButtonA; a press of ButtonA emits key-down(W) only. -/
theorem HandleEvent_first_enabled_keyboard_witness :
    shadowMapper.processing.get ButtonA = false
    ∧ shadowMapper.rules = [ruleDisabled] ++ ruleAW :: [ruleShadowed]
    ∧ (HandleEvent 0 shadowMapper ⟨ButtonA, true, 0⟩).map Prod.snd
        = some [Signal.key KeyW false] := by
  refine ⟨by decide, rfl, ?_⟩
  rw [HandleEvent_first_enabled_keyboard 0 shadowMapper ⟨ButtonA, true, 0⟩ [ruleDisabled]
    [ruleShadowed] ruleAW (by decide) rfl (by decide) rfl rfl rfl]
  decide

/-- C7: for a button that is not in-flight and whose first enabled rule is a
keyboard rule, any number `n + 1` of consecutive press dispatches emits
altogether what a single `PressKeys` of the rule emits: no signal twice, a
key-down for exactly the rule's keys that were not held, a modifier-down for
exactly its modifiers that were not held.  For the table with the single rule
ButtonA -> W and nothing held: the press emits key-down(W), a second press emits
nothing, the release then emits key-up(W). -/
theorem consecutive_presses_emit_once (fuel : Nat) (m : Mapper) (b : Button) (pid : Int)
    (rule : MappingRule) (n : Nat)
    (hguard : m.processing.get b = false)
    (hfind : findRule m.rules b = some rule)
    (hkb : rule.TargetType = TargetKeyboard) :
    dispatchAll fuel (List.replicate (n + 1) ⟨b, true, pid⟩) (m, []) =
        some (⟨m.rules, (PressKeys m.simulator rule.TargetKeys rule.Modifiers).1, m.processing⟩,
          (PressKeys m.simulator rule.TargetKeys rule.Modifiers).2)
    ∧ (PressKeys m.simulator rule.TargetKeys rule.Modifiers).2.Nodup
    ∧ (∀ k up, Signal.key k up ∈ (PressKeys m.simulator rule.TargetKeys rule.Modifiers).2 ↔
        (up = false ∧ k ∈ rule.TargetKeys ∧ m.simulator.pressedKeys.get k = false))
    ∧ (∀ f up, Signal.modifier f up ∈ (PressKeys m.simulator rule.TargetKeys rule.Modifiers).2 ↔
        (up = false ∧ rule.Modifiers.get f = true ∧ m.simulator.pressedMods.get f = false))
    ∧ HandleEvent 0 tapMapper ⟨ButtonA, true, 0⟩ = some (tapMapperHeld, [Signal.key KeyW false])
    ∧ HandleEvent 0 tapMapperHeld ⟨ButtonA, true, 0⟩ = some (tapMapperHeld, [])
    ∧ HandleEvent 0 tapMapperHeld ⟨ButtonA, false, 0⟩ = some (tapMapper, [Signal.key KeyW true])
    ∧ dispatchAll 0 [⟨ButtonA, true, 0⟩, ⟨ButtonA, true, 0⟩, ⟨ButtonA, false, 0⟩] (tapMapper, [])
        = some (tapMapper, [Signal.key KeyW false, Signal.key KeyW true]) := by
  refine ⟨?_, PressKeys_nodup _ _ _, ?_, PressKeys_mem_mod _ _ _, by decide, by decide,
    by decide, by decide⟩
  · rw [List.replicate_succ]
    unfold dispatchAll
    have h1 := HandleEvent_keyboard_eq fuel m ⟨b, true, pid⟩ rule hguard hfind hkb
    simp only [h1, applyKeyboard, if_true, List.nil_append]
    apply dispatchAll_replicate_noop
    have h2 := HandleEvent_keyboard_eq fuel
      ⟨m.rules, (PressKeys m.simulator rule.TargetKeys rule.Modifiers).1, m.processing⟩
      ⟨b, true, pid⟩ rule hguard hfind hkb
    rw [h2]
    simp only [applyKeyboard, if_true, PressKeys_again, List.nil_append]
  · intro k up
    rw [PressKeys_mem_key, BoolMap.get_false_iff]

/-- Instance of C7: three consecutive presses of ButtonA on the single-rule
table emit key-down(W) once. -/
theorem consecutive_presses_emit_once_witness :
    tapMapper.processing.get ButtonA = false
    ∧ findRule tapMapper.rules ButtonA = some ruleAW
    ∧ (dispatchAll 0 (List.replicate 3 ⟨ButtonA, true, 0⟩) (tapMapper, [])).map Prod.snd
        = some [Signal.key KeyW false] := by
  refine ⟨by decide, by decide, ?_⟩
  rw [(consecutive_presses_emit_once 0 tapMapper ButtonA 0 ruleAW 2 (by decide) (by decide)
    rfl).1]
  decide

/-- C8: forwarding to keyboard leaves.  When the event's button is not
in-flight, its first enabled rule is a forwarding rule and none of that rule's
targets resolves to another forwarding rule, `HandleEvent` goes through the
targets in order, looks up for each the first enabled rule with that source and
an ID other than the forwarding rule's, and presses (on press) or releases (on
release) the keys and modifiers of every keyboard rule found; the guard and the
table are as before.  The lookup finds exactly the first such rule of the table.
In any target loop, whatever the other targets resolve to, the step for a target
that resolves to a keyboard rule is exactly that rule's press or release.
With rules ButtonA -> Forward[ButtonB] and ButtonB -> Keyboard[X] and nothing
held, a press of ButtonA emits key-down(X) and nothing else. -/
theorem forward_to_keyboard_leaves (fuel : Nat) (m : Mapper) (event : ButtonEvent)
    (rule : MappingRule)
    (hguard : m.processing.get event.Button = false)
    (hfind : findRule m.rules event.Button = some rule)
    (hfw : rule.TargetType = TargetGamepad)
    (hleaf : ∀ t ∈ rule.TargetButtons, ∀ tr, findTargetRule m.rules t rule = some tr →
      tr.TargetType ≠ TargetGamepad) :
    HandleEvent (fuel + 1) m event =
        some (⟨m.rules,
            (pressLeaves m.rules rule event.Pressed rule.TargetButtons (m.simulator, [])).1,
            m.processing⟩,
          (pressLeaves m.rules rule event.Pressed rule.TargetButtons (m.simulator, [])).2)
    ∧ (∀ t tr, findTargetRule m.rules t rule = some tr ↔
        ∃ pre post, m.rules = pre ++ tr :: post
          ∧ (tr.Enabled = true ∧ tr.SourceKey = t ∧ tr.ID ≠ rule.ID)
          ∧ ∀ r ∈ pre, ¬ (r.Enabled = true ∧ r.SourceKey = t ∧ r.ID ≠ rule.ID))
    ∧ (∀ (recurse : Mapper → MappingRule → Option (Mapper × List Signal)) (pressed : Bool)
        (ts1 ts2 : List Button) (t : Button) (st0 st1 : Mapper × List Signal)
        (tr : MappingRule),
        forwardLoop recurse rule pressed ts1 st0 = some st1 →
        findTargetRule st1.1.rules t rule = some tr →
        tr.TargetType = TargetKeyboard →
        forwardLoop recurse rule pressed (ts1 ++ t :: ts2) st0 =
          forwardLoop recurse rule pressed ts2
            (if pressed then
              (⟨st1.1.rules, (PressKeys st1.1.simulator tr.TargetKeys tr.Modifiers).1,
                  st1.1.processing⟩,
                st1.2 ++ (PressKeys st1.1.simulator tr.TargetKeys tr.Modifiers).2)
            else
              (⟨st1.1.rules, (ReleaseKeys st1.1.simulator tr.TargetKeys tr.Modifiers).1,
                  st1.1.processing⟩,
                st1.2 ++ (ReleaseKeys st1.1.simulator tr.TargetKeys tr.Modifiers).2)))
    ∧ HandleEvent 1 leafMapper ⟨ButtonA, true, 0⟩ =
        some (⟨leafMapper.rules, (PressKeys NewSimulator [KeyX] Modifiers.zero).1,
          BoolMap.empty⟩, [Signal.key KeyX false]) := by
  refine ⟨?_, ?_, ?_, by decide⟩
  rotate_left 2
  · intro recurse pressed ts1 ts2 t st0 st1 tr h1 h2 h3
    rw [forwardLoop_keyboard_step recurse rule pressed ts1 ts2 t st0 st1 tr h1 h2 h3]
    cases pressed <;> rfl
  · have hP : event.Button ∉ m.processing.keys := (BoolMap.get_false_iff _ _).mp hguard
    obtain ⟨_, _, hsrc⟩ := findRule_some hfind
    unfold HandleEvent
    simp only [hguard, hfind, hfw, gamepad_ne_keyboard, beq_iff_eq, if_false, if_true,
      Bool.false_eq_true]
    unfold handleGamepadMapping
    simp only
    rw [forwardLoop_leaves _ rule event.Pressed rule.TargetButtons _ hleaf]
    simp only [BoolMap.delete_set]
    rw [hsrc, BoolMap.delete_of_not_mem _ _ hP]
  · intro t tr
    unfold findTargetRule
    rw [List.find?_eq_some]
    simp only [Bool.and_eq_true, beq_iff_eq, bne_iff_ne, ne_eq, Bool.not_eq_true',
      Bool.and_eq_false_iff, beq_eq_false_iff_ne, bne_eq_false_iff_eq, not_and]
    constructor
    · rintro ⟨⟨⟨h1, h2⟩, h3⟩, pre, post, hs, hp⟩
      refine ⟨pre, post, hs, ⟨h1, h2, h3⟩, ?_⟩
      intro r hr he hsk hid
      rcases hp r hr with (h | h) | h
      · rw [he] at h; cases h
      · exact h hsk
      · exact hid h
    · rintro ⟨pre, post, hs, ⟨h1, h2, h3⟩, hp⟩
      refine ⟨⟨⟨h1, h2⟩, h3⟩, pre, post, hs, ?_⟩
      intro r hr
      by_cases he : r.Enabled = true
      · by_cases hsk : r.SourceKey = t
        · exact Or.inr (not_not.mp (hp r hr he hsk))
        · exact Or.inl (Or.inr hsk)
      · exact Or.inl (Or.inl (by simpa using he))

/-- Instance of C8: the two-rule table of the scenario. -/
theorem forward_to_keyboard_leaves_witness :
    leafMapper.processing.get ButtonA = false
    ∧ findRule leafMapper.rules ButtonA = some ruleAB
    ∧ (HandleEvent 1 leafMapper ⟨ButtonA, true, 0⟩).map Prod.snd
        = some [Signal.key KeyX false] := by
  refine ⟨by decide, by decide, ?_⟩
  rw [(forward_to_keyboard_leaves 0 leafMapper ⟨ButtonA, true, 0⟩ ruleAB (by decide)
    (by decide) rfl (by decide)).1]
  decide

/-- C9: cycle safety.  For every rule table (cyclic or not), every guard and
held state and every event, `HandleEvent` returns as soon as the depth bound is
at least the number of distinct source symbols of the table, and a larger bound
gives the same result; a direct call of `handleGamepadMapping` returns with one
more level.  A target that is in-flight and resolves to a forwarding rule (or to
no rule) is skipped without a recursive call, whatever that call would do. -/
theorem dispatch_terminates (m : Mapper) (event : ButtonEvent) (fuel : Nat)
    (h : distinctSources m.rules ≤ fuel) :
    (∃ r, HandleEvent (distinctSources m.rules) m event = some r
        ∧ HandleEvent fuel m event = some r)
    ∧ (∀ rule pressed pid, ∃ r,
        handleGamepadMapping (distinctSources m.rules + 1) m rule pressed pid = some r
        ∧ handleGamepadMapping (fuel + 1) m rule pressed pid = some r)
    ∧ (∀ (recurse : Mapper → MappingRule → Option (Mapper × List Signal))
        (rule : MappingRule) (pressed : Bool) (st : Mapper × List Signal) (t : Button),
        st.1.processing.get t = true →
        (∀ tr, findTargetRule st.1.rules t rule = some tr → tr.TargetType = TargetGamepad) →
        forwardTarget recurse rule pressed st t = some st) := by
  refine ⟨?_, ?_, ?_⟩
  · obtain ⟨sim, out, h1, _⟩ := HandleEvent_total (distinctSources m.rules) m event (le_refl _)
    exact ⟨_, h1, HandleEvent_fuel_le _ _ h m event _ h1⟩
  · intro rule pressed pid
    have hlt : freeSources m.rules (m.processing.set rule.SourceKey) <
        distinctSources m.rules + 1 :=
      Nat.lt_succ_of_le (freeSources_le _ _)
    obtain ⟨sim, out, h1, _⟩ :=
      handleGamepadMapping_total (distinctSources m.rules + 1) pressed pid m rule hlt
    exact ⟨_, h1, handleGamepadMapping_fuel_le _ _ (by omega) pressed pid m rule _ h1⟩
  · intro recurse rule pressed st t hproc hres
    unfold forwardTarget
    cases hfind : findTargetRule st.1.rules t rule with
    | none => rfl
    | some tr =>
      simp [hres tr hfind, hproc, gamepad_ne_keyboard]

/-- Instance of C9: the three-rule cycle A -> B -> X -> A has three distinct
sources; a press of ButtonA returns with depth bound 3, while bound 2 is
exhausted by the three nested calls. -/
theorem dispatch_terminates_witness :
    distinctSources cycle3Mapper.rules ≤ 3
    ∧ (∃ r, HandleEvent (distinctSources cycle3Mapper.rules) cycle3Mapper ⟨ButtonA, true, 0⟩
          = some r
        ∧ HandleEvent 3 cycle3Mapper ⟨ButtonA, true, 0⟩ = some r)
    ∧ HandleEvent 2 cycle3Mapper ⟨ButtonA, true, 0⟩ = none :=
  ⟨by decide, (dispatch_terminates cycle3Mapper ⟨ButtonA, true, 0⟩ 3 (by decide)).1, by decide⟩

/-- C10: a table in which every enabled rule is a forwarding rule emits
nothing: for every such table, every guard and held state and every event,
`HandleEvent` returns (with the depth bound at the number of distinct sources)
without emitting a signal and with the simulator, the table and the guard
unchanged.  For the pair A -> Forward[B], B -> Forward[A] a press or a release of
either button emits nothing and changes nothing. -/
theorem forward_only_table_silent (m : Mapper) (event : ButtonEvent) (fuel : Nat)
    (hall : ∀ r ∈ m.rules, r.Enabled = true → r.TargetType = TargetGamepad)
    (h : distinctSources m.rules ≤ fuel) :
    HandleEvent fuel m event = some (m, [])
    ∧ HandleEvent 2 cycleMapper ⟨ButtonA, true, 0⟩ = some (cycleMapper, [])
    ∧ HandleEvent 2 cycleMapper ⟨ButtonA, false, 0⟩ = some (cycleMapper, [])
    ∧ HandleEvent 2 cycleMapper ⟨ButtonB, true, 0⟩ = some (cycleMapper, [])
    ∧ HandleEvent 2 cycleMapper ⟨ButtonB, false, 0⟩ = some (cycleMapper, []) := by
  refine ⟨?_, by decide, by decide, by decide, by decide⟩
  obtain ⟨sim, out, h1, hs⟩ := HandleEvent_total fuel m event h
  obtain ⟨h2, h3⟩ := hs hall
  rw [h1, h2, h3]

/-- Instance of C10: the two-rule cycle. -/
theorem forward_only_table_silent_witness :
    (∀ r ∈ cycleMapper.rules, r.Enabled = true → r.TargetType = TargetGamepad)
    ∧ distinctSources cycleMapper.rules ≤ 2
    ∧ HandleEvent 2 cycleMapper ⟨ButtonA, true, 0⟩ = some (cycleMapper, []) :=
  ⟨by decide, by decide,
    (forward_only_table_silent cycleMapper ⟨ButtonA, true, 0⟩ 2 (by decide) (by decide)).1⟩

/-- C11: cycle break at entry.  If the event's button is marked in-flight when
`HandleEvent` is entered, it returns at once: no signal is emitted and the held
state, the guard and the rule table are exactly as before, whatever rules the
table holds for that button and whatever the depth bound. -/
theorem HandleEvent_in_flight (fuel : Nat) (m : Mapper) (event : ButtonEvent)
    (h : m.processing.get event.Button = true) :
    HandleEvent fuel m event = some (m, []) := by
  unfold HandleEvent
  rw [if_pos h]

/-- Instance of C11: ButtonA is in-flight and has an enabled keyboard rule; the
press is dropped. -/
theorem HandleEvent_in_flight_witness :
    guardedMapper.processing.get ButtonA = true
    ∧ findRule guardedMapper.rules ButtonA = some ruleAW
    ∧ HandleEvent 0 guardedMapper ⟨ButtonA, true, 0⟩ = some (guardedMapper, []) :=
  ⟨by decide, by decide, HandleEvent_in_flight 0 guardedMapper ⟨ButtonA, true, 0⟩ (by decide)⟩

/-- C12: guard cleanup.  For every rule table, guard, held state and event,
`HandleEvent` returns with the in-flight set equal to the one at entry (and the
table unchanged); the same holds after any sequence of dispatches, so a guard
that starts empty is empty after every top-level dispatch.  A call of
`handleGamepadMapping` leaves the guard as at its entry less its own source,
which is its deferred cleanup. -/
theorem guard_restored (m : Mapper) (event : ButtonEvent) (fuel : Nat)
    (h : distinctSources m.rules ≤ fuel) :
    (∃ sim out, HandleEvent fuel m event = some (⟨m.rules, sim, m.processing⟩, out))
    ∧ (∀ events : List ButtonEvent, ∃ sim out,
        dispatchAll fuel events (m, []) = some (⟨m.rules, sim, m.processing⟩, out))
    ∧ (∀ (rules : List MappingRule) (s : Simulator) (e : ButtonEvent), ∃ sim out,
        HandleEvent (distinctSources rules) ⟨rules, s, BoolMap.empty⟩ e =
          some (⟨rules, sim, BoolMap.empty⟩, out))
    ∧ (∀ rule pressed pid, ∃ sim out,
        handleGamepadMapping (fuel + 1) m rule pressed pid =
          some (⟨m.rules, sim, m.processing.delete rule.SourceKey⟩, out)) := by
  refine ⟨?_, ?_, ?_, ?_⟩
  · obtain ⟨sim, out, h1, _⟩ := HandleEvent_total fuel m event h
    exact ⟨sim, out, h1⟩
  · intro events
    exact dispatchAll_total fuel events (m, []) h
  · intro rules s e
    obtain ⟨sim, out, h1, _⟩ :=
      HandleEvent_total (distinctSources rules) ⟨rules, s, BoolMap.empty⟩ e (le_refl _)
    exact ⟨sim, out, h1⟩
  · intro rule pressed pid
    have hlt : freeSources m.rules (m.processing.set rule.SourceKey) < fuel + 1 :=
      Nat.lt_succ_of_le (le_trans (freeSources_le _ _) h)
    obtain ⟨sim, out, h1, _⟩ := handleGamepadMapping_total (fuel + 1) pressed pid m rule hlt
    exact ⟨sim, out, h1⟩

/-- Instance of C12: after a press of ButtonA has gone round the three-rule
cycle the guard is empty again. -/
theorem guard_restored_witness :
    distinctSources cycle3Mapper.rules ≤ 3
    ∧ ∃ sim out, HandleEvent 3 cycle3Mapper ⟨ButtonA, true, 0⟩ =
        some (⟨cycle3Mapper.rules, sim, cycle3Mapper.processing⟩, out) :=
  ⟨by decide, (guard_restored cycle3Mapper ⟨ButtonA, true, 0⟩ 3 (by decide)).1⟩

/-- C13: unmapped input is a no-op.  If no enabled rule of the table has the
event's button as `SourceKey` (the table has no rule for it, or only disabled
ones), `HandleEvent` emits no signal and leaves the held state, the guard and
the table unchanged. -/
theorem HandleEvent_unmapped (fuel : Nat) (m : Mapper) (event : ButtonEvent)
    (h : ∀ r ∈ m.rules, ¬ (r.Enabled = true ∧ r.SourceKey = event.Button)) :
    HandleEvent fuel m event = some (m, []) := by
  unfold HandleEvent
  rw [findRule_none_of_unmapped m.rules event.Button h]
  split <;> rfl

/-- Instance of C13: the only rule for ButtonA is disabled. -/
theorem HandleEvent_unmapped_witness :
    (∀ r ∈ disabledMapper.rules, ¬ (r.Enabled = true ∧ r.SourceKey = ButtonA))
    ∧ HandleEvent 0 disabledMapper ⟨ButtonA, true, 0⟩ = some (disabledMapper, []) :=
  ⟨by decide, HandleEvent_unmapped 0 disabledMapper ⟨ButtonA, true, 0⟩ (by decide)⟩

/-! ## The edge detector -/

/-- C14: button edge detection.  For every listener (previous bitmask `p`) and
every sample (bitmask `c`), `pollButtons` hands to `sendEvent`, in the order of
`standardBtns`, one event for each of the 16 bit positions at which `c` and `p`
differ, with the bit's mask as button and `pressed` equal to that bit of `c`,
and no event for a bit on which they agree; no event is produced twice; the
previous bitmask is then `c`.  The masks of `standardBtns` are the sixteen
powers of two below 2^16. -/
theorem pollButtons_edges (st : Listener × List ButtonEvent) (state : XInputState) :
    (pollButtons st state).2 =
        st.2 ++ (standardBits.filter (fun i =>
            state.Gamepad.Buttons.testBit i != st.1.prevState.testBit i)).map
          (fun i => { Button := 2 ^ i, Pressed := state.Gamepad.Buttons.testBit i,
                      PlayerID := st.1.controllerID })
    ∧ (pollButtons st state).2 =
        st.2 ++ edgeEvents st.1.controllerID state st.1 (standardBits.map Sym.bit)
    ∧ (edgeEvents st.1.controllerID state st.1 (standardBits.map Sym.bit)).Nodup
    ∧ (∀ i : Fin 16,
        (edgeEvents st.1.controllerID state st.1 (standardBits.map Sym.bit)).filter
            (fun e => e.Button == 2 ^ i.val) =
          if (state.Gamepad.Buttons.testBit i.val != st.1.prevState.testBit i.val) = true then
            [{ Button := 2 ^ i.val, Pressed := state.Gamepad.Buttons.testBit i.val,
               PlayerID := st.1.controllerID }]
          else [])
    ∧ (∀ e, e ∈ edgeEvents st.1.controllerID state st.1 (standardBits.map Sym.bit) ↔
        ∃ i, i < 16
          ∧ state.Gamepad.Buttons.testBit i ≠ st.1.prevState.testBit i
          ∧ e = { Button := 2 ^ i, Pressed := state.Gamepad.Buttons.testBit i,
                  PlayerID := st.1.controllerID })
    ∧ (pollButtons st state).1.prevState = state.Gamepad.Buttons
    ∧ standardBtns = standardBits.map (fun i => 2 ^ i)
    ∧ (∀ i, i ∈ standardBits ↔ i < 16)
    ∧ standardBits.Nodup := by
  obtain ⟨h1, h2, _, _, _⟩ := pollButtons_spec st state
  refine ⟨by rw [h1, edgeEvents_bits], h1,
    edgeEvents_nodup _ _ _ _ bits_syms_nodup bits_subset_symOrder, ?_, ?_, h2, standardBtns_eq,
    mem_standardBits, standardBits_nodup⟩
  · intro i
    have hi : Sym.bit i.val ∈ standardBits.map Sym.bit :=
      List.mem_map.mpr ⟨i.val, (mem_standardBits i.val).mpr i.isLt, rfl⟩
    exact edgeEvents_filter_button st.1.controllerID state st.1 _ bits_syms_nodup
      bits_subset_symOrder (Sym.bit i.val) hi
  · intro e
    rw [edgeEvents_bits]
    simp only [List.mem_map, List.mem_filter, mem_standardBits, bne_iff_ne, ne_eq]
    constructor
    · rintro ⟨i, ⟨hi, hc⟩, rfl⟩
      exact ⟨i, hi, hc, rfl⟩
    · rintro ⟨i, hi, hc, rfl⟩
      exact ⟨i, ⟨hi, hc⟩, rfl⟩

/-- C15: derived-symbol edge detection.  The level of a trigger is
`rawValue > 128`; the level of a stick direction is `axis > 16384` for up and
right and `axis < -16384` for down and left, on the Y axis for up and down and
on the X axis for left and right.  For each of the ten symbols independently,
`pollTriggers` followed by `pollSticks` produces one event for the symbol, with
`pressed` equal to the new level, exactly when the level differs from the stored
one, and no event otherwise; afterwards the stored level is the new level. -/
theorem derived_edges (st : Listener × List ButtonEvent) (state : XInputState) :
    (pollSticks (pollTriggers st state) state).2 =
        st.2 ++ edgeEvents st.1.controllerID state st.1 (derivedOrder.map Sym.derived)
    ∧ (edgeEvents st.1.controllerID state st.1 (derivedOrder.map Sym.derived)).Nodup
    ∧ (∀ d : Derived,
        (edgeEvents st.1.controllerID state st.1 (derivedOrder.map Sym.derived)).filter
            (fun e => e.Button == d.button) =
          if (d.level state != st.1.prev d) = true then
            [{ Button := d.button, Pressed := d.level state, PlayerID := st.1.controllerID }]
          else [])
    ∧ (∀ e, e ∈ edgeEvents st.1.controllerID state st.1 (derivedOrder.map Sym.derived) ↔
        ∃ d : Derived, d.level state ≠ st.1.prev d
          ∧ e = { Button := d.button, Pressed := d.level state,
                  PlayerID := st.1.controllerID })
    ∧ (∀ d, (pollSticks (pollTriggers st state) state).1.prev d = d.level state)
    ∧ (∀ d, (poll st (some state)).1.prev d = d.level state)
    ∧ Derived.level state .LT = decide (state.Gamepad.LeftTrigger > 128)
    ∧ Derived.level state .RT = decide (state.Gamepad.RightTrigger > 128)
    ∧ Derived.level state .LeftStickUp = decide (state.Gamepad.ThumbLY > 16384)
    ∧ Derived.level state .LeftStickDown = decide (state.Gamepad.ThumbLY < -16384)
    ∧ Derived.level state .LeftStickLeft = decide (state.Gamepad.ThumbLX < -16384)
    ∧ Derived.level state .LeftStickRight = decide (state.Gamepad.ThumbLX > 16384)
    ∧ Derived.level state .RightStickUp = decide (state.Gamepad.ThumbRY > 16384)
    ∧ Derived.level state .RightStickDown = decide (state.Gamepad.ThumbRY < -16384)
    ∧ Derived.level state .RightStickLeft = decide (state.Gamepad.ThumbRX < -16384)
    ∧ Derived.level state .RightStickRight = decide (state.Gamepad.ThumbRX > 16384) := by
  obtain ⟨h1, h2, _, _⟩ := pollTriggersSticks_spec st state
  obtain ⟨_, p2, _, _, _⟩ := poll_spec st state
  refine ⟨h1, edgeEvents_nodup _ _ _ _ derived_syms_nodup derived_subset_symOrder, ?_, ?_, h2,
    fun d => p2 (Sym.derived d), rfl, rfl, rfl, rfl, rfl, rfl, rfl, rfl, rfl, rfl⟩
  · intro d
    have hd : Sym.derived d ∈ derivedOrder.map Sym.derived :=
      List.mem_map.mpr ⟨d, mem_derivedOrder d, rfl⟩
    exact edgeEvents_filter_button st.1.controllerID state st.1 _ derived_syms_nodup
      derived_subset_symOrder (Sym.derived d) hd
  · intro e
    rw [edgeEvents_derived]
    simp only [List.mem_map, List.mem_filter, mem_derivedOrder, true_and, bne_iff_ne, ne_eq]
    constructor
    · rintro ⟨d, hc, rfl⟩
      exact ⟨d, hc, rfl⟩
    · rintro ⟨d, hc, rfl⟩
      exact ⟨d, hc, rfl⟩

/-- C16: no duplicate edges.  After `Start` on a listener that was not running,
for every sequence of poll results (samples or failures), every button and
every point of the stream of events handed to `sendEvent`, the number of
pressed events for the button minus the number of released ones is 0 or 1; two
consecutive events of one button therefore differ in direction. -/
theorem no_duplicate_edges (l : Listener) (samples : List (Option XInputState))
    (h : l.running = false) :
    (∀ n b, balance b ((pollAll samples ((l.Start none).1, [])).2.take n) = 0
        ∨ balance b ((pollAll samples ((l.Start none).1, [])).2.take n) = 1)
    ∧ (∀ pre mid post e1 e2,
        (pollAll samples ((l.Start none).1, [])).2 = pre ++ e1 :: (mid ++ e2 :: post) →
        e2.Button = e1.Button → (∀ x ∈ mid, x.Button ≠ e1.Button) →
        e1.Pressed ≠ e2.Pressed) := by
  obtain ⟨b1, b2, _⟩ := Start_baseline l h
  have hinv := EdgeInv_pollAll samples ((l.Start none).1, []) (EdgeInv_baseline _ b1 b2)
  refine ⟨hinv.2.2, ?_⟩
  intro pre mid post e1 e2 hsplit hb hmid
  exact events_alternate _ pre mid post e1 e2 hinv.2.2 hsplit hb hmid

set_option maxRecDepth 8000 in
/-- Instance of C16: press, failed sample, release; after two events of the
stream the balance of ButtonA is 1, after all six it is 0. -/
theorem no_duplicate_edges_witness :
    (NewListener 0).running = false
    ∧ (balance ButtonA ((pollAll sampleRun (((NewListener 0).Start none).1, [])).2.take 2) = 0
      ∨ balance ButtonA ((pollAll sampleRun (((NewListener 0).Start none).1, [])).2.take 2) = 1)
    ∧ (pollAll sampleRun (((NewListener 0).Start none).1, [])).2 =
        [⟨ButtonA, true, 0⟩, ⟨ButtonDPadUp, true, 0⟩, ⟨ButtonLT, true, 0⟩,
          ⟨ButtonA, false, 0⟩, ⟨ButtonDPadUp, false, 0⟩, ⟨ButtonLT, false, 0⟩] :=
  ⟨rfl, (no_duplicate_edges (NewListener 0) sampleRun rfl).1 2 ButtonA, by decide⟩

/-- C17: clean baseline on start.  `Start` on a listener that is not running,
when the device layer loads, sets the previous bitmask to 0 and the ten
previous trigger and stick booleans to false whatever they were, makes a fresh
channel and marks the listener running; afterwards, for every sequence of
samples, the first event produced for any button is a press. -/
theorem Start_clean_baseline (l : Listener) (h : l.running = false) :
    (l.Start none).1.prevState = 0
    ∧ (l.Start none).1.prevLT = false ∧ (l.Start none).1.prevRT = false
    ∧ (l.Start none).1.prevLeftStickUp = false ∧ (l.Start none).1.prevLeftStickDown = false
    ∧ (l.Start none).1.prevLeftStickLeft = false ∧ (l.Start none).1.prevLeftStickRight = false
    ∧ (l.Start none).1.prevRightStickUp = false ∧ (l.Start none).1.prevRightStickDown = false
    ∧ (l.Start none).1.prevRightStickLeft = false
    ∧ (l.Start none).1.prevRightStickRight = false
    ∧ (l.Start none).1.eventChan = [] ∧ (l.Start none).1.running = true
    ∧ (l.Start none).2 = none
    ∧ (∀ (samples : List (Option XInputState)) (pre post : List ButtonEvent) (e : ButtonEvent),
        (pollAll samples ((l.Start none).1, [])).2 = pre ++ e :: post →
        (∀ x ∈ pre, x.Button ≠ e.Button) → e.Pressed = true) := by
  obtain ⟨b1, b2, b3, b4, _, b6⟩ := Start_baseline l h
  refine ⟨b1, b2 .LT, b2 .RT, b2 .LeftStickUp, b2 .LeftStickDown, b2 .LeftStickLeft,
    b2 .LeftStickRight, b2 .RightStickUp, b2 .RightStickDown, b2 .RightStickLeft,
    b2 .RightStickRight, b3, b4, b6, ?_⟩
  intro samples pre post e hsplit hfirst
  have hinv := EdgeInv_pollAll samples ((l.Start none).1, []) (EdgeInv_baseline _ b1 b2)
  exact first_event_pressed _ pre post e hinv.2.2 hsplit hfirst

/-- Instance of C17: a stopped listener with stale state (bitmask 0x1000 and
the left trigger marked pulled) is restarted; its baseline is clean. -/
theorem Start_clean_baseline_witness :
    ({ NewListener 0 with prevState := 0x1000, prevLT := true } : Listener).running = false
    ∧ (({ NewListener 0 with prevState := 0x1000, prevLT := true } : Listener).Start none).1.prevState
        = 0
    ∧ (({ NewListener 0 with prevState := 0x1000, prevLT := true } : Listener).Start none).1.prevLT
        = false :=
  ⟨rfl,
    (Start_clean_baseline ({ NewListener 0 with prevState := 0x1000, prevLT := true } : Listener)
      rfl).1,
    (Start_clean_baseline ({ NewListener 0 with prevState := 0x1000, prevLT := true } : Listener)
      rfl).2.1⟩

/-- C18: deterministic intra-tick order.  The events one successful `poll`
produces are the edges of the 26 tracked symbols taken in one fixed order: the
digital buttons A, B, X, Y, LB, RB, Start, Back, Xbox, Share, LeftThumb,
RightThumb, DPadUp, DPadDown, DPadLeft, DPadRight, then LT, RT, then left stick
up, down, left, right, then right stick up, down, left, right.  The sequence of
buttons of those events is that fixed list restricted to the symbols whose level
changed, so it depends on nothing but the set of changed symbols. -/
theorem poll_order (st : Listener × List ButtonEvent) (state : XInputState) :
    (poll st (some state)).2 = st.2 ++ edgeEvents st.1.controllerID state st.1 symOrder
    ∧ (edgeEvents st.1.controllerID state st.1 symOrder).map (fun e => e.Button) =
        (symOrder.filter (fun s => sampleLevel state s != storedLevel st.1 s)).map Sym.button
    ∧ ((edgeEvents st.1.controllerID state st.1 symOrder).map (fun e => e.Button)).Sublist
        (symOrder.map Sym.button)
    ∧ symOrder.map Sym.button =
        [ButtonA, ButtonB, ButtonX, ButtonY, ButtonLB, ButtonRB, ButtonStart, ButtonBack,
          ButtonXbox, ButtonShare, ButtonLeftThumb, ButtonRightThumb, ButtonDPadUp,
          ButtonDPadDown, ButtonDPadLeft, ButtonDPadRight, ButtonLT, ButtonRT,
          ButtonLeftStickUp, ButtonLeftStickDown, ButtonLeftStickLeft, ButtonLeftStickRight,
          ButtonRightStickUp, ButtonRightStickDown, ButtonRightStickLeft,
          ButtonRightStickRight]
    ∧ (symOrder.map Sym.button).Nodup := by
  obtain ⟨p1, _, _, _, _⟩ := poll_spec st state
  have hmap : (edgeEvents st.1.controllerID state st.1 symOrder).map (fun e => e.Button) =
      (symOrder.filter (fun s => sampleLevel state s != storedLevel st.1 s)).map Sym.button := by
    unfold edgeEvents
    rw [List.map_map]
    rfl
  refine ⟨p1, hmap, ?_, by decide, symOrder_buttons_nodup⟩
  rw [hmap]
  exact List.Sublist.map _ (List.filter_sublist _)

/-- C19: a failed sample is a no-op tick.  When reading the device state fails,
`poll` produces no event and leaves the listener (the button bitmask, both
trigger booleans, all eight stick booleans, the channel) exactly as it was, so
the next successful sample is compared with the last successfully sampled
state. -/
theorem poll_failed_sample (st : Listener × List ButtonEvent) :
    poll st none = st
    ∧ (∀ state, poll (poll st none) (some state) = poll st (some state))
    ∧ (∀ samples, pollAll (none :: samples) st = pollAll samples st) :=
  ⟨rfl, fun _ => rfl, fun _ => rfl⟩

/-- C20: bounded, non-blocking, order-preserving queue.  `sendEvent` puts the
event, with `PlayerID` the listener's controller id, at the tail of the channel
when it holds fewer than 64 events and leaves the listener unchanged when it
holds 64; `NewListener` and `Start` make an empty channel.  In every run of
sends and receives from a new listener the channel never holds more than 64
events, and the events received followed by the events still queued are a
subsequence, in production order, of the events sent. -/
theorem sendEvent_bounded (l : Listener) (button : Button) (pressed : Bool) :
    sendEvent l button pressed =
        (if l.eventChan.length < 64 then
          { l with eventChan := l.eventChan ++
              [{ Button := button, Pressed := pressed, PlayerID := l.controllerID }] }
        else l)
    ∧ (sendEvent l button pressed).eventChan.length ≤ max l.eventChan.length 64
    ∧ l.eventChan <+: (sendEvent l button pressed).eventChan
    ∧ (NewListener l.controllerID).eventChan = []
    ∧ (l.Start none).1.eventChan = (if l.running then l.eventChan else [])
    ∧ (∀ (steps : List ChanStep) (cid : Int),
        (runChan steps (NewListener cid, [], [])).1.eventChan.length ≤ 64
        ∧ ((runChan steps (NewListener cid, [], [])).2.2 ++
            (runChan steps (NewListener cid, [], [])).1.eventChan).Sublist
              (runChan steps (NewListener cid, [], [])).2.1) := by
  refine ⟨rfl, ?_, ?_, rfl, ?_, ?_⟩
  · unfold sendEvent eventChanCap
    split
    · simp only [List.length_append, List.length_singleton]
      omega
    · exact le_max_left _ _
  · unfold sendEvent
    split
    · exact List.prefix_append _ _
    · exact List.prefix_refl _
  · unfold Listener.Start
    cases l.running <;> rfl
  · intro steps cid
    obtain ⟨h1, h2, _⟩ := runChan_inv steps (NewListener cid, [], [])
      (by simp [NewListener, eventChanCap]) (by simp [NewListener])
    exact ⟨h1, h2⟩

/-! ## The rule table and the controller -/

/-- Counterexample to C21 as stated: the table holds one rule for ButtonA and it
is disabled; `HasConflict(ButtonA, "")` is true although no enabled rule has
that source. -/
theorem HasConflict_ignores_enabled :
    ¬ (conflictMapper.HasConflict ButtonA "" = true ↔
        ∃ r ∈ conflictMapper.rules, r.Enabled = true ∧ r.ID ≠ "" ∧ r.SourceKey = ButtonA) := by
  decide

/-- C21 (amended): for every rule table, symbol `s` and id `x`,
`HasConflict(s, x)` is true exactly when some rule of the table, enabled or not,
has an ID different from `x` and `SourceKey == s`; in particular, in a table
whose rules all have a non-empty ID, `HasConflict(s, "")` is true exactly when a
rule with `SourceKey == s` exists.  An enabled rule with a different ID and that
source always makes it true. -/
theorem HasConflict_spec (m : Mapper) (s : Button) (x : String) :
    (m.HasConflict s x = true ↔ ∃ r ∈ m.rules, r.ID ≠ x ∧ r.SourceKey = s)
    ∧ ((∀ r ∈ m.rules, r.ID ≠ "") →
        (m.HasConflict s "" = true ↔ ∃ r ∈ m.rules, r.SourceKey = s))
    ∧ ((∃ r ∈ m.rules, r.Enabled = true ∧ r.ID ≠ x ∧ r.SourceKey = s) →
        m.HasConflict s x = true)
    ∧ (m.HasConflict s x = false ↔ ∀ r ∈ m.rules, r.SourceKey = s → r.ID = x) := by
  refine ⟨HasConflict_iff m s x, fun hid => ?_, ?_, HasConflict_false_iff m s x⟩
  · rw [HasConflict_iff]
    exact ⟨fun ⟨r, hr, _, h2⟩ => ⟨r, hr, h2⟩, fun ⟨r, hr, h2⟩ => ⟨r, hr, hid r hr, h2⟩⟩
  · rintro ⟨r, hr, _, h1, h2⟩
    exact (HasConflict_iff m s x).mpr ⟨r, hr, h1, h2⟩

/-- C22 at its failing input: ButtonA is mapped by a rule of the table whose ID
is the empty string (a table installed by `SetRules`); `AddRuleMultiKeys` for
ButtonA is not rejected: it returns a rule and the table grows to two enabled
rules for ButtonA. -/
theorem add_not_rejected_for_empty_id :
    (∃ r ∈ noIDApp.mapper.rules, r.SourceKey = ButtonA)
    ∧ (noIDApp.AddRuleMultiKeys 5 ButtonA [KeyW] Modifiers.zero).2.1 =
        Except.ok (NewRuleMultiKeys "rule_5" ButtonA [KeyW] Modifiers.zero)
    ∧ (noIDApp.AddRuleMultiKeys 5 ButtonA [KeyW] Modifiers.zero).1.mapper.rules =
        [ruleNoID, NewRuleMultiKeys "rule_5" ButtonA [KeyW] Modifiers.zero] := by
  refine ⟨by decide, ?_, by decide⟩
  rw [AddRuleMultiKeys_of_free noIDApp 5 ButtonA [KeyW] Modifiers.zero (by decide)]
  have : generateRuleID 5 = "rule_5" := by decide
  rw [this]
  rfl

/-- What the add operations do guarantee.  Whenever the source
symbol is the `SourceKey` of a rule of the table with a non-empty ID,
`AddRuleMultiKeys`, `AddRule` and `AddRuleGamepad` return the conflict error,
perform no action and leave the controller, the table included, unchanged.
Whenever one of them returns a rule, the table is the old table with that rule
appended at the end, the rule is enabled, has the requested source and is the one
built by the constructor, and the source had no rule with a non-empty ID. -/
theorem add_rejects_conflict (a : App) (nanos : Int) (source : Button)
    (targets : List KeyCode) (target : KeyCode) (mods : Modifiers) (btargets : List Button)
    (h : ∃ r ∈ a.mapper.rules, r.SourceKey = source ∧ r.ID ≠ "") :
    a.AddRuleMultiKeys nanos source targets mods =
        (a, Except.error (AddError.conflict source), [])
    ∧ a.AddRule nanos source target mods = (a, Except.error (AddError.conflict source), [])
    ∧ a.AddRuleGamepad nanos source btargets =
        (a, Except.error (AddError.conflict source), [])
    ∧ (∀ (b : App) (n : Int) (src : Button) (ts : List KeyCode) (ms : Modifiers)
        (rule : MappingRule),
        (b.AddRuleMultiKeys n src ts ms).2.1 = Except.ok rule →
        (b.AddRuleMultiKeys n src ts ms).1.mapper.rules = b.mapper.rules ++ [rule]
        ∧ rule.Enabled = true ∧ rule.SourceKey = src
        ∧ rule = NewRuleMultiKeys (generateRuleID n) src ts ms
        ∧ (∀ r ∈ b.mapper.rules, r.SourceKey = src → r.ID = ""))
    ∧ (∀ (b : App) (n : Int) (src : Button) (ts : List Button) (rule : MappingRule),
        (b.AddRuleGamepad n src ts).2.1 = Except.ok rule →
        (b.AddRuleGamepad n src ts).1.mapper.rules = b.mapper.rules ++ [rule]
        ∧ rule.Enabled = true ∧ rule.SourceKey = src
        ∧ rule = NewRuleGamepad (generateRuleID n) src ts
        ∧ (∀ r ∈ b.mapper.rules, r.SourceKey = src → r.ID = "")) := by
  have hc : a.mapper.HasConflict source "" = true := by
    obtain ⟨r, hr, h1, h2⟩ := h
    exact (HasConflict_iff _ _ _).mpr ⟨r, hr, h2, h1⟩
  refine ⟨AddRuleMultiKeys_of_conflict a nanos source targets mods hc,
    AddRuleMultiKeys_of_conflict a nanos source [target] mods hc,
    AddRuleGamepad_of_conflict a nanos source btargets hc, ?_, ?_⟩
  · intro b n src ts ms rule hok
    cases hb : b.mapper.HasConflict src ""
    · rw [AddRuleMultiKeys_of_free b n src ts ms hb] at hok ⊢
      simp only [App.commitRule, Except.ok.injEq] at hok
      subst hok
      exact ⟨rfl, rfl, rfl, rfl, (HasConflict_false_iff _ _ _).mp hb⟩
    · rw [AddRuleMultiKeys_of_conflict b n src ts ms hb] at hok
      cases hok
  · intro b n src ts rule hok
    cases hb : b.mapper.HasConflict src ""
    · by_cases hs : src ∈ ts
      · rw [AddRuleGamepad_of_self b n src ts hb hs] at hok
        cases hok
      · rw [AddRuleGamepad_of_free b n src ts hb hs] at hok ⊢
        simp only [App.commitRule, Except.ok.injEq] at hok
        subst hok
        exact ⟨rfl, rfl, rfl, rfl, (HasConflict_false_iff _ _ _).mp hb⟩
    · rw [AddRuleGamepad_of_conflict b n src ts hb] at hok
      cases hok

/-- ButtonA is mapped by the rule with ID "r1"; a second rule for ButtonA is
refused and the controller is unchanged. -/
theorem add_rejects_conflict_witness :
    (∃ r ∈ tapApp.mapper.rules, r.SourceKey = ButtonA ∧ r.ID ≠ "")
    ∧ tapApp.AddRuleMultiKeys 7 ButtonA [KeyX] Modifiers.zero =
        (tapApp, Except.error (AddError.conflict ButtonA), []) :=
  ⟨by decide,
    (add_rejects_conflict tapApp 7 ButtonA [KeyX] KeyX Modifiers.zero [] (by decide)).1⟩

/-- C23: self-targeting forward rules are rejected at add time.  For every
controller, source symbol and target list that contains the source,
`AddRuleGamepad` returns an error (the self-target error when the source is
free, the conflict error otherwise), performs no action and leaves the
controller, the table included, unchanged; a rule returned by `AddRuleGamepad`
never has its own `SourceKey` among its `TargetButtons`. -/
theorem AddRuleGamepad_rejects_self (a : App) (nanos : Int) (source : Button)
    (targets : List Button) (h : source ∈ targets) :
    (a.AddRuleGamepad nanos source targets =
        (a, Except.error (AddError.conflict source), [])
      ∨ a.AddRuleGamepad nanos source targets = (a, Except.error AddError.selfTarget, []))
    ∧ (a.AddRuleGamepad nanos source targets).1 = a
    ∧ (a.mapper.HasConflict source "" = false →
        a.AddRuleGamepad nanos source targets = (a, Except.error AddError.selfTarget, []))
    ∧ (∀ (b : App) (n : Int) (src : Button) (ts : List Button) (rule : MappingRule),
        (b.AddRuleGamepad n src ts).2.1 = Except.ok rule →
        rule.SourceKey ∉ rule.TargetButtons ∧ rule.SourceKey = src
        ∧ rule.TargetButtons = ts) := by
  have key : a.AddRuleGamepad nanos source targets =
        (a, Except.error (AddError.conflict source), [])
      ∨ a.AddRuleGamepad nanos source targets = (a, Except.error AddError.selfTarget, []) := by
    cases hc : a.mapper.HasConflict source ""
    · exact Or.inr (AddRuleGamepad_of_self a nanos source targets hc h)
    · exact Or.inl (AddRuleGamepad_of_conflict a nanos source targets hc)
  refine ⟨key, ?_, fun hc => AddRuleGamepad_of_self a nanos source targets hc h, ?_⟩
  · rcases key with k | k <;> rw [k]
  · intro b n src ts rule hok
    cases hb : b.mapper.HasConflict src ""
    · by_cases hs : src ∈ ts
      · rw [AddRuleGamepad_of_self b n src ts hb hs] at hok
        cases hok
      · rw [AddRuleGamepad_of_free b n src ts hb hs] at hok
        simp only [App.commitRule, Except.ok.injEq] at hok
        subst hok
        exact ⟨hs, rfl, rfl⟩
    · rw [AddRuleGamepad_of_conflict b n src ts hb] at hok
      cases hok

/-- Instance of C23: a forward rule from ButtonA to ButtonB and ButtonA itself
is refused on a new controller. -/
theorem AddRuleGamepad_rejects_self_witness :
    ButtonA ∈ [ButtonB, ButtonA]
    ∧ App.New.AddRuleGamepad 9 ButtonA [ButtonB, ButtonA] =
        (App.New, Except.error AddError.selfTarget, []) :=
  ⟨by decide,
    (AddRuleGamepad_rejects_self App.New 9 ButtonA [ButtonB, ButtonA] (by decide)).2.2.1
      (by decide)⟩

/-- Counterexample to C24 as stated: `SetRules` installs two enabled rules for
ButtonA on a new controller; the table then has two enabled rules with that
source. -/
theorem SetRules_breaks_uniqueness :
    ¬ AtMostOnePerSource
        (runApp [AppOp.setRules [ruleAW, ruleShadowed]] App.New).mapper.rules := by
  intro h
  exact absurd (h ButtonA) (by decide)

/-- C24 (amended): at most one rule per source.  In every rule table reachable
from the empty table through `AddRule`, `AddRuleMultiKeys`, `AddRuleGamepad`,
`RemoveRule` and `SetRules`, where every sequence handed to `SetRules` has itself
at most one enabled rule per source and no enabled rule with an empty ID, at most
one enabled rule has any given `SourceKey` (and every enabled rule has a
non-empty ID). -/
theorem at_most_one_rule_per_source (ops : List AppOp)
    (hops : ∀ rs, AppOp.setRules rs ∈ ops →
      AtMostOnePerSource rs ∧ ∀ r ∈ rs, r.Enabled = true → r.ID ≠ "") :
    AtMostOnePerSource (runApp ops App.New).mapper.rules
    ∧ (∀ r ∈ (runApp ops App.New).mapper.rules, r.Enabled = true → r.ID ≠ "") :=
  runApp_invariant ops App.New hops (fun _ => Nat.zero_le _) (fun _ h => by cases h)

/-- Instance of C24 (amended): two adds for ButtonA (the second refused), a
one-rule table installed, a forward rule for ButtonB, a removal. -/
theorem at_most_one_rule_per_source_witness :
    (∀ rs, AppOp.setRules rs ∈ sampleOps →
      AtMostOnePerSource rs ∧ ∀ r ∈ rs, r.Enabled = true → r.ID ≠ "")
    ∧ AtMostOnePerSource (runApp sampleOps App.New).mapper.rules := by
  have h : ∀ rs, AppOp.setRules rs ∈ sampleOps →
      AtMostOnePerSource rs ∧ ∀ r ∈ rs, r.Enabled = true → r.ID ≠ "" := by
    intro rs hrs
    simp only [sampleOps, List.mem_cons, List.mem_singleton, AppOp.setRules.injEq,
      List.not_mem_nil, or_false, false_or] at hrs
    rcases hrs with h | h | h | h | h
    on_goal 3 => subst h
    all_goals first | cases h | skip
    refine ⟨fun s => ?_, by decide⟩
    simp only [List.filter_cons, List.filter_nil]
    split <;> simp
  exact ⟨h, (at_most_one_rule_per_source sampleOps h).1⟩

/-- C25: for every rule table and id, `RemoveRule(id)` returns true exactly when
the table holds a rule with that ID; it then removes the first rule with that ID
and keeps all other rules in their order, so the length drops by one; when it
returns false the mapper is unchanged.  The simulator and the guard are never
touched. -/
theorem RemoveRule_spec (m : Mapper) (id : String) :
    ((m.RemoveRule id).2 = true ↔ ∃ r ∈ m.rules, r.ID = id)
    ∧ ((m.RemoveRule id).2 = true →
        ∃ pre r post, m.rules = pre ++ r :: post ∧ r.ID = id ∧ (∀ x ∈ pre, x.ID ≠ id)
          ∧ (m.RemoveRule id).1.rules = pre ++ post
          ∧ (m.RemoveRule id).1.rules.length + 1 = m.rules.length)
    ∧ ((m.RemoveRule id).2 = false → (m.RemoveRule id).1 = m)
    ∧ (m.RemoveRule id).1.simulator = m.simulator
    ∧ (m.RemoveRule id).1.processing = m.processing
    ∧ (Mapper.withRules [ruleDisabled, ruleAW, ruleShadowed]).RemoveRule "r1" =
        (Mapper.withRules [ruleDisabled, ruleShadowed], true)
    ∧ (Mapper.withRules [ruleDisabled, ruleAW]).RemoveRule "r2" =
        (Mapper.withRules [ruleDisabled, ruleAW], false) := by
  unfold Mapper.RemoveRule
  cases h : removeFirst id m.rules with
  | none =>
    have hn := (removeFirst_none_iff id m.rules).mp h
    refine ⟨?_, ?_, fun _ => rfl, rfl, rfl, by decide, by decide⟩
    · simp only [Bool.false_eq_true, false_iff, not_exists, not_and]
      exact fun r hr => hn r hr
    · intro hf
      cases hf
  | some rs =>
    obtain ⟨pre, r, post, h1, h2, h3, h4⟩ := removeFirst_some id m.rules rs h
    refine ⟨?_, ?_, ?_, rfl, rfl, by decide, by decide⟩
    · simp only [true_iff]
      exact ⟨r, by rw [h1]; simp, h2⟩
    · intro _
      refine ⟨pre, r, post, h1, h2, h3, h4, ?_⟩
      simp only [h4, h1, List.length_append, List.length_cons]
      omega
    · intro hf
      cases hf

/-- Counterexample to C27 as stated: stopping a running controller that holds a
key performs release-all first and stops the listener second; no release-all
follows the listener stop in the actions of `App.Stop`. -/
theorem Stop_releases_before_listener_stop :
    runningApp.state = State.StateRunning
    ∧ (App.Stop runningApp).2 =
        [AppAction.releaseAll [Signal.key KeyW true, Signal.modifier ModFlag.Ctrl true],
          AppAction.listenerStop, AppAction.stateChange State.StateStopped]
    ∧ ¬ ∃ sigs, Precedes AppAction.listenerStop (AppAction.releaseAll sigs)
        (App.Stop runningApp).2 := by
  refine ⟨rfl, by decide, ?_⟩
  rw [App.Stop_actions runningApp rfl]
  exact not_stop_before_release _ _ (Or.inr rfl)

/-- C27 (amended): stop ordering.  In the Running -> Stopped transition performed
by `App.Stop`, the mapper's release-all is called first and the listener is
stopped only afterwards: the actions are `Mapper.ReleaseAll`, `Listener.Stop`,
then the state-change notification when a callback is set, so `Mapper.ReleaseAll`
precedes `Listener.Stop` and no release-all follows the listener stop.  After
it the state is Stopped, the listener is not running and nothing is held. -/
theorem Stop_order (a : App) (h : a.state = State.StateRunning) :
    (App.Stop a).2 =
        [AppAction.releaseAll (ReleaseAllKeys a.mapper.simulator).2, AppAction.listenerStop]
          ++ (if a.onStateChange then [AppAction.stateChange State.StateStopped] else [])
    ∧ Precedes (AppAction.releaseAll (ReleaseAllKeys a.mapper.simulator).2)
        AppAction.listenerStop (App.Stop a).2
    ∧ (¬ ∃ sigs, Precedes AppAction.listenerStop (AppAction.releaseAll sigs) (App.Stop a).2)
    ∧ (App.Stop a).1.state = State.StateStopped
    ∧ (App.Stop a).1.listener.running = false
    ∧ (App.Stop a).1.mapper.simulator = NewSimulator := by
  have hact := App.Stop_actions a h
  refine ⟨hact, ?_, ?_, ?_, ?_, ?_⟩
  · rw [hact]
    exact ⟨[], [], _, rfl⟩
  · rw [hact]
    apply not_stop_before_release
    cases a.onStateChange
    · exact Or.inl rfl
    · exact Or.inr rfl
  · unfold App.Stop
    rw [if_neg (by rw [h]; decide)]
  · unfold App.Stop
    rw [if_neg (by rw [h]; decide)]
    show (Listener.Stop a.listener).running = false
    unfold Listener.Stop
    cases hr : a.listener.running <;> simp [hr]
  · unfold App.Stop
    rw [if_neg (by rw [h]; decide)]
    show (ReleaseAllKeys a.mapper.simulator).1 = NewSimulator
    exact ReleaseAllKeys_state a.mapper.simulator

/-- Instance of C27 (amended): a running controller holding W and Ctrl. -/
theorem Stop_order_witness :
    runningApp.state = State.StateRunning
    ∧ Precedes (AppAction.releaseAll (ReleaseAllKeys runningApp.mapper.simulator).2)
        AppAction.listenerStop (App.Stop runningApp).2 :=
  ⟨rfl, (Stop_order runningApp rfl).2.1⟩

/-- C28: controller state machine no-ops.  `App.Start` while the state is
Running returns nil, performs no action (no listener start, no notification) and
leaves the controller unchanged; `App.Stop` while the state is Stopped performs no
action (no release-all, no listener stop, no notification) and leaves the
controller unchanged; when starting the listener fails, `App.Start` returns that
error, the state remains Stopped, the controller is unchanged, and neither the
event loop is launched nor a state change notified. -/
theorem Start_Stop_noops :
    (∀ (a : App) (loadErr : Option String), a.state = State.StateRunning →
        a.Start loadErr = (a, none, []))
    ∧ (∀ a : App, a.state = State.StateStopped → a.Stop = (a, []))
    ∧ (∀ (a : App) (loadErr : Option String) (err : String),
        a.state = State.StateStopped → (a.listener.Start loadErr).2 = some err →
        (a.Start loadErr).2.1 = some err ∧ (a.Start loadErr).1 = a
        ∧ (a.Start loadErr).1.state = State.StateStopped
        ∧ (a.Start loadErr).2.2 =
            [AppAction.listenerStart] ++ (if a.onError then [AppAction.errorHook err] else []))
    ∧ runningApp.Start none = (runningApp, none, [])
    ∧ App.New.Stop = (App.New, [])
    ∧ App.New.Start (some "xinput1_4.dll") =
        (App.New, some "xinput1_4.dll", [AppAction.listenerStart]) := by
  refine ⟨?_, ?_, ?_, by decide, by decide, by decide⟩
  · intro a loadErr h
    unfold App.Start
    rw [if_pos h]
  · intro a h
    unfold App.Stop
    rw [if_pos h]
  · intro a loadErr err h herr
    obtain ⟨h1, _⟩ := Listener.Start_fail a.listener loadErr err herr
    unfold App.Start
    rw [if_neg (by rw [h]; decide)]
    simp only [herr, h1]
    exact ⟨trivial, trivial, h, trivial⟩

/-! ## One-shot simulation and release order -/

/-- Counterexample to C30 as stated: when the operating system rejects the batch
of downs, `SimulateCombo` returns the error at once; the signals it handed over
are the down of W alone, with no up after it. -/
theorem SimulateCombo_stops_after_failed_downs :
    (SimulateCombo NewSimulator [KeyW] Modifiers.zero true false).2.1 = [Signal.key KeyW false]
    ∧ (SimulateCombo NewSimulator [KeyW] Modifiers.zero true false).2.1 ≠
        chordDowns [KeyW] Modifiers.zero
          ++ (chordDowns [KeyW] Modifiers.zero).reverse.map Signal.release := by
  decide

/-- C30 (amended): one-shot simulation does not touch the held bookkeeping.  For
every held state, key list and modifier set, `SimulateCombo(keys, mods)` (and
`SimulateKey`) leaves `pressedKeys` and `pressedMods` exactly as they were.  When
the batch of downs is accepted (or is empty), the signals it emits are a down for
every set modifier (Ctrl, Alt, Shift, Win) and every listed key, followed by an up
for each of them, the up-sequence being the exact reverse of the down-sequence,
and the result is that of sending the ups.  When the batch of downs is rejected,
only the downs were handed over and the error is returned. -/
theorem SimulateCombo_spec (s : Simulator) (keys : List KeyCode) (key : KeyCode)
    (mods : Modifiers) (fails1 fails2 : Bool) :
    (SimulateCombo s keys mods fails1 fails2).1 = s
    ∧ (SimulateKey s key fails1 fails2).1 = s
    ∧ (sendInputs (chordDowns keys mods) fails1 = false →
        (SimulateCombo s keys mods fails1 fails2).2.1 =
            chordDowns keys mods ++ (chordDowns keys mods).reverse.map Signal.release
        ∧ (SimulateCombo s keys mods fails1 fails2).2.2 =
            sendInputs ((chordDowns keys mods).reverse.map Signal.release) fails2)
    ∧ (sendInputs (chordDowns keys mods) fails1 = true →
        (SimulateCombo s keys mods fails1 fails2).2.1 = chordDowns keys mods
        ∧ (SimulateCombo s keys mods fails1 fails2).2.2 = true)
    ∧ (SimulateKey s key false fails2).2.1 = [Signal.key key false, Signal.key key true]
    ∧ (SimulateKey s key true fails2).2.1 = [Signal.key key false]
    ∧ (SimulateCombo s keys mods false fails2).2.1 =
        chordDowns keys mods ++ (chordDowns keys mods).reverse.map Signal.release
    ∧ (SimulateCombo tapMapperHeld.simulator [KeyX, KeyW] ⟨true, false, true, false⟩
          false false) =
        (tapMapperHeld.simulator,
          [Signal.modifier .Ctrl false, Signal.modifier .Shift false, Signal.key KeyX false,
            Signal.key KeyW false, Signal.key KeyW true, Signal.key KeyX true,
            Signal.modifier .Shift true, Signal.modifier .Ctrl true], false) := by
  have hfalse : ∀ l : List Signal, sendInputs l false = false := by
    intro l
    unfold sendInputs
    split <;> rfl
  refine ⟨?_, ?_, ?_, ?_, ?_, ?_, ?_, by decide⟩
  · rw [SimulateCombo_eq]
    split <;> rfl
  · unfold SimulateKey
    rw [SimulateCombo_eq]
    split <;> rfl
  · intro h
    rw [SimulateCombo_eq, h]
    exact ⟨rfl, rfl⟩
  · intro h
    rw [SimulateCombo_eq, h]
    exact ⟨rfl, rfl⟩
  · unfold SimulateKey
    rw [SimulateCombo_eq, hfalse]
    rfl
  · unfold SimulateKey
    rw [SimulateCombo_eq]
    rfl
  · rw [SimulateCombo_eq, hfalse]
    rfl

/-- Counterexample to C29 as stated: Shift is acquired by a first `PressKeys`
call and Ctrl by a second; the `ReleaseKeys` call for both emits the up of Shift
before the up of Ctrl, the same order as the downs and not its reverse. -/
theorem release_order_not_reversed :
    modFlags false (runOps (pressCalls shiftThenCtrl) (NewSimulator, [])).2 =
        [ModFlag.Shift, ModFlag.Ctrl]
    ∧ modFlags true
        (ReleaseKeys (runOps (pressCalls shiftThenCtrl) (NewSimulator, [])).1 []
          ⟨true, false, true, false⟩).2 = [ModFlag.Shift, ModFlag.Ctrl]
    ∧ modFlags true
        (ReleaseKeys (runOps (pressCalls shiftThenCtrl) (NewSimulator, [])).1 []
          ⟨true, false, true, false⟩).2 ≠
        (modFlags false (runOps (pressCalls shiftThenCtrl) (NewSimulator, [])).2).reverse := by
  decide

/-- C29 (amended): modifier release order is fixed.  For every sequence of
`PressKeys` calls on a new simulator followed by a `ReleaseKeys` call, the
modifier-up signals emitted by that `ReleaseKeys` call are those of the requested
modifiers whose down was emitted, in the order Win, Shift, Alt, Ctrl.  That is the
reverse of the order in which the corresponding modifier-down signals were
emitted whenever the downs were emitted in the order Ctrl, Alt, Shift, Win, which
is so in particular when the modifiers were acquired by one `PressKeys` call. -/
theorem release_order_fixed (calls : List (List KeyCode × Modifiers)) (keys : List KeyCode)
    (mods : Modifiers) :
    modFlags true (ReleaseKeys (runOps (pressCalls calls) (NewSimulator, [])).1 keys mods).2 =
        releaseOrder.filter (fun f => mods.get f
          && decide (f ∈ modFlags false (runOps (pressCalls calls) (NewSimulator, [])).2))
    ∧ ((modFlags false (runOps (pressCalls calls) (NewSimulator, [])).2).Sublist pressOrder →
        modFlags true
            (ReleaseKeys (runOps (pressCalls calls) (NewSimulator, [])).1 keys mods).2 =
          ((modFlags false (runOps (pressCalls calls) (NewSimulator, [])).2).filter
            (fun f => mods.get f)).reverse)
    ∧ (∀ c : List KeyCode × Modifiers,
        modFlags true (ReleaseKeys (runOps (pressCalls [c]) (NewSimulator, [])).1 keys mods).2 =
          ((modFlags false (runOps (pressCalls [c]) (NewSimulator, [])).2).filter
            (fun f => mods.get f)).reverse)
    ∧ modFlags true
        (ReleaseKeys (runOps (pressCalls [([KeyW], ⟨true, true, true, false⟩)])
          (NewSimulator, [])).1 [KeyW] ⟨true, false, true, true⟩).2 =
        [ModFlag.Shift, ModFlag.Ctrl] := by
  have base : ∀ cs : List (List KeyCode × Modifiers),
      modFlags true (ReleaseKeys (runOps (pressCalls cs) (NewSimulator, [])).1 keys mods).2 =
        releaseOrder.filter (fun f => mods.get f
          && decide (f ∈ modFlags false (runOps (pressCalls cs) (NewSimulator, [])).2)) := by
    intro cs
    have hinv := runOps_press_downs cs (NewSimulator, []) (by decide)
      (fun f => by cases f <;> decide)
    rw [modFlags_ReleaseKeys]
    apply List.filter_congr
    intro f _
    by_cases hf : f ∈ modFlags false (runOps (pressCalls cs) (NewSimulator, [])).2
    · rw [(hinv.2 f).mp hf]
      simp [hf]
    · have hg : (runOps (pressCalls cs) (NewSimulator, [])).1.pressedMods.get f = false := by
        cases hh : (runOps (pressCalls cs) (NewSimulator, [])).1.pressedMods.get f
        · rfl
        · exact absurd ((hinv.2 f).mpr hh) hf
      rw [hg]
      simp [hf]
  have rev : ∀ cs : List (List KeyCode × Modifiers),
      (modFlags false (runOps (pressCalls cs) (NewSimulator, [])).2).Sublist pressOrder →
      modFlags true (ReleaseKeys (runOps (pressCalls cs) (NewSimulator, [])).1 keys mods).2 =
        ((modFlags false (runOps (pressCalls cs) (NewSimulator, [])).2).filter
          (fun f => mods.get f)).reverse := by
    intro cs hsub
    rw [base cs]
    have hp := sublist_eq_filter hsub pressOrder_nodup
    generalize modFlags false (runOps (pressCalls cs) (NewSimulator, [])).2 = downs at hp ⊢
    have h2 : downs.filter (fun f => mods.get f) =
        (pressOrder.filter (fun x => decide (x ∈ downs))).filter (fun f => mods.get f) :=
      congrArg (List.filter (fun f => mods.get f)) hp
    rw [h2, List.filter_filter, ← List.filter_reverse]
    rfl
  refine ⟨base calls, rev calls, fun c => rev [c] ?_, by decide⟩
  have e : (runOps (pressCalls [c]) (NewSimulator, [])).2 = (PressKeys NewSimulator c.1 c.2).2 := by
    show [] ++ (PressKeys NewSimulator c.1 c.2).2 = _
    rw [List.nil_append]
  rw [e, modFlags_PressKeys]
  exact List.filter_sublist _

/-! ## Export, import and snapshots -/

/-- Export/import round trip on the table with its storage explicit: for every
slice `rs`, `SetRules(rs)` followed by `GetRules()` returns a slice that shows
the elements of `rs` in the same order, whatever the table held; and `AddRule(r)`
makes `GetRules()` show the previous sequence with `r` appended at the end. -/
theorem table_round_trip (st : RuleStore) (rs : Slice) (rule : MappingRule) (grow : Nat)
    (hv : st.Valid) :
    readSlice (st.SetRules rs).GetRules.1.heap (st.SetRules rs).GetRules.2 =
        readSlice st.heap rs
    ∧ readSlice (st.AddRule rule grow).GetRules.1.heap (st.AddRule rule grow).GetRules.2 =
        readSlice st.heap st.rules ++ [some rule] := by
  refine ⟨RuleStore.GetRules_read (st.SetRules rs), ?_⟩
  rw [RuleStore.GetRules_read, RuleStore.AddRule_read st rule grow hv]

/-- The round trip on a table of two rules. -/
theorem table_round_trip_witness :
    twoRuleStore.Valid
    ∧ readSlice (twoRuleStore.AddRule ruleAB 4).GetRules.1.heap
        (twoRuleStore.AddRule ruleAB 4).GetRules.2 =
        readSlice twoRuleStore.heap twoRuleStore.rules ++ [some ruleAB] :=
  ⟨⟨by decide, by decide, by decide⟩,
    (table_round_trip twoRuleStore twoRuleStore.rules ruleAB 4
      ⟨by decide, by decide, by decide⟩).2⟩

/-- C26 at its failing input: the table holds the rules "r1" and "k1";
`GetRules()` returns a snapshot showing both; the snapshot is handed to
`SetRules` and `RemoveRule("r1")` is called.  `SetRules` keeps the caller's slice
and `RemoveRule` moves the elements inside its backing array, so the snapshot,
still of length two, now shows "k1" twice: its elements are not the ones it was
returned with. -/
theorem snapshot_altered_by_later_calls :
    readSlice twoRuleStore.GetRules.1.heap twoRuleStore.GetRules.2 =
        [some ruleAW, some ruleBX]
    ∧ readSlice
        (runTable [TableOp.setRules twoRuleStore.GetRules.2, TableOp.removeRule "r1"]
          twoRuleStore.GetRules.1).heap twoRuleStore.GetRules.2 =
        [some ruleBX, some ruleBX]
    ∧ readSlice
        (runTable [TableOp.setRules twoRuleStore.GetRules.2, TableOp.removeRule "r1"]
          twoRuleStore.GetRules.1).heap
        (runTable [TableOp.setRules twoRuleStore.GetRules.2, TableOp.removeRule "r1"]
          twoRuleStore.GetRules.1).rules = [some ruleBX] := by
  decide

/-! ## Holds, polling and sample reading -/

/-- C31: no stuck keys through dispatch.  For every rule table (forwarding
chains, fan-out and cycles included), every held state and guard, and every
symbol `s`, the dispatch of a press of `s` followed by the dispatch of a release
of `s` both return and apply the same keyboard rules of the table in the same
order, the first through `PressKeys` and the second through `ReleaseKeys` (the
rules visited depend on the table, the guard and the symbol only, not on the
held state nor on the direction); the table and the guard are as before.  The press emits only downs and the release
only ups, every key and modifier pressed by the first dispatch is released by
the second, and afterwards no key or modifier of a visited rule is held.
Starting from an empty held state the held state is empty again, and the release
emits as many up-signals as the press emitted down-signals.  In the fan-out
table the press of A types Ctrl and W once and its release takes them back. -/
theorem press_release_round_trip (m : Mapper) (s : Button) (pid1 pid2 : Int) :
    (∃ (visited : List MappingRule) (m1 m2 : Mapper) (out1 out2 : List Signal),
      HandleEvent (distinctSources m.rules) m ⟨s, true, pid1⟩ = some (m1, out1)
      ∧ HandleEvent (distinctSources m.rules) m1 ⟨s, false, pid2⟩ = some (m2, out2)
      ∧ (∀ r ∈ visited, r ∈ m.rules ∧ r.Enabled = true ∧ r.TargetType = TargetKeyboard)
      ∧ (∀ (S : Simulator) (pressed : Bool) (pid : Int),
          HandleEvent (distinctSources m.rules) ⟨m.rules, S, m.processing⟩ ⟨s, pressed, pid⟩ =
            some (⟨m.rules, (runOps (ruleOps pressed visited) (S, [])).1, m.processing⟩,
              (runOps (ruleOps pressed visited) (S, [])).2))
      ∧ (m1.simulator, out1) = runOps (ruleOps true visited) (m.simulator, [])
      ∧ (m2.simulator, out2) = runOps (ruleOps false visited) (m1.simulator, [])
      ∧ m1.rules = m.rules ∧ m2.rules = m.rules
      ∧ m1.processing = m.processing ∧ m2.processing = m.processing
      ∧ (∀ sig ∈ out1, sig.isUp = false) ∧ (∀ sig ∈ out2, sig.isUp = true)
      ∧ (∀ k, Signal.key k false ∈ out1 → Signal.key k true ∈ out2)
      ∧ (∀ f, Signal.modifier f false ∈ out1 → Signal.modifier f true ∈ out2)
      ∧ (∀ r ∈ visited, (∀ k ∈ r.TargetKeys, m2.simulator.pressedKeys.get k = false)
          ∧ ∀ f, r.Modifiers.get f = true → m2.simulator.pressedMods.get f = false)
      ∧ (m.simulator = NewSimulator →
          m2.simulator = NewSimulator
          ∧ out2.countP Signal.isUp = out1.countP (fun sig => !sig.isUp)
          ∧ out2.length = out1.length))
    ∧ HandleEvent 3 fanOutMapper ⟨ButtonA, true, 0⟩ =
        some (⟨fanOutMapper.rules,
            (PressKeys NewSimulator [KeyW] ⟨true, false, false, false⟩).1, BoolMap.empty⟩,
          [Signal.modifier .Ctrl false, Signal.key KeyW false])
    ∧ HandleEvent 3
        ⟨fanOutMapper.rules, (PressKeys NewSimulator [KeyW] ⟨true, false, false, false⟩).1,
          BoolMap.empty⟩ ⟨ButtonA, false, 0⟩ =
        some (fanOutMapper, [Signal.key KeyW true, Signal.modifier .Ctrl true]) := by
  refine ⟨?_, by decide, by decide⟩
  obtain ⟨visited, hv, hH⟩ := HandleEvent_visits m.rules m.processing s
  have hups : ∀ sig ∈ (runOps (ruleOps false visited)
      ((runOps (ruleOps true visited) (m.simulator, [])).1, [])).2, sig.isUp = true := by
    intro sig h
    cases sig with
    | key k up => exact ((release_run_out visited _).1 k up).mp h |>.1
    | modifier f up => exact ((release_run_out visited _).2 f up).mp h |>.1
  have hdowns : ∀ sig ∈ (runOps (ruleOps true visited) (m.simulator, [])).2,
      sig.isUp = false := by
    intro sig h
    cases sig with
    | key k up => exact ((press_run_out visited _).1 k up h).1
    | modifier f up => exact ((press_run_out visited _).2 f up h).1
  refine ⟨visited,
    ⟨m.rules, (runOps (ruleOps true visited) (m.simulator, [])).1, m.processing⟩,
    ⟨m.rules, (runOps (ruleOps false visited)
      ((runOps (ruleOps true visited) (m.simulator, [])).1, [])).1, m.processing⟩,
    (runOps (ruleOps true visited) (m.simulator, [])).2,
    (runOps (ruleOps false visited)
      ((runOps (ruleOps true visited) (m.simulator, [])).1, [])).2,
    hH m.simulator true pid1, hH _ false pid2, hv, hH, rfl, rfl, rfl, rfl, rfl, rfl,
    hdowns, hups, ?_, ?_, ?_, ?_⟩
  · intro k hk
    obtain ⟨_, _, r, hr, hkr⟩ := (press_run_out visited m.simulator).1 k false hk
    exact ((release_run_out visited _).1 k true).mpr
      ⟨rfl, ((press_run_state visited m.simulator).1 k).mpr (Or.inr ⟨r, hr, hkr⟩), r, hr, hkr⟩
  · intro f hf
    obtain ⟨_, _, r, hr, hfr⟩ := (press_run_out visited m.simulator).2 f false hf
    exact ((release_run_out visited _).2 f true).mpr
      ⟨rfl, ((press_run_state visited m.simulator).2 f).mpr (Or.inr ⟨r, hr, hfr⟩), r, hr, hfr⟩
  · intro r hr
    refine ⟨fun k hk => ?_, fun f hf => ?_⟩
    · rw [BoolMap.get_false_iff]
      intro h
      exact (((release_run_state visited _).1 k).mp h).2 r hr hk
    · cases hg : (runOps (ruleOps false visited)
          ((runOps (ruleOps true visited) (m.simulator, [])).1, [])).1.pressedMods.get f
      · rfl
      · have := (((release_run_state visited _).2 f).mp hg).2 r hr
        rw [hf] at this
        cases this
  · intro hnew
    have hempty : (runOps (ruleOps false visited)
        ((runOps (ruleOps true visited) (m.simulator, [])).1, [])).1 = NewSimulator := by
      have hkeys : (runOps (ruleOps false visited)
          ((runOps (ruleOps true visited) (m.simulator, [])).1, [])).1.pressedKeys
            = BoolMap.empty := by
        apply BoolMap.ext_keys
        rw [BoolMap.keys_empty, List.eq_nil_iff_forall_not_mem]
        intro k hk
        obtain ⟨h1, h2⟩ := ((release_run_state visited _).1 k).mp hk
        rcases ((press_run_state visited m.simulator).1 k).mp h1 with h | ⟨r, hr, hkr⟩
        · rw [hnew] at h
          exact absurd h (List.not_mem_nil _)
        · exact h2 r hr hkr
      have hmods : (runOps (ruleOps false visited)
          ((runOps (ruleOps true visited) (m.simulator, [])).1, [])).1.pressedMods
            = Modifiers.zero := by
        apply Modifiers.ext_get
        intro f
        rw [Modifiers.get_zero]
        cases hg : (runOps (ruleOps false visited)
            ((runOps (ruleOps true visited) (m.simulator, [])).1, [])).1.pressedMods.get f
        · rfl
        · obtain ⟨h1, h2⟩ := ((release_run_state visited _).2 f).mp hg
          rcases ((press_run_state visited m.simulator).2 f).mp h1 with h | ⟨r, hr, hfr⟩
          · rw [hnew, show NewSimulator.pressedMods.get f = false from Modifiers.get_zero f] at h
            cases h
          · rw [h2 r hr] at hfr
            cases hfr
      cases hS : (runOps (ruleOps false visited)
          ((runOps (ruleOps true visited) (m.simulator, [])).1, [])).1 with
      | mk pk pm =>
        rw [hS] at hkeys hmods
        simp only at hkeys hmods
        rw [hkeys, hmods]
        rfl
    have hlen : (runOps (ruleOps false visited)
        ((runOps (ruleOps true visited) (m.simulator, [])).1, [])).2.length =
          (runOps (ruleOps true visited) (m.simulator, [])).2.length := by
      have c1 := press_run_count visited m.simulator
      have c2 := release_run_count visited (runOps (ruleOps true visited) (m.simulator, [])).1
      have z0 : heldCount m.simulator = 0 := by rw [hnew]; rfl
      have z2 : heldCount (runOps (ruleOps false visited)
          ((runOps (ruleOps true visited) (m.simulator, [])).1, [])).1 = 0 := by
        rw [hempty]; rfl
      omega
    refine ⟨hempty, ?_, hlen⟩
    rw [List.countP_eq_length.mpr hups,
      List.countP_eq_length.mpr (fun sig h => by rw [hdowns sig h]; rfl)]
    exact hlen

/-- C32: `ReleaseKeys` post-state and frame.  After `ReleaseKeys(K, M)` no key of
`K` and no modifier flag set in `M` is recorded held, whatever calls came before
(also after any number of `PressKeys` calls for the same keys and modifiers:
holds are not counted); every key outside `K` and every flag not set in `M` keeps
its held status.  `PressKeys(K, M)` changes the status only of keys in `K` and of
flags set in `M`, which it records held. -/
theorem ReleaseKeys_frame (s : Simulator) (keys : List KeyCode) (mods : Modifiers) :
    (∀ k ∈ keys, (ReleaseKeys s keys mods).1.pressedKeys.get k = false)
    ∧ (∀ f, mods.get f = true → (ReleaseKeys s keys mods).1.pressedMods.get f = false)
    ∧ (∀ k, k ∉ keys →
        (ReleaseKeys s keys mods).1.pressedKeys.get k = s.pressedKeys.get k)
    ∧ (∀ f, mods.get f = false →
        (ReleaseKeys s keys mods).1.pressedMods.get f = s.pressedMods.get f)
    ∧ (∀ k, k ∉ keys → (PressKeys s keys mods).1.pressedKeys.get k = s.pressedKeys.get k)
    ∧ (∀ f, mods.get f = false →
        (PressKeys s keys mods).1.pressedMods.get f = s.pressedMods.get f)
    ∧ (∀ k ∈ keys, (PressKeys s keys mods).1.pressedKeys.get k = true)
    ∧ (∀ f, mods.get f = true → (PressKeys s keys mods).1.pressedMods.get f = true)
    ∧ (∀ (ops : List SimOp) (n : Nat),
        (∀ k ∈ keys,
          (ReleaseKeys (runOps (ops ++ List.replicate n (SimOp.press keys mods)) (s, [])).1
            keys mods).1.pressedKeys.get k = false)
        ∧ (∀ f, mods.get f = true →
          (ReleaseKeys (runOps (ops ++ List.replicate n (SimOp.press keys mods)) (s, [])).1
            keys mods).1.pressedMods.get f = false))
    ∧ (ReleaseKeys
        (runOps [SimOp.press [KeyW] ⟨true, false, false, false⟩,
          SimOp.press [KeyW, KeyX] ⟨true, false, true, false⟩] (NewSimulator, [])).1
        [KeyW] ⟨true, false, false, false⟩).1 =
      (PressKeys NewSimulator [KeyX] ⟨false, false, true, false⟩).1 := by
  have rk : ∀ (t : Simulator) (k : KeyCode), k ∈ keys →
      (ReleaseKeys t keys mods).1.pressedKeys.get k = false := by
    intro t k hk
    rw [BoolMap.get_false_iff, ReleaseKeys_keys]
    exact fun h => h.2 hk
  have rm : ∀ (t : Simulator) (f : ModFlag), mods.get f = true →
      (ReleaseKeys t keys mods).1.pressedMods.get f = false := by
    intro t f hf
    rw [ReleaseKeys_mods, hf]
    simp
  refine ⟨rk s, rm s, ?_, ?_, ?_, ?_, ?_, ?_, fun ops n => ⟨rk _, rm _⟩, by decide⟩
  · intro k hk
    unfold BoolMap.get
    rw [decide_eq_decide, ReleaseKeys_keys]
    exact ⟨fun h => h.1, fun h => ⟨h, hk⟩⟩
  · intro f hf
    rw [ReleaseKeys_mods, hf]
    simp
  · intro k hk
    unfold BoolMap.get
    rw [decide_eq_decide, PressKeys_keys]
    exact ⟨fun h => h.resolve_right hk, Or.inl⟩
  · intro f hf
    rw [PressKeys_mods, hf]
    simp
  · intro k hk
    rw [BoolMap.get_iff, PressKeys_keys]
    exact Or.inr hk
  · intro f hf
    rw [PressKeys_mods, hf]
    simp

/-- C33: poll is idempotent on an unchanged sample.  For every listener state
and every raw device state `r`, after one successful poll of `r` the stored
previous state equals the levels of `r` (the bitmask equals `r`'s buttons, each
trigger and stick boolean equals its thresholded value in `r`), and polling the
same `r` again, any number of times, produces no event and changes no field. -/
theorem poll_idempotent (st : Listener × List ButtonEvent) (r : XInputState) :
    (poll st (some r)).1.prevState = r.Gamepad.Buttons
    ∧ (∀ d, (poll st (some r)).1.prev d = d.level r)
    ∧ (poll st (some r)).1.prevLT = decide (r.Gamepad.LeftTrigger > 128)
    ∧ (poll st (some r)).1.prevRightStickLeft = decide (r.Gamepad.ThumbRX < -16384)
    ∧ poll (poll st (some r)) (some r) = poll st (some r)
    ∧ (∀ n, pollAll (List.replicate n (some r)) (poll st (some r)) = poll st (some r)) := by
  obtain ⟨_, h2, h3, _, _⟩ := poll_spec st r
  have hd : ∀ d, (poll st (some r)).1.prev d = d.level r := fun d => h2 (Sym.derived d)
  have hfix := poll_fixed (poll st (some r)) r h3 hd
  refine ⟨h3, hd, hd .LT, hd .RightStickLeft, hfix, ?_⟩
  intro n
  induction n with
  | zero => rfl
  | succ n ih =>
    rw [List.replicate_succ]
    unfold pollAll at ih ⊢
    rw [List.foldl_cons, hfix]
    exact ih

/-- C35: `GetPressedButtons` returns exactly those elements of `AllButtons()`, in
`AllButtons()` order and without duplicates, for which `IsButtonPressed` holds,
where `IsButtonPressed(b)` is `LeftTrigger > 128` for LT, `RightTrigger > 128`
for RT and `Buttons AND (the low 16 bits of b) != 0` otherwise.  So the paddle
symbols and the eight stick-direction symbols are never reported as pressed,
whatever the axis values are, and ButtonXbox, which is not in `AllButtons()`, is
never in the result even when its bit is set. -/
theorem GetPressedButtons_spec (s : XInputState) :
    s.GetPressedButtons = AllButtons.filter (fun b => s.IsButtonPressed b)
    ∧ s.GetPressedButtons.Nodup
    ∧ s.GetPressedButtons.Sublist AllButtons
    ∧ (∀ b, b ∈ s.GetPressedButtons ↔ b ∈ AllButtons ∧ s.IsButtonPressed b = true)
    ∧ s.IsButtonPressed ButtonLT = decide (s.Gamepad.LeftTrigger > 128)
    ∧ s.IsButtonPressed ButtonRT = decide (s.Gamepad.RightTrigger > 128)
    ∧ (∀ b, b ≠ ButtonLT → b ≠ ButtonRT →
        s.IsButtonPressed b = decide (s.Gamepad.Buttons &&& (b % 2 ^ 16) ≠ 0))
    ∧ (∀ b ∈ paddleAndStickButtons,
        b % 2 ^ 16 = 0 ∧ s.IsButtonPressed b = false ∧ b ∉ s.GetPressedButtons)
    ∧ ButtonXbox ∉ AllButtons
    ∧ ButtonXbox ∉ s.GetPressedButtons
    ∧ busySample.IsButtonPressed ButtonXbox = true
    ∧ busySample.GetPressedButtons = [ButtonA, ButtonLT] := by
  have heq : s.GetPressedButtons = AllButtons.filter (fun b => s.IsButtonPressed b) := by
    unfold XInputState.GetPressedButtons
    rw [foldl_filter_snoc, List.nil_append]
  have hmem : ∀ b, b ∈ s.GetPressedButtons ↔ b ∈ AllButtons ∧ s.IsButtonPressed b = true := by
    intro b
    rw [heq, List.mem_filter]
  have hps : ∀ b ∈ paddleAndStickButtons, b % 2 ^ 16 = 0 ∧ s.IsButtonPressed b = false := by
    intro b hb
    simp only [paddleAndStickButtons, List.mem_cons, List.mem_singleton, List.not_mem_nil,
      or_false] at hb
    rcases hb with h | h | h | h | h | h | h | h | h | h | h | h <;> subst h <;>
      exact ⟨by decide, IsButtonPressed_of_high s _ (by decide) (by decide) (by decide)⟩
  refine ⟨heq, ?_, ?_, hmem, ?_, ?_, ?_, ?_, by decide, ?_, by decide, by decide⟩
  · rw [heq]
    exact List.Nodup.filter _ (by decide)
  · rw [heq]
    exact List.filter_sublist _
  · unfold XInputState.IsButtonPressed
    rw [if_pos rfl]
    rfl
  · unfold XInputState.IsButtonPressed
    rw [if_neg (by decide), if_pos rfl]
    rfl
  · intro b h1 h2
    unfold XInputState.IsButtonPressed Button.toUint16
    rw [if_neg h1, if_neg h2]
    have e : (2 : Nat) ^ 16 = 65536 := by norm_num
    rw [e]
    generalize s.Gamepad.Buttons &&& b % 65536 = x
    by_cases h : x = 0
    · subst h
      rfl
    · rw [bne_iff_ne.mpr h]
      exact (decide_eq_true h).symm
  · intro b hb
    exact ⟨(hps b hb).1, (hps b hb).2, fun h => by
      have := ((hmem b).mp h).2
      rw [(hps b hb).2] at this
      cases this⟩
  · intro h
    exact absurd ((hmem ButtonXbox).mp h).1 (by decide)

end GamepadKeyMapper
